import Mathlib

/-!
# Telecom-tower image renderer: embedding of `renderer.go`

A shallow embedding of the Go package `imgrenderer` (file `renderer.go`) together with the
properties its specification states about it.

Conventions of the embedding.

* Go `int` is modelled by `Int` and `uint32` by `Nat`; the conversions `uint8(..)` of `toRGB`
  are written `% 256`.  `int64 n` is the value the 64-bit `int` holds for the exact result `n`.
  The index `x*Rows + y` of `GetPixel` is computed in the 64-bit `int`, and the length of a
  bitmap is a Go `int` (`Matrix.lenInt`).
* The renderers compute the products `w*pixSize`, `h*pixSize` and the pixel coordinates exactly,
  and `image.NewRGBA` allocates every rectangle.  This agrees with the Go program as long as
  the length `4*w*h` of the pixel buffer fits the `int`: beyond that a product can wrap, and
  `image.NewRGBA` panics when the length overflows.  `machineBounds` is the rectangle handed to
  `image.NewRGBA` with the products as the 64-bit `int` computes them.  A property that speaks
  of matrices of any size and of any bitmap length carries the hypothesis that the pixel buffer
  is below `2^31` bytes, so that the length fits the `int` of every platform; under it
  `machineBounds` is the exact rectangle.
* A Go `panic` is the `Except.error` of a function returning `Except Panic _`.
* `image.RGBA` is modelled by its bounds and its pixel store, the store being a function from
  integer coordinates to colours; `Set` and `At` carry the bounds tests of the Go library.
* The two floating-point expressions of `drawCircle` are taken as the exact integer floors they
  denote (they coincide with the `float64` results for every radius the service can reach).
* For the properties that speak of the writes themselves, `setOnePixelCalls`, `fillCircleCalls`,
  `drawCircleCalls` and the two `generate...Calls` list the calls of `Set` of the function they
  are named after, in order; `replay` runs such a list, and the functions are proved to be the
  replay of their lists.
-/

namespace imgrenderer

namespace color

/-- The Go type `color.RGBA`: four 8-bit channels. -/
structure RGBA where
  R : Nat
  G : Nat
  B : Nat
  A : Nat
deriving DecidableEq, Repr

end color

namespace image

/-- The Go type `image.Point`. -/
structure Point where
  X : Int
  Y : Int
deriving DecidableEq, Repr

/-- The Go type `image.Rectangle`: the points with `Min.X <= X < Max.X`, `Min.Y <= Y < Max.Y`. -/
structure Rectangle where
  Min : Point
  Max : Point
deriving DecidableEq, Repr

/-- The Go function `image.Rect`: the rectangle with the given corners, the coordinates being
swapped where needed so that the result is well formed. -/
def Rect (x0 y0 x1 y1 : Int) : Rectangle :=
  { Min := { X := if x0 > x1 then x1 else x0, Y := if y0 > y1 then y1 else y0 },
    Max := { X := if x0 > x1 then x0 else x1, Y := if y0 > y1 then y0 else y1 } }

/-- Width of a rectangle (`Rectangle.Dx`). -/
def Rectangle.Dx (r : Rectangle) : Int := r.Max.X - r.Min.X

/-- Height of a rectangle (`Rectangle.Dy`). -/
def Rectangle.Dy (r : Rectangle) : Int := r.Max.Y - r.Min.Y

/-- The test `Point{x, y}.In(r)` of the Go library. -/
def Rectangle.Contains (r : Rectangle) (x y : Int) : Prop :=
  r.Min.X ≤ x ∧ x < r.Max.X ∧ r.Min.Y ≤ y ∧ y < r.Max.Y

instance (r : Rectangle) (x y : Int) : Decidable (r.Contains x y) := by
  unfold Rectangle.Contains
  infer_instance

/-- The Go type `image.RGBA`: bounds and pixel store. -/
structure RGBA where
  Rect : Rectangle
  Pix : Int → Int → color.RGBA

/-- The Go function `image.NewRGBA`: every channel of every pixel is zero.  (The Go function
panics when the length `4*Dx*Dy` of the pixel buffer overflows the `int`; the embedding allocates
every rectangle, and the properties about matrices of any size bound that length.) -/
def NewRGBA (r : Rectangle) : RGBA :=
  { Rect := r, Pix := fun _ _ => ⟨0, 0, 0, 0⟩ }

/-- The Go method `(*image.RGBA).Set`: a write outside the bounds is dropped, a write inside
replaces the pixel (no blending).  The renderers pass a `*color.RGBA`, which the colour model
converts through its 16-bit channels back to the same four bytes. -/
def RGBA.Set (m : RGBA) (x y : Int) (c : color.RGBA) : RGBA :=
  if m.Rect.Contains x y then
    { m with Pix := fun px py => if px = x ∧ py = y then c else m.Pix px py }
  else m

/-- The Go method `(*image.RGBA).At`: the zero colour outside the bounds. -/
def RGBA.At (m : RGBA) (x y : Int) : color.RGBA :=
  if m.Rect.Contains x y then m.Pix x y else ⟨0, 0, 0, 0⟩

/-- The call `draw.Draw(m, m.Bounds(), &image.Uniform{c}, image.ZP, draw.Src)`: every pixel of
the bounds becomes `c`. -/
def RGBA.DrawUniformSrc (m : RGBA) (c : color.RGBA) : RGBA :=
  { m with Pix := fun px py => if m.Rect.Contains px py then c else m.Pix px py }

end image

/-- The ways `GetPixel` can abort: its two explicit panics and the run-time panic of the slice
index expression. -/
inductive Panic where
  | yOutOfBound
  | xOutOfBound
  | indexOutOfRange
deriving DecidableEq, Repr

deriving instance DecidableEq for Except

/-- The constant `DEFAULT_PIXSIZE`. -/
def DEFAULT_PIXSIZE : Int := 4

/-- The variable `STROKE_COLOR`. -/
def STROKE_COLOR : color.RGBA := ⟨50, 50, 50, 185⟩

/-- The value a 64-bit Go `int` holds after an arithmetic operation whose exact result is `n`:
the result wraps around in two's complement. -/
def int64 (n : Int) : Int :=
  (n + 2 ^ 63) % 2 ^ 64 - 2 ^ 63

/-- The type `Matrix`; `Bitmap` is the `Stripe` of `uint32` values, whose length is a Go `int`
(`lenInt`). -/
structure Matrix where
  Rows : Int
  Columns : Int
  Bitmap : List Nat
  lenInt : Bitmap.length < 2 ^ 63 := by decide
deriving DecidableEq, Repr

/-- The method `Matrix.GetPixel`; the index `x*m.Rows+y` is computed in the 64-bit `int`. -/
def Matrix.GetPixel (m : Matrix) (x y : Int) : Except Panic Nat :=
  if y < 0 ∨ y ≥ m.Rows then .error .yOutOfBound
  else if x < 0 ∨ x ≥ m.Columns then .error .xOutOfBound
  else
    let i := int64 (x * m.Rows + y)
    if i < 0 ∨ i ≥ (m.Bitmap.length : Int) then .error .indexOutOfRange
    else .ok (m.Bitmap.getD i.toNat 0)

/-- The function `toRGB`. -/
def toRGB (c : Nat) : color.RGBA :=
  { R := (c >>> 16) % 256, G := (c >>> 8) % 256, B := c % 256, A := 255 }

/-- A counted Go loop `for i := lo; i < lo + count; i++ { s = body(i, s) }`. -/
def forLoop {σ : Type} (body : Int → σ → σ) : Int → Nat → σ → σ
  | _, 0, s => s
  | lo, k + 1, s => forLoop body (lo + 1) k (body lo s)

/-- A counted Go loop whose body can abort; the first abort ends the loop. -/
def forLoopE {σ : Type} (body : Int → σ → Except Panic σ) : Int → Nat → σ → Except Panic σ
  | _, 0, s => .ok s
  | lo, k + 1, s =>
    match body lo s with
    | .error e => .error e
    | .ok s1 => forLoopE body (lo + 1) k s1

/-- The function `setOnePixel`. -/
def setOnePixel (m : image.RGBA) (c : color.RGBA) (offsetX offsetY pixSize : Int) : image.RGBA :=
  forLoop (fun x m => forLoop (fun y m => m.Set (offsetX + x) (offsetY + y) c) 0 pixSize.toNat m)
    0 pixSize.toNat m

/-- The rectangle `image.Rect(0, 0, w*pixSize, h*pixSize)` that `generateImage` and
`generateRealisticImage` hand to `image.NewRGBA`, with the two products as the 64-bit `int`
computes them. -/
def machineBounds (matrix : Matrix) (pixSize : Int) : image.Rectangle :=
  image.Rect 0 0 (int64 (matrix.Columns * pixSize)) (int64 (matrix.Rows * pixSize))

/-- The function `generateImage`. -/
def generateImage (matrix : Matrix) (pixSize : Int) : Except Panic image.RGBA :=
  let w := matrix.Columns
  let h := matrix.Rows
  let m := image.NewRGBA (image.Rect 0 0 (w * pixSize) (h * pixSize))
  forLoopE (fun x m => forLoopE (fun y m =>
      match matrix.GetPixel x y with
      | .error e => .error e
      | .ok u =>
        let c := toRGB u
        .ok (setOnePixel m c (x * pixSize) (y * pixSize) pixSize)) 0 h.toNat m) 0 w.toNat m

/-- Largest `j <= k` with `j*j <= n`. -/
def floorSqrtBelow (n : Nat) : Nat → Nat
  | 0 => 0
  | k + 1 => if (k + 1) * (k + 1) ≤ n then k + 1 else floorSqrtBelow n k

/-- Integer part of the square root of `n`. -/
def floorSqrt (n : Nat) : Nat := floorSqrtBelow n n

/-- The exact value of `int(float64(radius) * math.Cos(math.Pi/4))`: the radius divided by the
square root of two, truncated toward zero. -/
def circleLimit (radius : Int) : Int :=
  radius.sign * (floorSqrt (radius.natAbs * radius.natAbs / 2) : Int)

/-- The exact value of `int(math.Sqrt(float64(radius*radius) - float64(x*x)))`. -/
def circleY (radius x : Int) : Int :=
  (floorSqrt (radius * radius - x * x).toNat : Int)

/-- The function `drawCircle`. -/
def drawCircle (m : image.RGBA) (c : color.RGBA) (centerX centerY radius : Int) : image.RGBA :=
  let l := circleLimit radius
  forLoop (fun x m =>
      let y := circleY radius x
      let m := m.Set (centerX + x) (centerY + y) c
      let m := m.Set (centerX + x) (centerY - y) c
      let m := m.Set (centerX - x) (centerY + y) c
      let m := m.Set (centerX - x) (centerY - y) c
      let m := m.Set (centerX + y) (centerY + x) c
      let m := m.Set (centerX + y) (centerY - x) c
      let m := m.Set (centerX - y) (centerY + x) c
      m.Set (centerX - y) (centerY - x) c) 0 (l + 1).toNat m

/-- The function `fillCircle`. -/
def fillCircle (img : image.RGBA) (c : color.RGBA) (centerX centerY radius : Int) : image.RGBA :=
  let radSquare := radius * radius
  forLoop (fun x img => forLoop (fun y img =>
      if x * x + y * y ≤ radSquare then img.Set (centerX + x) (centerY + y) c else img)
    (-radius) (radius + 1 - -radius).toNat img) (-radius) (radius + 1 - -radius).toNat img

/-- The pixel size `generateRealisticImage` works with: an even `pixSize` is incremented. -/
def normalizedPixSize (pixSize : Int) : Int :=
  if pixSize.tmod 2 = 0 then pixSize + 1 else pixSize

/-- The radius `generateRealisticImage` works with: `int(pixSize / 2)` of the normalised size. -/
def circleRadius (pixSize : Int) : Int :=
  (normalizedPixSize pixSize).tdiv 2

/-- The function `generateRealisticImage`. -/
def generateRealisticImage (matrix : Matrix) (pixSize : Int) : Except Panic image.RGBA :=
  let pixSize := normalizedPixSize pixSize
  let w := matrix.Columns
  let h := matrix.Rows
  let radius := pixSize.tdiv 2
  let m := image.NewRGBA (image.Rect 0 0 (w * pixSize) (h * pixSize))
  let m := m.DrawUniformSrc ⟨0, 0, 0, 255⟩
  forLoopE (fun x m => forLoopE (fun y m =>
      match matrix.GetPixel x y with
      | .error e => .error e
      | .ok encodedColor =>
        let color := toRGB encodedColor
        let m := fillCircle m color (x * pixSize + radius) (y * pixSize + radius) radius
        .ok (drawCircle m STROKE_COLOR (x * pixSize + radius) (y * pixSize + radius) radius))
    0 h.toNat m) 0 w.toNat m

namespace strconv

/-- Value of a string of decimal digits, `none` when a character is not a digit. -/
def digitsValue (cs : List Char) : Option Nat :=
  cs.foldl (fun acc c =>
    match acc with
    | none => none
    | some n => if 48 ≤ c.toNat ∧ c.toNat ≤ 57 then some (10 * n + (c.toNat - 48)) else none)
    (some 0)

/-- The Go function `strconv.Atoi`, `none` standing for a non-nil error: an optional sign, then
one or more decimal digits, the value within the range of a 64-bit `int`. -/
def Atoi (s : String) : Option Int :=
  match s.toList with
  | [] => none
  | c :: cs =>
    if c = '-' then
      if cs = [] then none
      else match digitsValue cs with
        | some n => if n ≤ 2 ^ 63 then some (-(n : Int)) else none
        | none => none
    else if c = '+' then
      if cs = [] then none
      else match digitsValue cs with
        | some n => if n < 2 ^ 63 then some (n : Int) else none
        | none => none
    else match digitsValue (c :: cs) with
      | some n => if n < 2 ^ 63 then some (n : Int) else none
      | none => none

end strconv

namespace http

/-- One write to the body of a response: the line written by `http.Error`, or the bytes
`png.Encode` produced for an image (represented by the image they encode). -/
inductive Chunk where
  | text (msg : String)
  | png (img : image.RGBA)

/-- What a handler has done to its `http.ResponseWriter`: the status code, once the header is
written, and the writes to the body, in order. -/
structure ResponseWriter where
  Code : Option Int
  Body : List Chunk

/-- What the handlers read of a `*http.Request`: `FormValue("pixSize")` (empty when the
parameter is absent) and what the JSON decoder makes of the body. -/
structure Request where
  pixSize : String
  Body : Except String Matrix

/-- The method `ResponseWriter.Write`: the first write fixes the status code to 200 when no
header was written before. -/
def ResponseWriter.Write (w : ResponseWriter) (b : List Chunk) : ResponseWriter :=
  { Code := some (w.Code.getD 200), Body := w.Body ++ b }

/-- The Go function `http.Error`: writes the header with the code (kept only when no header was
written before) and the message as the body. -/
def Error (w : ResponseWriter) (error : String) (code : Int) : ResponseWriter :=
  { Code := some (w.Code.getD code), Body := w.Body ++ [Chunk.text error] }

/-- The images written to the body of a response. -/
def ResponseWriter.images (w : ResponseWriter) : List image.RGBA :=
  w.Body.filterMap (fun c => match c with
    | Chunk.png img => some img
    | Chunk.text _ => none)

end http

namespace png

/-- The Go function `png.Encode` into a fresh buffer: it fails on an image with an empty or
oversized bounding box, with the text of its `FormatError`, and otherwise yields the encoded
bytes. -/
def Encode (img : image.RGBA) : Except String (List http.Chunk) :=
  if img.Rect.Dx ≤ 0 ∨ img.Rect.Dy ≤ 0 ∨ img.Rect.Dx ≥ 2 ^ 32 ∨ img.Rect.Dy ≥ 2 ^ 32 then
    .error ("png: invalid format: invalid image size: " ++ toString img.Rect.Dx ++ "x" ++
      toString img.Rect.Dy)
  else .ok [http.Chunk.png img]

end png

/-- The function `getPixSizeParam`: the returned error (`none` for `nil`) and the value of
`*pixSize` on return. -/
def getPixSizeParam (r : http.Request) (pixSize : Int) : Option String × Int :=
  let param := r.pixSize
  if param ≠ "" then
    match strconv.Atoi param with
    | none =>
      (some ("Invalid  parameter (should be an int between 1 and 30): " ++ param), pixSize)
    | some size =>
      if size ≤ 0 ∨ size ≥ 30 then
        (some ("Invalid  parameter (should be an int between 1 and 30): " ++ param), pixSize)
      else (none, size)
  else (none, pixSize)

/-- The function `decodeMatrix`: the result of the JSON decoder, passed on as it is. -/
def decodeMatrix (r : http.Request) : Except String Matrix :=
  r.Body

/-- The function `writeImage`. -/
def writeImage (w : http.ResponseWriter) (img : image.RGBA) : http.ResponseWriter :=
  match png.Encode img with
  | .error err =>
    (http.Error w ("Unable to encode resulting image: " ++ err) 400).Write []
  | .ok buffer => w.Write buffer

/-- The handler `renderImage`; a panic of the renderer ends the handler. -/
def renderImage (w : http.ResponseWriter) (r : http.Request) : Except Panic http.ResponseWriter :=
  let pixSize := DEFAULT_PIXSIZE
  let (err, pixSize) := getPixSizeParam r pixSize
  let w := match err with
    | some e => http.Error w e 400
    | none => w
  match decodeMatrix r with
  | .error err => .ok (http.Error w ("Invalid JSON: " ++ err) 400)
  | .ok matrix =>
    match generateImage matrix pixSize with
    | .error e => .error e
    | .ok m => .ok (writeImage w m)

/-- The handler `renderRealisticImage`; a panic of the renderer ends the handler. -/
def renderRealisticImage (w : http.ResponseWriter) (r : http.Request) :
    Except Panic http.ResponseWriter :=
  let pixSize := DEFAULT_PIXSIZE
  let (err, pixSize) := getPixSizeParam r pixSize
  let w := match err with
    | some e => http.Error w e 400
    | none => w
  match decodeMatrix r with
  | .error err => .ok (http.Error w ("Invalid JSON: " ++ err) 400)
  | .ok matrix =>
    match generateRealisticImage matrix pixSize with
    | .error e => .error e
    | .ok m => .ok (writeImage w m)

/-- A response writer no handler has touched yet. -/
def freshWriter : http.ResponseWriter := { Code := none, Body := [] }

/-- The outcome of a handler as far as the claims need it: the status code and, for every image
written to the body, its bounds; `none` when the handler ended in a panic. -/
def outcomeOf (r : Except Panic http.ResponseWriter) :
    Option (Option Int × List image.Rectangle) :=
  match r with
  | .error _ => none
  | .ok w => some (w.Code, w.images.map (fun img => img.Rect))

/-- Scenario matrix: one red cell. -/
def redCell : Matrix := { Rows := 1, Columns := 1, Bitmap := [0xFF0000] }

/-- The pixel of a rendering at `(x, y)`; `none` when the rendering aborted. -/
def pixelOf (r : Except Panic image.RGBA) (x y : Int) : Option color.RGBA :=
  match r with
  | .error _ => none
  | .ok m => some (m.At x y)

/-- The work `generateImage` does for the cell `(x, y)` once `GetPixel` has returned. -/
def blockCell (matrix : Matrix) (pixSize x y : Int) (m : image.RGBA) : image.RGBA :=
  setOnePixel m (toRGB (matrix.Bitmap.getD (x * matrix.Rows + y).toNat 0))
    (x * pixSize) (y * pixSize) pixSize

/-- The work `generateRealisticImage` does for the cell `(x, y)` once `GetPixel` has returned;
`pixSize` is the normalised size. -/
def discCell (matrix : Matrix) (pixSize x y : Int) (m : image.RGBA) : image.RGBA :=
  drawCircle
    (fillCircle m (toRGB (matrix.Bitmap.getD (x * matrix.Rows + y).toNat 0))
      (x * pixSize + pixSize.tdiv 2) (y * pixSize + pixSize.tdiv 2) (pixSize.tdiv 2))
    STROKE_COLOR (x * pixSize + pixSize.tdiv 2) (y * pixSize + pixSize.tdiv 2) (pixSize.tdiv 2)

/-- The two nested cell loops of the renderers, for a cell body that cannot abort. -/
def renderCells (cell : Int → Int → image.RGBA → image.RGBA) (w h : Int) (m : image.RGBA) :
    image.RGBA :=
  forLoop (fun x m => forLoop (fun y m => cell x y m) 0 h.toNat m) 0 w.toNat m

/-- The operation `f` writes the colour `c` at the points of `S` that lie within the bounds,
and changes nothing else. -/
def Paints (f : image.RGBA → image.RGBA) (c : color.RGBA) (S : Int → Int → Prop) : Prop :=
  ∀ m, (f m).Rect = m.Rect ∧
    ∀ px py, (S px py → m.Rect.Contains px py → (f m).Pix px py = c) ∧
      (¬(S px py ∧ m.Rect.Contains px py) → (f m).Pix px py = m.Pix px py)

/-- The operation `f` keeps the bounds, changes no pixel outside `reg`, and the new value of a
pixel depends on its old value and the bounds only. -/
def PixelLocal (f : image.RGBA → image.RGBA) (reg : Int → Int → Prop) : Prop :=
  (∀ m, (f m).Rect = m.Rect) ∧
  (∀ m px py, ¬reg px py → (f m).Pix px py = m.Pix px py) ∧
  (∀ m m1 px py, m.Rect = m1.Rect → m.Pix px py = m1.Pix px py →
    (f m).Pix px py = (f m1).Pix px py)

/-- The square of side `n` the cell `(x, y)` occupies in the output. -/
def InCell (n x y px py : Int) : Prop :=
  x * n ≤ px ∧ px < x * n + n ∧ y * n ≤ py ∧ py < y * n + n

/-- The bounds of a rendering; `none` when the rendering aborted. -/
def boundsOf (r : Except Panic image.RGBA) : Option image.Rectangle :=
  match r with
  | .error _ => none
  | .ok m => some m.Rect

/-- A matrix as the JSON decoder can deliver it, with a negative column count. -/
def negativeColumns : Matrix := { Rows := 1, Columns := -1, Bitmap := [] }

/-- The offsets of the stroke of a disc of radius `r`: `(|dx|, |dy|)` is `(i, Y(i))` or
`(Y(i), i)` for some `0 <= i <= L`, with `L` and `Y` the octant limit and height. -/
def OnStroke (r dx dy : Int) : Prop :=
  ∃ i : Int, 0 ≤ i ∧ i ≤ circleLimit r ∧
    ((|dx| = i ∧ |dy| = circleY r i) ∨ (|dx| = circleY r i ∧ |dy| = i))

/-- The panic a computation ended in; `none` when it returned. -/
def panicOf {α : Type} (r : Except Panic α) : Option Panic :=
  match r with
  | .error e => some e
  | .ok _ => none

/-- A matrix with two rows and three columns whose elements are their own indices. -/
def indexMatrix : Matrix := { Rows := 2, Columns := 3, Bitmap := [0, 1, 2, 3, 4, 5] }

/-- A one-cell matrix whose bitmap has one element too many. -/
def tooLong : Matrix := { Rows := 1, Columns := 1, Bitmap := [0xFF0000, 0x00FF00] }

/-- A matrix of two rows and one column whose bitmap has one element too few. -/
def tooShort : Matrix := { Rows := 2, Columns := 1, Bitmap := [0xFF0000] }

/-- A matrix of `2^62` rows and one column with a bitmap of one element: with the default
`pixSize = 4` the product `h*pixSize` is `2^64`, which the 64-bit `int` holds as `0`. -/
def wrappedHeight : Matrix := { Rows := 2 ^ 62, Columns := 1, Bitmap := [7] }

/-- A matrix of `6148914691236517206` rows and one column with a bitmap of one element: with
`pixSize = 3` the product `h*pixSize` is `2^64 + 2`, which the 64-bit `int` holds as `2`. -/
def wrappedDisc : Matrix := { Rows := 6148914691236517206, Columns := 1, Bitmap := [7] }

/-- A matrix of `2^62` rows and five columns with a bitmap of one element: the index
`4*rows + 0` of the cell `(4, 0)` is `2^64`, which the 64-bit `int` holds as `0`. -/
def wrappedIndex : Matrix := { Rows := 2 ^ 62, Columns := 5, Bitmap := [7] }

/-- One call `m.Set(X, Y, C)`. -/
structure SetCall where
  X : Int
  Y : Int
  C : color.RGBA
deriving DecidableEq, Repr

/-- The image after a sequence of calls of `Set`, made in order. -/
def replay (calls : List SetCall) (m : image.RGBA) : image.RGBA :=
  calls.foldl (fun m w => m.Set w.X w.Y w.C) m

/-- The image after the calls of a rendering that may have aborted. -/
def replayE (r : Except Panic (List SetCall)) (m : image.RGBA) : Except Panic image.RGBA :=
  match r with
  | .error e => .error e
  | .ok calls => .ok (replay calls m)

/-- Number of calls of `Set` in `calls` that address the pixel `(px, py)`. -/
def writesAt (calls : List SetCall) (px py : Int) : Nat :=
  calls.countP (fun w => decide (w.X = px ∧ w.Y = py))

/-- The calls of `Set` that `setOnePixel` makes, in order, appended to `calls`. -/
def setOnePixelCalls (calls : List SetCall) (c : color.RGBA) (offsetX offsetY pixSize : Int) :
    List SetCall :=
  forLoop (fun x calls =>
      forLoop (fun y calls => calls ++ [⟨offsetX + x, offsetY + y, c⟩]) 0 pixSize.toNat calls)
    0 pixSize.toNat calls

/-- The calls of `Set` that `generateImage` makes, in order; it aborts where `generateImage`
does. -/
def generateImageCalls (matrix : Matrix) (pixSize : Int) : Except Panic (List SetCall) :=
  let w := matrix.Columns
  let h := matrix.Rows
  forLoopE (fun x calls => forLoopE (fun y calls =>
      match matrix.GetPixel x y with
      | .error e => .error e
      | .ok u =>
        let c := toRGB u
        .ok (setOnePixelCalls calls c (x * pixSize) (y * pixSize) pixSize)) 0 h.toNat calls)
    0 w.toNat []

/-- The calls of `Set` that `drawCircle` makes, in order, appended to `calls`. -/
def drawCircleCalls (calls : List SetCall) (c : color.RGBA) (centerX centerY radius : Int) :
    List SetCall :=
  let l := circleLimit radius
  forLoop (fun x calls =>
      let y := circleY radius x
      calls ++ [⟨centerX + x, centerY + y, c⟩, ⟨centerX + x, centerY - y, c⟩,
        ⟨centerX - x, centerY + y, c⟩, ⟨centerX - x, centerY - y, c⟩,
        ⟨centerX + y, centerY + x, c⟩, ⟨centerX + y, centerY - x, c⟩,
        ⟨centerX - y, centerY + x, c⟩, ⟨centerX - y, centerY - x, c⟩]) 0 (l + 1).toNat calls

/-- The calls of `Set` that `fillCircle` makes, in order, appended to `calls`. -/
def fillCircleCalls (calls : List SetCall) (c : color.RGBA) (centerX centerY radius : Int) :
    List SetCall :=
  let radSquare := radius * radius
  forLoop (fun x calls => forLoop (fun y calls =>
      if x * x + y * y ≤ radSquare then calls ++ [⟨centerX + x, centerY + y, c⟩] else calls)
    (-radius) (radius + 1 - -radius).toNat calls) (-radius) (radius + 1 - -radius).toNat calls

/-- The calls of `Set` that `generateRealisticImage` makes after the background fill, in order;
it aborts where `generateRealisticImage` does. -/
def generateRealisticImageCalls (matrix : Matrix) (pixSize : Int) :
    Except Panic (List SetCall) :=
  let pixSize := normalizedPixSize pixSize
  let w := matrix.Columns
  let h := matrix.Rows
  let radius := pixSize.tdiv 2
  forLoopE (fun x calls => forLoopE (fun y calls =>
      match matrix.GetPixel x y with
      | .error e => .error e
      | .ok encodedColor =>
        let color := toRGB encodedColor
        let calls := fillCircleCalls calls color (x * pixSize + radius) (y * pixSize + radius)
          radius
        .ok (drawCircleCalls calls STROKE_COLOR (x * pixSize + radius) (y * pixSize + radius)
          radius))
    0 h.toNat calls) 0 w.toNat []

/-- The list operation `F` appends to its argument calls that are exactly those of `T`. -/
def Appends (F : List SetCall → List SetCall) (T : SetCall → Prop) : Prop :=
  ∀ l w, w ∈ F l ↔ w ∈ l ∨ T w

/-- The list operation `F` makes one more call of `Set` at `(px, py)` when `S` holds and none
when it does not. -/
def CountsOn (F : List SetCall → List SetCall) (px py : Int) (S : Prop) : Prop :=
  ∀ l, (S → writesAt (F l) px py = writesAt l px py + 1) ∧
    (¬S → writesAt (F l) px py = writesAt l px py)

/-! ## The accessor and the colour decoder -/

theorem index_bounds {R C x y : Int} (hx0 : 0 ≤ x) (hx1 : x < C) (hy0 : 0 ≤ y) (hy1 : y < R) :
    0 ≤ x * R + y ∧ x * R + y < R * C := by
  constructor
  · have : 0 ≤ x * R := mul_nonneg hx0 (by omega)
    omega
  · have h : (x + 1) * R ≤ C * R := mul_le_mul_of_nonneg_right (by omega) (by omega)
    have e1 : (x + 1) * R = x * R + R := by ring
    have e2 : C * R = R * C := by ring
    omega

theorem int64_eq {n : Int} (h0 : -2 ^ 63 ≤ n) (h1 : n < 2 ^ 63) : int64 n = n := by
  unfold int64
  omega

theorem GetPixel_ok_of_index {m : Matrix} {x y : Int}
    (hx0 : 0 ≤ x) (hx1 : x < m.Columns) (hy0 : 0 ≤ y) (hy1 : y < m.Rows)
    (hidx : x * m.Rows + y < (m.Bitmap.length : Int)) :
    m.GetPixel x y = .ok (m.Bitmap.getD (x * m.Rows + y).toNat 0) := by
  have hb := index_bounds hx0 hx1 hy0 hy1
  have hl : (m.Bitmap.length : Int) < 2 ^ 63 := by exact_mod_cast m.lenInt
  have hi : int64 (x * m.Rows + y) = x * m.Rows + y := int64_eq (by omega) (by omega)
  unfold Matrix.GetPixel
  rw [if_neg (by omega), if_neg (by omega)]
  simp only [hi]
  rw [if_neg (by omega)]

theorem GetPixel_ok {m : Matrix} {x y : Int} (hlen : m.Rows * m.Columns ≤ (m.Bitmap.length : Int))
    (hx0 : 0 ≤ x) (hx1 : x < m.Columns) (hy0 : 0 ≤ y) (hy1 : y < m.Rows) :
    m.GetPixel x y = .ok (m.Bitmap.getD (x * m.Rows + y).toNat 0) := by
  have hb := index_bounds hx0 hx1 hy0 hy1
  exact GetPixel_ok_of_index hx0 hx1 hy0 hy1 (by omega)

/-- C3: for a matrix whose bitmap has `rows*columns` elements and an in-range `(x, y)`, the index
`x*rows + y` is within the bitmap and `GetPixel(x, y)` returns the element at that index; the
layout is not `y*columns + x` (on a 2-by-3 matrix the two differ at `(1, 0)`). -/
theorem GetPixel_column_major :
    (∀ (m : Matrix) (x y : Int), (m.Bitmap.length : Int) = m.Rows * m.Columns →
      0 ≤ x → x < m.Columns → 0 ≤ y → y < m.Rows →
      0 ≤ x * m.Rows + y ∧ x * m.Rows + y < (m.Bitmap.length : Int) ∧
      ∃ v, m.Bitmap[(x * m.Rows + y).toNat]? = some v ∧ m.GetPixel x y = .ok v) ∧
    (indexMatrix.GetPixel 1 0 = .ok 2 ∧
      indexMatrix.Bitmap[((0 : Int) * indexMatrix.Columns + 1).toNat]? = some 1) := by
  refine ⟨?_, by decide, by decide⟩
  intro m x y hlen hx0 hx1 hy0 hy1
  have hb := index_bounds hx0 hx1 hy0 hy1
  refine ⟨hb.1, by omega, m.Bitmap.getD (x * m.Rows + y).toNat 0, ?_, GetPixel_ok (by omega) hx0 hx1 hy0 hy1⟩
  have hlt : (x * m.Rows + y).toNat < m.Bitmap.length := by omega
  rw [List.getD_eq_getElem?_getD, List.getElem?_eq_getElem hlt]
  rfl

/-- Witness of C3: the cell `(2, 1)` of the 2-by-3 index matrix is element `2*2 + 1 = 5`. -/
theorem GetPixel_column_major_witness :
    ∃ v, indexMatrix.Bitmap[((2 : Int) * indexMatrix.Rows + 1).toNat]? = some v ∧
      indexMatrix.GetPixel 2 1 = .ok v :=
  (GetPixel_column_major.1 indexMatrix 2 1 (by decide) (by decide) (by decide) (by decide)
    (by decide)).2.2

/-- C4: `toRGB` is total and yields `r = (v >> 16) & 0xFF`, `g = (v >> 8) & 0xFF`,
`b = v & 0xFF`, `a = 255`, each channel an 8-bit value. -/
theorem toRGB_channels (v : Nat) :
    toRGB v = ⟨(v >>> 16) &&& 0xFF, (v >>> 8) &&& 0xFF, v &&& 0xFF, 255⟩ ∧
    (toRGB v).R < 256 ∧ (toRGB v).G < 256 ∧ (toRGB v).B < 256 ∧ (toRGB v).A = 255 := by
  have h : ∀ n : Nat, n &&& 0xFF = n % 256 := fun n => Nat.and_pow_two_sub_one_eq_mod n 8
  refine ⟨?_, ?_, ?_, ?_, rfl⟩
  · simp only [toRGB, h]
  · exact Nat.mod_lt _ (by decide)
  · exact Nat.mod_lt _ (by decide)
  · exact Nat.mod_lt _ (by decide)

/-- C7: whatever the bitmap, `GetPixel(x, y)` with `x` or `y` out of range aborts with one of its
two out-of-bound panics and returns no value. -/
theorem GetPixel_out_of_range (m : Matrix) (x y : Int)
    (h : x < 0 ∨ x ≥ m.Columns ∨ y < 0 ∨ y ≥ m.Rows) :
    (m.GetPixel x y = .error .yOutOfBound ∨ m.GetPixel x y = .error .xOutOfBound) ∧
    ∀ v, m.GetPixel x y ≠ .ok v := by
  have key : m.GetPixel x y = .error .yOutOfBound ∨ m.GetPixel x y = .error .xOutOfBound := by
    unfold Matrix.GetPixel
    by_cases hy : y < 0 ∨ y ≥ m.Rows
    · left
      rw [if_pos hy]
    · right
      rw [if_neg hy, if_pos (by omega)]
  refine ⟨key, ?_⟩
  intro v hv
  rcases key with k | k <;> rw [k] at hv <;> cases hv

/-- Witness of C7: on the one-cell matrix the coordinate `x = columns` is refused, although the
over-long bitmap of `tooLong` has an element at index `1`. -/
theorem GetPixel_out_of_range_witness :
    (tooLong.GetPixel 1 0 = .error .yOutOfBound ∨ tooLong.GetPixel 1 0 = .error .xOutOfBound) ∧
    ∀ v, tooLong.GetPixel 1 0 ≠ .ok v :=
  GetPixel_out_of_range tooLong 1 0 (by decide)

/-! ## Loops -/

theorem forLoopE_ok {σ : Type} (body : Int → σ → Except Panic σ) (g : Int → σ → σ) :
    ∀ (k : Nat) (lo : Int) (s : σ),
      (∀ i, lo ≤ i → i < lo + k → ∀ t, body i t = .ok (g i t)) →
      forLoopE body lo k s = .ok (forLoop g lo k s) := by
  intro k
  induction k with
  | zero => intro lo s _; rfl
  | succ k ih =>
    intro lo s h
    have h0 := h lo (le_refl _) (by push_cast; omega) s
    simp only [forLoopE, forLoop, h0]
    exact ih (lo + 1) _ (fun i h1 h2 t => h i (by omega) (by push_cast; omega) t)

theorem forLoopE_error {σ : Type} (body : Int → σ → Except Panic σ) (e : Panic) :
    ∀ (k : Nat) (lo : Int) (s : σ),
      (∀ i, lo ≤ i → i < lo + k → ∀ t, (∃ t1, body i t = .ok t1) ∨ body i t = .error e) →
      (∃ i, lo ≤ i ∧ i < lo + k ∧ ∀ t, body i t = .error e) →
      forLoopE body lo k s = .error e := by
  intro k
  induction k with
  | zero =>
    intro lo s _ hex
    obtain ⟨i, h1, h2, _⟩ := hex
    exfalso
    simp at h2
    omega
  | succ k ih =>
    intro lo s hall hex
    rcases hall lo (le_refl _) (by push_cast; omega) s with ⟨t1, h0⟩ | h0
    · simp only [forLoopE, h0]
      apply ih
      · exact fun i h1 h2 t => hall i (by omega) (by push_cast; omega) t
      · obtain ⟨i, h1, h2, h3⟩ := hex
        by_cases hi : i = lo
        · subst hi
          rw [h3 s] at h0
          cases h0
        · exact ⟨i, by omega, by push_cast at h2; omega, h3⟩
    · simp only [forLoopE, h0]

theorem forLoopE_invariant {σ : Type} (body : Int → σ → Except Panic σ) (Inv : σ → Prop)
    (hbody : ∀ i t t1, body i t = .ok t1 → Inv t → Inv t1) :
    ∀ (k : Nat) (lo : Int) (s s1 : σ), forLoopE body lo k s = .ok s1 → Inv s → Inv s1 := by
  intro k
  induction k with
  | zero =>
    intro lo s s1 h hs
    simp only [forLoopE] at h
    cases h
    exact hs
  | succ k ih =>
    intro lo s s1 h hs
    simp only [forLoopE] at h
    cases h0 : body lo s with
    | error e => rw [h0] at h; cases h
    | ok t1 =>
      rw [h0] at h
      exact ih (lo + 1) t1 s1 h (hbody lo s t1 h0 hs)

/-! ## Painting operations -/

theorem Paints_Set (x y : Int) (c : color.RGBA) :
    Paints (fun m => m.Set x y c) c (fun px py => px = x ∧ py = y) := by
  intro m
  show (m.Set x y c).Rect = m.Rect ∧ ∀ px py,
    (px = x ∧ py = y → m.Rect.Contains px py → (m.Set x y c).Pix px py = c) ∧
    (¬((px = x ∧ py = y) ∧ m.Rect.Contains px py) → (m.Set x y c).Pix px py = m.Pix px py)
  by_cases hin : m.Rect.Contains x y
  · have e : m.Set x y c =
        { m with Pix := fun px py => if px = x ∧ py = y then c else m.Pix px py } := if_pos hin
    rw [e]
    refine ⟨rfl, fun px py => ⟨fun hS _ => if_pos hS, fun hn => ?_⟩⟩
    have : ¬(px = x ∧ py = y) := by
      rintro ⟨rfl, rfl⟩
      exact hn ⟨⟨rfl, rfl⟩, hin⟩
    exact if_neg this
  · have e : m.Set x y c = m := if_neg hin
    rw [e]
    refine ⟨rfl, fun px py => ⟨fun hS hc => ?_, fun _ => rfl⟩⟩
    obtain ⟨rfl, rfl⟩ := hS
    exact absurd hc hin

theorem Paints_skip (c : color.RGBA) : Paints (fun m => m) c (fun _ _ => False) :=
  fun _ => ⟨rfl, fun _ _ => ⟨fun h => h.elim, fun _ => rfl⟩⟩

theorem Paints_congr {f : image.RGBA → image.RGBA} {c : color.RGBA} {S T : Int → Int → Prop}
    (h : Paints f c S) (hST : ∀ px py, S px py ↔ T px py) : Paints f c T := by
  intro m
  obtain ⟨h1, h2⟩ := h m
  refine ⟨h1, fun px py => ⟨fun hT hc => (h2 px py).1 ((hST px py).2 hT) hc, fun hn => ?_⟩⟩
  exact (h2 px py).2 (fun hh => hn ⟨(hST px py).1 hh.1, hh.2⟩)

theorem Paints_comp {f g : image.RGBA → image.RGBA} {c : color.RGBA} {S T : Int → Int → Prop}
    (hf : Paints f c S) (hg : Paints g c T) :
    Paints (fun m => g (f m)) c (fun px py => S px py ∨ T px py) := by
  intro m
  obtain ⟨f1, f2⟩ := hf m
  obtain ⟨g1, g2⟩ := hg (f m)
  refine ⟨by rw [g1, f1], fun px py => ⟨fun hS hc => ?_, fun hn => ?_⟩⟩
  · by_cases hT : T px py
    · exact (g2 px py).1 hT (by rw [f1]; exact hc)
    · rw [(g2 px py).2 (fun hh => hT hh.1)]
      rcases hS with hS | hS
      · exact (f2 px py).1 hS hc
      · exact absurd hS hT
  · rw [(g2 px py).2 (fun hh => hn ⟨Or.inr hh.1, by rw [← f1]; exact hh.2⟩)]
    exact (f2 px py).2 (fun hh => hn ⟨Or.inl hh.1, hh.2⟩)

theorem Paints_forLoop {body : Int → image.RGBA → image.RGBA} {c : color.RGBA}
    {S : Int → Int → Int → Prop} (h : ∀ i, Paints (body i) c (S i)) :
    ∀ (k : Nat) (lo : Int),
      Paints (forLoop body lo k) c (fun px py => ∃ i, lo ≤ i ∧ i < lo + k ∧ S i px py) := by
  intro k
  induction k with
  | zero =>
    intro lo
    refine Paints_congr (Paints_skip c) (fun px py => ⟨fun hf => hf.elim, ?_⟩)
    rintro ⟨i, h1, h2, _⟩
    simp at h2
    omega
  | succ k ih =>
    intro lo
    have hc := Paints_comp (h lo) (ih (lo + 1))
    refine Paints_congr hc (fun px py => ⟨?_, ?_⟩)
    · rintro (h0 | ⟨i, h1, h2, h3⟩)
      · exact ⟨lo, le_refl _, by push_cast; omega, h0⟩
      · exact ⟨i, by omega, by push_cast; omega, h3⟩
    · rintro ⟨i, h1, h2, h3⟩
      by_cases hi : i = lo
      · subst hi
        exact Or.inl h3
      · exact Or.inr ⟨i, by omega, by push_cast at h2; omega, h3⟩

theorem Paints_ite {f : image.RGBA → image.RGBA} {c : color.RGBA} {S : Int → Int → Prop}
    (P : Prop) [Decidable P] (h : Paints f c S) :
    Paints (fun m => if P then f m else m) c (fun px py => P ∧ S px py) := by
  by_cases hP : P
  · simp only [if_pos hP]
    exact Paints_congr h (fun px py => ⟨fun hS => ⟨hP, hS⟩, fun hS => hS.2⟩)
  · simp only [if_neg hP]
    exact Paints_congr (Paints_skip c) (fun px py => ⟨fun hf => hf.elim, fun hS => hP hS.1⟩)

theorem setOnePixel_paints (c : color.RGBA) (offsetX offsetY pixSize : Int) :
    Paints (fun m => setOnePixel m c offsetX offsetY pixSize) c
      (fun px py => offsetX ≤ px ∧ px < offsetX + pixSize ∧ offsetY ≤ py ∧
        py < offsetY + pixSize) := by
  have h := @Paints_forLoop
    (fun x m => forLoop (fun y m => m.Set (offsetX + x) (offsetY + y) c) 0 pixSize.toNat m) c
    (fun x px py => ∃ y : Int, 0 ≤ y ∧ y < 0 + (pixSize.toNat : Int) ∧
      (px = offsetX + x ∧ py = offsetY + y))
    (fun x => @Paints_forLoop (fun y m => m.Set (offsetX + x) (offsetY + y) c) c
      (fun y px py => px = offsetX + x ∧ py = offsetY + y)
      (fun y => Paints_Set (offsetX + x) (offsetY + y) c) pixSize.toNat 0)
    pixSize.toNat 0
  refine Paints_congr h (fun px py => ⟨?_, ?_⟩)
  · rintro ⟨x, hx0, hx1, y, hy0, hy1, rfl, rfl⟩
    omega
  · rintro ⟨h1, h2, h3, h4⟩
    exact ⟨px - offsetX, by omega, by omega, py - offsetY, by omega, by omega, by omega, by omega⟩

theorem fillCircle_paints (c : color.RGBA) (centerX centerY radius : Int) :
    Paints (fun m => fillCircle m c centerX centerY radius) c
      (fun px py => ∃ dx dy : Int, -radius ≤ dx ∧ dx ≤ radius ∧ -radius ≤ dy ∧ dy ≤ radius ∧
        dx * dx + dy * dy ≤ radius * radius ∧ px = centerX + dx ∧ py = centerY + dy) := by
  have h := @Paints_forLoop
    (fun x img => forLoop (fun y img =>
      if x * x + y * y ≤ radius * radius then img.Set (centerX + x) (centerY + y) c else img)
      (-radius) (radius + 1 - -radius).toNat img) c
    (fun x px py => ∃ y : Int, -radius ≤ y ∧ y < -radius + ((radius + 1 - -radius).toNat : Int) ∧
      (x * x + y * y ≤ radius * radius ∧ (px = centerX + x ∧ py = centerY + y)))
    (fun x => @Paints_forLoop (fun y img =>
        if x * x + y * y ≤ radius * radius then img.Set (centerX + x) (centerY + y) c else img) c
      (fun y px py => x * x + y * y ≤ radius * radius ∧ (px = centerX + x ∧ py = centerY + y))
      (fun y => Paints_ite (x * x + y * y ≤ radius * radius)
        (Paints_Set (centerX + x) (centerY + y) c))
      (radius + 1 - -radius).toNat (-radius))
    (radius + 1 - -radius).toNat (-radius)
  refine Paints_congr h (fun px py => ⟨?_, ?_⟩)
  · rintro ⟨x, hx0, hx1, y, hy0, hy1, hd, rfl, rfl⟩
    exact ⟨x, y, hx0, by omega, hy0, by omega, hd, rfl, rfl⟩
  · rintro ⟨dx, dy, h1, h2, h3, h4, hd, rfl, rfl⟩
    exact ⟨dx, h1, by omega, dy, h3, by omega, hd, rfl, rfl⟩

theorem drawCircle_paints (c : color.RGBA) (centerX centerY radius : Int) :
    Paints (fun m => drawCircle m c centerX centerY radius) c
      (fun px py => ∃ i : Int, 0 ≤ i ∧ i ≤ circleLimit radius ∧
        (((px = centerX + i ∨ px = centerX - i) ∧
            (py = centerY + circleY radius i ∨ py = centerY - circleY radius i)) ∨
          ((px = centerX + circleY radius i ∨ px = centerX - circleY radius i) ∧
            (py = centerY + i ∨ py = centerY - i)))) := by
  have hbody : ∀ x : Int, Paints (fun m : image.RGBA =>
      (((((((m.Set (centerX + x) (centerY + circleY radius x) c).Set
        (centerX + x) (centerY - circleY radius x) c).Set
        (centerX - x) (centerY + circleY radius x) c).Set
        (centerX - x) (centerY - circleY radius x) c).Set
        (centerX + circleY radius x) (centerY + x) c).Set
        (centerX + circleY radius x) (centerY - x) c).Set
        (centerX - circleY radius x) (centerY + x) c).Set
        (centerX - circleY radius x) (centerY - x) c) c
      (fun px py => ((px = centerX + x ∨ px = centerX - x) ∧
            (py = centerY + circleY radius x ∨ py = centerY - circleY radius x)) ∨
          ((px = centerX + circleY radius x ∨ px = centerX - circleY radius x) ∧
            (py = centerY + x ∨ py = centerY - x))) := by
    intro x
    generalize circleY radius x = Y
    refine Paints_congr (Paints_comp (Paints_comp (Paints_comp (Paints_comp (Paints_comp
      (Paints_comp (Paints_comp (Paints_Set _ _ c) (Paints_Set _ _ c)) (Paints_Set _ _ c))
      (Paints_Set _ _ c)) (Paints_Set _ _ c)) (Paints_Set _ _ c)) (Paints_Set _ _ c))
      (Paints_Set _ _ c)) (fun px py => ?_)
    tauto
  have h := Paints_forLoop hbody (circleLimit radius + 1).toNat 0
  refine Paints_congr h (fun px py => ⟨?_, ?_⟩)
  · rintro ⟨x, hx0, hx1, hS⟩
    exact ⟨x, hx0, by omega, hS⟩
  · rintro ⟨i, h0, h1, hS⟩
    exact ⟨i, h0, by omega, hS⟩

/-! ## Cell loops -/

theorem PixelLocal_of_Paints {f : image.RGBA → image.RGBA} {c : color.RGBA}
    {S reg : Int → Int → Prop} (h : Paints f c S) (hreg : ∀ px py, S px py → reg px py) :
    PixelLocal f reg := by
  refine ⟨fun m => (h m).1, fun m px py hn => ?_, fun m m1 px py hR hP => ?_⟩
  · exact ((h m).2 px py).2 (fun hh => hn (hreg px py hh.1))
  · by_cases hS : S px py ∧ m.Rect.Contains px py
    · rw [((h m).2 px py).1 hS.1 hS.2, ((h m1).2 px py).1 hS.1 (hR ▸ hS.2)]
    · rw [((h m).2 px py).2 hS, ((h m1).2 px py).2 (hR ▸ hS), hP]

theorem PixelLocal_comp {f g : image.RGBA → image.RGBA} {reg : Int → Int → Prop}
    (hf : PixelLocal f reg) (hg : PixelLocal g reg) : PixelLocal (fun m => g (f m)) reg := by
  refine ⟨fun m => ?_, fun m px py hn => ?_, fun m m1 px py hR hP => ?_⟩
  · rw [hg.1, hf.1]
  · rw [hg.2.1 _ px py hn, hf.2.1 _ px py hn]
  · exact hg.2.2 _ _ px py (by rw [hf.1, hf.1, hR]) (hf.2.2 m m1 px py hR hP)

theorem PixelLocal_forLoop {ops : Int → image.RGBA → image.RGBA} {reg : Int → Int → Int → Prop}
    (hloc : ∀ i, PixelLocal (ops i) (reg i))
    (hdisj : ∀ i j px py, reg i px py → reg j px py → i = j) :
    ∀ (k : Nat) (lo : Int),
      PixelLocal (forLoop ops lo k) (fun px py => ∃ i, lo ≤ i ∧ i < lo + k ∧ reg i px py) ∧
      ∀ m i px py, lo ≤ i → i < lo + k → reg i px py →
        (forLoop ops lo k m).Pix px py = (ops i m).Pix px py := by
  intro k
  induction k with
  | zero =>
    intro lo
    refine ⟨⟨fun m => rfl, fun m px py _ => rfl, fun m m1 px py _ hP => hP⟩, ?_⟩
    intro m i px py h1 h2
    exfalso
    simp at h2
    omega
  | succ k ih =>
    intro lo
    obtain ⟨⟨pl1, pl2, pl3⟩, heq⟩ := ih (lo + 1)
    obtain ⟨l1, l2, l3⟩ := hloc lo
    have hstep : ∀ m, forLoop ops lo (k + 1) m = forLoop ops (lo + 1) k (ops lo m) :=
      fun m => rfl
    refine ⟨⟨fun m => ?_, fun m px py hn => ?_, fun m m1 px py hR hP => ?_⟩, ?_⟩
    · rw [hstep, pl1, l1]
    · rw [hstep, pl2 _ px py, l2 _ px py]
      · exact fun h0 => hn ⟨lo, le_refl _, by push_cast; omega, h0⟩
      · rintro ⟨i, h1, h2, h3⟩
        exact hn ⟨i, by omega, by push_cast; omega, h3⟩
    · rw [hstep, hstep]
      exact pl3 _ _ px py (by rw [l1, l1, hR]) (l3 m m1 px py hR hP)
    · intro m i px py h1 h2 h3
      rw [hstep]
      by_cases hi : i = lo
      · subst hi
        apply pl2
        rintro ⟨j, j1, _, j3⟩
        have := hdisj i j px py h3 j3
        omega
      · rw [heq (ops lo m) i px py (by omega) (by push_cast at h2; omega) h3]
        apply (hloc i).2.2 _ _ px py (l1 m)
        apply l2
        intro h0
        exact hi (hdisj i lo px py h3 h0)

theorem InCell_unique {n x y x1 y1 px py : Int} (hn : 0 < n) (h : InCell n x y px py)
    (h1 : InCell n x1 y1 px py) : x = x1 ∧ y = y1 := by
  obtain ⟨a1, a2, a3, a4⟩ := h
  obtain ⟨b1, b2, b3, b4⟩ := h1
  have key : ∀ u v p : Int, u * n ≤ p → p < v * n + n → u < v + 1 := by
    intro u v p hu hv
    have : u * n < (v + 1) * n := by
      have e : (v + 1) * n = v * n + n := by ring
      omega
    exact lt_of_mul_lt_mul_right this (le_of_lt hn)
  have := key x x1 px a1 b2
  have := key x1 x px b1 a2
  have := key y y1 py a3 b4
  have := key y1 y py b3 a4
  omega

theorem InCell_div {n px py : Int} (hn : 0 < n) : InCell n (px / n) (py / n) px py := by
  have h1 := Int.ediv_add_emod px n
  have h2 := Int.emod_nonneg px (ne_of_gt hn)
  have h3 := Int.emod_lt_of_pos px hn
  have h4 := Int.ediv_add_emod py n
  have h5 := Int.emod_nonneg py (ne_of_gt hn)
  have h6 := Int.emod_lt_of_pos py hn
  have e1 : px / n * n = n * (px / n) := by ring
  have e2 : py / n * n = n * (py / n) := by ring
  unfold InCell
  omega

theorem renderCells_pixel {cell : Int → Int → image.RGBA → image.RGBA} {n : Int} (hn : 0 < n)
    (hcell : ∀ x y, PixelLocal (cell x y) (InCell n x y)) (w h : Int) (m : image.RGBA) :
    (renderCells cell w h m).Rect = m.Rect ∧
    ∀ x y px py, 0 ≤ x → x < w → 0 ≤ y → y < h → InCell n x y px py →
      (renderCells cell w h m).Pix px py = (cell x y m).Pix px py := by
  have hcol : ∀ x, PixelLocal (fun m => forLoop (fun y m => cell x y m) 0 h.toNat m)
        (fun px py => ∃ y, (0 : Int) ≤ y ∧ y < 0 + (h.toNat : Int) ∧ InCell n x y px py) ∧
      ∀ m y px py, (0 : Int) ≤ y → y < 0 + (h.toNat : Int) → InCell n x y px py →
        (forLoop (fun y m => cell x y m) 0 h.toNat m).Pix px py = (cell x y m).Pix px py :=
    fun x => PixelLocal_forLoop (fun y => hcell x y)
      (fun i j px py hi hj => (InCell_unique hn hi hj).2) h.toNat 0
  have hout := PixelLocal_forLoop (fun x => (hcol x).1)
    (fun i j px py hi hj => by
      obtain ⟨y, _, _, hy⟩ := hi
      obtain ⟨y1, _, _, hy1⟩ := hj
      exact (InCell_unique hn hy hy1).1) w.toNat 0
  refine ⟨hout.1.1 m, fun x y px py hx0 hx1 hy0 hy1 hin => ?_⟩
  have e := hout.2 m x px py hx0 (by omega) ⟨y, hy0, by omega, hin⟩
  exact e.trans ((hcol x).2 m y px py hy0 (by omega) hin)

/-! ## The block renderer -/

theorem Rect_of_nonneg {a b : Int} (ha : 0 ≤ a) (hb : 0 ≤ b) :
    image.Rect 0 0 a b = ⟨⟨0, 0⟩, ⟨a, b⟩⟩ := by
  unfold image.Rect
  rw [if_neg (by omega), if_neg (by omega), if_neg (by omega), if_neg (by omega)]

theorem fit_bounds {C R n : Int} (hR : 1 ≤ R) (hC : 1 ≤ C) (hn : 1 ≤ n)
    (hfit : 4 * (C * n) * (R * n) < 2 ^ 31) :
    1 ≤ C * n ∧ C * n < 2 ^ 29 ∧ 1 ≤ R * n ∧ R * n < 2 ^ 29 := by
  have h1 : 1 ≤ C * n := by nlinarith
  have h2 : 1 ≤ R * n := by nlinarith
  have h3 : C * n ≤ C * n * (R * n) := le_mul_of_one_le_right (by omega) h2
  have h4 : R * n ≤ C * n * (R * n) := le_mul_of_one_le_left (by omega) h1
  have e : 4 * (C * n) * (R * n) = 4 * (C * n * (R * n)) := by ring
  rw [e] at hfit
  refine ⟨h1, ?_, h2, ?_⟩ <;> omega

theorem machineBounds_eq {matrix : Matrix} {n : Int} (hR : 1 ≤ matrix.Rows)
    (hC : 1 ≤ matrix.Columns) (hn : 1 ≤ n)
    (hfit : 4 * (matrix.Columns * n) * (matrix.Rows * n) < 2 ^ 31) :
    machineBounds matrix n = image.Rect 0 0 (matrix.Columns * n) (matrix.Rows * n) := by
  obtain ⟨a1, a2, a3, a4⟩ := fit_bounds hR hC hn hfit
  unfold machineBounds
  rw [int64_eq (by omega) (by omega), int64_eq (by omega) (by omega)]

theorem blockCell_local (matrix : Matrix) (pixSize x y : Int) :
    PixelLocal (blockCell matrix pixSize x y) (InCell pixSize x y) :=
  PixelLocal_of_Paints (setOnePixel_paints _ (x * pixSize) (y * pixSize) pixSize)
    (fun _ _ h => h)

theorem generateImage_eq {matrix : Matrix} (pixSize : Int)
    (hlen : matrix.Rows * matrix.Columns ≤ (matrix.Bitmap.length : Int)) :
    generateImage matrix pixSize = .ok (renderCells (blockCell matrix pixSize) matrix.Columns
      matrix.Rows (image.NewRGBA (image.Rect 0 0 (matrix.Columns * pixSize)
        (matrix.Rows * pixSize)))) := by
  unfold generateImage renderCells
  apply forLoopE_ok
  intro x hx0 hx1 t
  apply forLoopE_ok
  intro y hy0 hy1 t1
  rw [GetPixel_ok hlen hx0 (by omega) hy0 (by omega)]
  rfl

theorem generateImage_rect {matrix : Matrix} {pixSize : Int} {img : image.RGBA}
    (h : generateImage matrix pixSize = .ok img) :
    img.Rect = image.Rect 0 0 (matrix.Columns * pixSize) (matrix.Rows * pixSize) := by
  unfold generateImage at h
  refine forLoopE_invariant _
    (fun t => t.Rect = image.Rect 0 0 (matrix.Columns * pixSize) (matrix.Rows * pixSize))
    ?_ _ _ _ _ h rfl
  intro x t t1 hx ht
  refine forLoopE_invariant _
    (fun t => t.Rect = image.Rect 0 0 (matrix.Columns * pixSize) (matrix.Rows * pixSize))
    ?_ _ _ _ _ hx ht
  intro y u u1 hy hu
  cases hg : matrix.GetPixel x y with
  | error e => rw [hg] at hy; cases hy
  | ok v =>
    rw [hg] at hy
    cases hy
    exact ((setOnePixel_paints _ _ _ _ u).1).trans hu

theorem cell_index {P C p : Int} (hP : 1 ≤ P) (h0 : 0 ≤ p) (h1 : p < C * P) :
    0 ≤ p / P ∧ p / P < C :=
  ⟨Int.ediv_nonneg h0 (by omega), Int.ediv_lt_of_lt_mul (by omega) h1⟩

/-- C1: on a matrix with `R, C >= 1` and `R*C` bitmap elements, with `P >= 1`, `generateImage`
returns a bitmap whose pixel `(px, py)`, for `0 <= px < C*P` and `0 <= py < R*P`, is
`toRGB(GetPixel(px / P, py / P))`, the element of the bitmap at index `(px/P)*R + py/P`. -/
theorem generateImage_pixel (matrix : Matrix) (P px py : Int)
    (hR : 1 ≤ matrix.Rows) (hC : 1 ≤ matrix.Columns)
    (hlen : (matrix.Bitmap.length : Int) = matrix.Rows * matrix.Columns) (hP : 1 ≤ P)
    (hx0 : 0 ≤ px) (hx1 : px < matrix.Columns * P)
    (hy0 : 0 ≤ py) (hy1 : py < matrix.Rows * P) :
    ∃ img v, generateImage matrix P = .ok img ∧
      matrix.GetPixel (px / P) (py / P) = .ok v ∧
      matrix.Bitmap[(px / P * matrix.Rows + py / P).toNat]? = some v ∧
      img.At px py = toRGB v := by
  obtain ⟨cx0, cx1⟩ := cell_index hP hx0 hx1
  obtain ⟨cy0, cy1⟩ := cell_index hP hy0 hy1
  have hb := index_bounds cx0 cx1 cy0 cy1
  have hlt : (px / P * matrix.Rows + py / P).toNat < matrix.Bitmap.length := by omega
  have hrect := Rect_of_nonneg (mul_nonneg (by omega : (0 : Int) ≤ matrix.Columns) (by omega : (0 : Int) ≤ P))
    (mul_nonneg (by omega : (0 : Int) ≤ matrix.Rows) (by omega : (0 : Int) ≤ P))
  have hcells := renderCells_pixel (by omega : 0 < P) (blockCell_local matrix P)
    matrix.Columns matrix.Rows
    (image.NewRGBA (image.Rect 0 0 (matrix.Columns * P) (matrix.Rows * P)))
  have hin : (image.NewRGBA (image.Rect 0 0 (matrix.Columns * P)
      (matrix.Rows * P))).Rect.Contains px py := by
    show (image.Rect 0 0 (matrix.Columns * P) (matrix.Rows * P)).Contains px py
    rw [hrect]
    exact ⟨hx0, hx1, hy0, hy1⟩
  refine ⟨_, matrix.Bitmap.getD (px / P * matrix.Rows + py / P).toNat 0,
    generateImage_eq P (by omega), GetPixel_ok (by omega) cx0 cx1 cy0 cy1, ?_, ?_⟩
  · rw [List.getD_eq_getElem?_getD, List.getElem?_eq_getElem hlt]
    rfl
  · unfold image.RGBA.At
    rw [hcells.1, if_pos hin,
      hcells.2 (px / P) (py / P) px py cx0 cx1 cy0 cy1 (InCell_div (by omega))]
    exact ((setOnePixel_paints _ _ _ _ _).2 px py).1 (InCell_div (by omega)) hin

/-- Witness of C1 (scenario A): the one-cell red matrix with `P = 2` gives four pixels, all
`(255, 0, 0, 255)`. -/
theorem generateImage_pixel_witness :
    (∃ img v, generateImage redCell 2 = .ok img ∧
      redCell.GetPixel (1 / 2) (1 / 2) = .ok v ∧
      redCell.Bitmap[((1 : Int) / 2 * redCell.Rows + 1 / 2).toNat]? = some v ∧
      img.At 1 1 = toRGB v) ∧
    pixelOf (generateImage redCell 2) 0 0 = some ⟨255, 0, 0, 255⟩ ∧
    pixelOf (generateImage redCell 2) 0 1 = some ⟨255, 0, 0, 255⟩ ∧
    pixelOf (generateImage redCell 2) 1 0 = some ⟨255, 0, 0, 255⟩ ∧
    pixelOf (generateImage redCell 2) 1 1 = some ⟨255, 0, 0, 255⟩ ∧
    boundsOf (generateImage redCell 2) = some ⟨⟨0, 0⟩, ⟨2, 2⟩⟩ :=
  ⟨generateImage_pixel redCell 2 1 1 (by decide) (by decide) (by decide) (by decide) (by decide)
    (by decide) (by decide) (by decide), by decide, by decide, by decide, by decide, by decide⟩

/-- C5: for `R, C >= 1` and `P` in `[1, 29]`, every bitmap `generateImage` returns has its origin
at `(0, 0)`, width `C*P` and height `R*P`; and it returns one when the bitmap of the matrix has
`R*C` elements. -/
theorem generateImage_bounds (matrix : Matrix) (P : Int)
    (hR : 1 ≤ matrix.Rows) (hC : 1 ≤ matrix.Columns) (hP1 : 1 ≤ P) (hP2 : P ≤ 29) :
    (∀ img, generateImage matrix P = .ok img →
      img.Rect.Min = ⟨0, 0⟩ ∧ img.Rect.Dx = matrix.Columns * P ∧
      img.Rect.Dy = matrix.Rows * P) ∧
    ((matrix.Bitmap.length : Int) = matrix.Rows * matrix.Columns →
      ∃ img, generateImage matrix P = .ok img) := by
  refine ⟨fun img h => ?_, fun hlen => ⟨_, generateImage_eq P (by omega)⟩⟩
  rw [generateImage_rect h, Rect_of_nonneg (mul_nonneg (by omega) (by omega))
    (mul_nonneg (by omega) (by omega))]
  simp [image.Rectangle.Dx, image.Rectangle.Dy]

/-- Witness of C5: the 2-by-3 index matrix with `P = 4` gives a bitmap with origin `(0, 0)`,
width `3*4` and height `2*4`. -/
theorem generateImage_bounds_witness :
    ∃ img, generateImage indexMatrix 4 = .ok img ∧
      img.Rect.Min = ⟨0, 0⟩ ∧ img.Rect.Dx = indexMatrix.Columns * 4 ∧
      img.Rect.Dy = indexMatrix.Rows * 4 := by
  obtain ⟨h1, h2⟩ :=
    generateImage_bounds indexMatrix 4 (by decide) (by decide) (by decide) (by decide)
  obtain ⟨img, himg⟩ := h2 (by decide)
  exact ⟨img, himg, h1 img himg⟩

/-! ## The disc renderer -/

theorem normalized_facts (P : Int) (h1 : 1 ≤ P) (h2 : P ≤ 29) :
    normalizedPixSize P = (if P % 2 = 0 then P + 1 else P) ∧
    normalizedPixSize P % 2 = 1 ∧
    circleRadius P = normalizedPixSize P / 2 ∧
    normalizedPixSize P = 2 * circleRadius P + 1 ∧
    0 ≤ circleRadius P ∧ circleRadius P ≤ 14 ∧
    (normalizedPixSize P).tdiv 2 = circleRadius P := by
  interval_cases P <;> decide

theorem floorSqrtBelow_spec (n : Nat) :
    ∀ k, floorSqrtBelow n k * floorSqrtBelow n k ≤ n ∧
      ∀ j, j ≤ k → j * j ≤ n → j ≤ floorSqrtBelow n k := by
  intro k
  induction k with
  | zero =>
    refine ⟨Nat.zero_le _, fun j hj _ => ?_⟩
    simp only [floorSqrtBelow]
    omega
  | succ k ih =>
    by_cases h : (k + 1) * (k + 1) ≤ n
    · simp only [floorSqrtBelow, if_pos h]
      exact ⟨h, fun j hj _ => hj⟩
    · simp only [floorSqrtBelow, if_neg h]
      refine ⟨ih.1, fun j hj hjn => ?_⟩
      rcases Nat.lt_or_ge j (k + 1) with hlt | hge
      · exact ih.2 j (by omega) hjn
      · have : j = k + 1 := by omega
        subst this
        exact absurd hjn h

theorem floorSqrt_eq (n : Nat) : floorSqrt n = Nat.sqrt n := by
  obtain ⟨h1, h2⟩ := floorSqrtBelow_spec n n
  apply le_antisymm
  · exact Nat.le_sqrt.mpr h1
  · exact h2 _ (Nat.sqrt_le_self n) (Nat.sqrt_le n)

theorem circleLimit_floor {r : Int} (hr : 0 ≤ r) :
    0 ≤ circleLimit r ∧ circleLimit r ≤ r ∧
    2 * (circleLimit r * circleLimit r) ≤ r * r ∧
    r * r < 2 * ((circleLimit r + 1) * (circleLimit r + 1)) := by
  obtain ⟨a, rfl⟩ := Int.eq_ofNat_of_zero_le hr
  rcases Nat.eq_zero_or_pos a with rfl | ha
  · decide
  · have hs : Int.sign (a : Int) = 1 := Int.sign_eq_one_of_pos (by exact_mod_cast ha)
    have e : circleLimit (a : Int) = (Nat.sqrt (a * a / 2) : Int) := by
      unfold circleLimit
      rw [hs, Int.natAbs_ofNat, one_mul, floorSqrt_eq]
    rw [e]
    have l1 := Nat.sqrt_le' (a * a / 2)
    have l2 := Nat.lt_succ_sqrt' (a * a / 2)
    have l3 : Nat.sqrt (a * a / 2) ≤ a :=
      (Nat.sqrt_le_sqrt (Nat.div_le_self _ _)).trans (le_of_eq (Nat.sqrt_eq a))
    have l4 := Nat.div_add_mod (a * a) 2
    have l5 := Nat.mod_lt (a * a) (by decide : 0 < 2)
    rw [pow_two] at l1
    rw [pow_two, Nat.succ_eq_add_one] at l2
    refine ⟨by positivity, by exact_mod_cast l3, ?_, ?_⟩
    · have : 2 * (Nat.sqrt (a * a / 2) * Nat.sqrt (a * a / 2)) ≤ a * a := by omega
      exact_mod_cast this
    · have : a * a < 2 * ((Nat.sqrt (a * a / 2) + 1) * (Nat.sqrt (a * a / 2) + 1)) := by omega
      exact_mod_cast this

theorem circleY_floor {r i : Int} (hi : i * i ≤ r * r) :
    0 ≤ circleY r i ∧
    circleY r i * circleY r i ≤ r * r - i * i ∧
    r * r - i * i < (circleY r i + 1) * (circleY r i + 1) := by
  obtain ⟨a, ha⟩ := Int.eq_ofNat_of_zero_le (by omega : 0 ≤ r * r - i * i)
  have e : circleY r i = (Nat.sqrt a : Int) := by
    unfold circleY
    rw [ha, Int.toNat_ofNat, floorSqrt_eq]
  rw [e, ha]
  have l1 := Nat.sqrt_le' a
  have l2 := Nat.lt_succ_sqrt' a
  rw [pow_two] at l1
  rw [pow_two, Nat.succ_eq_add_one] at l2
  exact ⟨by positivity, by exact_mod_cast l1, by exact_mod_cast l2⟩

theorem circleY_le {r i : Int} (hr : 0 ≤ r) : 0 ≤ circleY r i ∧ circleY r i ≤ r := by
  unfold circleY
  rw [floorSqrt_eq]
  refine ⟨by positivity, ?_⟩
  obtain ⟨a, rfl⟩ := Int.eq_ofNat_of_zero_le hr
  have h1 : ((a : Int) * a - i * i).toNat ≤ a * a := by
    have : 0 ≤ i * i := mul_self_nonneg i
    have : ((a : Int) * a - i * i).toNat ≤ ((a : Int) * a).toNat := Int.toNat_le_toNat (by omega)
    have e : ((a : Int) * a).toNat = a * a := by
      rw [← Nat.cast_mul, Int.toNat_ofNat]
    omega
  have h2 := (Nat.sqrt_le_sqrt h1).trans (le_of_eq (Nat.sqrt_eq a))
  exact_mod_cast h2

theorem discCell_local (matrix : Matrix) {n : Int} (hn : n = 2 * n.tdiv 2 + 1)
    (hr : 0 ≤ n.tdiv 2) (x y : Int) :
    PixelLocal (discCell matrix n x y) (InCell n x y) := by
  have hL := circleLimit_floor hr
  refine @PixelLocal_comp
    (fun m => fillCircle m (toRGB (matrix.Bitmap.getD (x * matrix.Rows + y).toNat 0))
      (x * n + n.tdiv 2) (y * n + n.tdiv 2) (n.tdiv 2))
    (fun m => drawCircle m STROKE_COLOR (x * n + n.tdiv 2) (y * n + n.tdiv 2) (n.tdiv 2))
    (InCell n x y)
    (PixelLocal_of_Paints (fillCircle_paints _ _ _ _) ?_)
    (PixelLocal_of_Paints (drawCircle_paints _ _ _ _) ?_)
  · rintro px py ⟨dx, dy, h1, h2, h3, h4, _, rfl, rfl⟩
    unfold InCell
    omega
  · rintro px py ⟨i, h1, h2, hS⟩
    have hY := @circleY_le (n.tdiv 2) i hr
    unfold InCell
    omega

theorem generateRealisticImage_eq {matrix : Matrix} (pixSize : Int)
    (hlen : matrix.Rows * matrix.Columns ≤ (matrix.Bitmap.length : Int)) :
    generateRealisticImage matrix pixSize =
      .ok (renderCells (discCell matrix (normalizedPixSize pixSize)) matrix.Columns matrix.Rows
        ((image.NewRGBA (image.Rect 0 0 (matrix.Columns * normalizedPixSize pixSize)
          (matrix.Rows * normalizedPixSize pixSize))).DrawUniformSrc ⟨0, 0, 0, 255⟩)) := by
  unfold generateRealisticImage renderCells
  apply forLoopE_ok
  intro x hx0 hx1 t
  apply forLoopE_ok
  intro y hy0 hy1 t1
  rw [GetPixel_ok hlen hx0 (by omega) hy0 (by omega)]
  rfl

theorem generateRealisticImage_rect {matrix : Matrix} {pixSize : Int} {img : image.RGBA}
    (h : generateRealisticImage matrix pixSize = .ok img) :
    img.Rect = image.Rect 0 0 (matrix.Columns * normalizedPixSize pixSize)
      (matrix.Rows * normalizedPixSize pixSize) := by
  unfold generateRealisticImage at h
  refine forLoopE_invariant _
    (fun t => t.Rect = image.Rect 0 0 (matrix.Columns * normalizedPixSize pixSize)
      (matrix.Rows * normalizedPixSize pixSize)) ?_ _ _ _ _ h rfl
  intro x t t1 hx ht
  refine forLoopE_invariant _
    (fun t => t.Rect = image.Rect 0 0 (matrix.Columns * normalizedPixSize pixSize)
      (matrix.Rows * normalizedPixSize pixSize)) ?_ _ _ _ _ hx ht
  intro y u u1 hy hu
  cases hg : matrix.GetPixel x y with
  | error e => rw [hg] at hy; cases hy
  | ok v =>
    rw [hg] at hy
    cases hy
    exact ((drawCircle_paints _ _ _ _ _).1.trans (fillCircle_paints _ _ _ _ u).1).trans hu

/-- C6, as the code has it: for `R, C >= 1` and `P` in `[1, 29]` the normalised size is
`n = P + 1` for an even `P` and `n = P` for an odd one, `n` is odd, the radius is `r = n / 2`
with `n = 2*r + 1`, every bitmap `generateRealisticImage` returns has origin `(0, 0)`, width
`C*n` and height `R*n`, and a bitmap is returned when the matrix has `R*C` elements. -/
theorem generateRealisticImage_bounds (matrix : Matrix) (P : Int)
    (hR : 1 ≤ matrix.Rows) (hC : 1 ≤ matrix.Columns) (hP1 : 1 ≤ P) (hP2 : P ≤ 29) :
    (P % 2 = 0 → normalizedPixSize P = P + 1) ∧
    (P % 2 = 1 → normalizedPixSize P = P) ∧
    normalizedPixSize P % 2 = 1 ∧
    circleRadius P = normalizedPixSize P / 2 ∧
    normalizedPixSize P = 2 * circleRadius P + 1 ∧
    (∀ img, generateRealisticImage matrix P = .ok img →
      img.Rect.Min = ⟨0, 0⟩ ∧ img.Rect.Dx = matrix.Columns * normalizedPixSize P ∧
      img.Rect.Dy = matrix.Rows * normalizedPixSize P) ∧
    ((matrix.Bitmap.length : Int) = matrix.Rows * matrix.Columns →
      ∃ img, generateRealisticImage matrix P = .ok img) := by
  obtain ⟨f1, f2, f3, f4, f5, f6, f7⟩ := normalized_facts P hP1 hP2
  refine ⟨fun h => by rw [f1, if_pos h], fun h => by rw [f1, if_neg (by omega)], f2, f3, f4,
    fun img h => ?_, fun hlen => ⟨_, generateRealisticImage_eq P (by omega)⟩⟩
  rw [generateRealisticImage_rect h, Rect_of_nonneg (mul_nonneg (by omega) (by omega))
    (mul_nonneg (by omega) (by omega))]
  simp [image.Rectangle.Dx, image.Rectangle.Dy]

/-- Witness of C6 as amended: the one-cell matrix with `P = 2` is rendered with `n = 3` and
`r = 1`, to a bitmap with origin `(0, 0)`, width 3 and height 3. -/
theorem generateRealisticImage_bounds_witness :
    normalizedPixSize 2 = 2 + 1 ∧ normalizedPixSize 2 % 2 = 1 ∧
    circleRadius 2 = normalizedPixSize 2 / 2 ∧ normalizedPixSize 2 = 2 * circleRadius 2 + 1 ∧
    (∃ img, generateRealisticImage redCell 2 = .ok img ∧ img.Rect.Min = ⟨0, 0⟩ ∧
      img.Rect.Dx = redCell.Columns * normalizedPixSize 2 ∧
      img.Rect.Dy = redCell.Rows * normalizedPixSize 2) ∧
    boundsOf (generateRealisticImage redCell 2) = some ⟨⟨0, 0⟩, ⟨3, 3⟩⟩ := by
  obtain ⟨h1, _, h3, h4, h5, h6, h7⟩ :=
    generateRealisticImage_bounds redCell 2 (by decide) (by decide) (by decide) (by decide)
  obtain ⟨img, himg⟩ := h7 (by decide)
  exact ⟨h1 (by decide), h3, h4, h5, ⟨img, himg, h6 img himg⟩, by decide⟩

/-- Counterexample to C6 as stated: a matrix with `columns = -1` and `rows = 1` is rendered, with
`P = 1`, to a bitmap with bounds `(-1, 0)-(0, 1)`, of width `1` and not `C*n = -1`. -/
theorem generateRealisticImage_negative_columns :
    boundsOf (generateRealisticImage negativeColumns 1) = some ⟨⟨-1, 0⟩, ⟨0, 1⟩⟩ ∧
    (image.Rectangle.Dx ⟨⟨-1, 0⟩, ⟨0, 1⟩⟩ = 1) ∧
    negativeColumns.Columns * normalizedPixSize 1 = -1 := by
  decide

theorem coord_abs {c d e : Int} (he : 0 ≤ e) :
    (c + d = c + e ∨ c + d = c - e) ↔ |d| = e := by
  rw [abs_eq he]
  omega

theorem discCell_pixel (matrix : Matrix) {n r : Int} (hr : n.tdiv 2 = r) (hr0 : 0 ≤ r)
    (x y dx dy : Int) (m : image.RGBA)
    (hdx0 : -r ≤ dx) (hdx1 : dx ≤ r) (hdy0 : -r ≤ dy) (hdy1 : dy ≤ r)
    (hin : m.Rect.Contains (x * n + r + dx) (y * n + r + dy)) :
    (OnStroke r dx dy →
      (discCell matrix n x y m).Pix (x * n + r + dx) (y * n + r + dy) = STROKE_COLOR) ∧
    (¬OnStroke r dx dy → dx * dx + dy * dy ≤ r * r →
      (discCell matrix n x y m).Pix (x * n + r + dx) (y * n + r + dy) =
        toRGB (matrix.Bitmap.getD (x * matrix.Rows + y).toNat 0)) ∧
    (¬OnStroke r dx dy → ¬(dx * dx + dy * dy ≤ r * r) →
      (discCell matrix n x y m).Pix (x * n + r + dx) (y * n + r + dy) =
        m.Pix (x * n + r + dx) (y * n + r + dy)) := by
  subst hr
  have hfill := fillCircle_paints (toRGB (matrix.Bitmap.getD (x * matrix.Rows + y).toNat 0))
    (x * n + n.tdiv 2) (y * n + n.tdiv 2) (n.tdiv 2) m
  have hdraw := drawCircle_paints STROKE_COLOR (x * n + n.tdiv 2) (y * n + n.tdiv 2) (n.tdiv 2)
    (fillCircle m (toRGB (matrix.Bitmap.getD (x * matrix.Rows + y).toNat 0))
      (x * n + n.tdiv 2) (y * n + n.tdiv 2) (n.tdiv 2))
  have hY : ∀ i : Int, 0 ≤ circleY (n.tdiv 2) i := fun i => (circleY_le hr0).1
  have hstroke : OnStroke (n.tdiv 2) dx dy ↔ ∃ i : Int, 0 ≤ i ∧ i ≤ circleLimit (n.tdiv 2) ∧
      (((x * n + n.tdiv 2 + dx = x * n + n.tdiv 2 + i ∨
          x * n + n.tdiv 2 + dx = x * n + n.tdiv 2 - i) ∧
        (y * n + n.tdiv 2 + dy = y * n + n.tdiv 2 + circleY (n.tdiv 2) i ∨
          y * n + n.tdiv 2 + dy = y * n + n.tdiv 2 - circleY (n.tdiv 2) i)) ∨
      ((x * n + n.tdiv 2 + dx = x * n + n.tdiv 2 + circleY (n.tdiv 2) i ∨
          x * n + n.tdiv 2 + dx = x * n + n.tdiv 2 - circleY (n.tdiv 2) i) ∧
        (y * n + n.tdiv 2 + dy = y * n + n.tdiv 2 + i ∨
          y * n + n.tdiv 2 + dy = y * n + n.tdiv 2 - i))) := by
    unfold OnStroke
    constructor
    · rintro ⟨i, h0, h1, h⟩
      refine ⟨i, h0, h1, ?_⟩
      rw [coord_abs h0, coord_abs (hY i), coord_abs (hY i), coord_abs h0]
      exact h
    · rintro ⟨i, h0, h1, h⟩
      refine ⟨i, h0, h1, ?_⟩
      rw [coord_abs h0, coord_abs (hY i), coord_abs (hY i), coord_abs h0] at h
      exact h
  have hdisc : dx * dx + dy * dy ≤ n.tdiv 2 * n.tdiv 2 ↔
      ∃ ex ey : Int, -n.tdiv 2 ≤ ex ∧ ex ≤ n.tdiv 2 ∧ -n.tdiv 2 ≤ ey ∧ ey ≤ n.tdiv 2 ∧
        ex * ex + ey * ey ≤ n.tdiv 2 * n.tdiv 2 ∧
        x * n + n.tdiv 2 + dx = x * n + n.tdiv 2 + ex ∧
        y * n + n.tdiv 2 + dy = y * n + n.tdiv 2 + ey := by
    constructor
    · intro h
      exact ⟨dx, dy, hdx0, hdx1, hdy0, hdy1, h, rfl, rfl⟩
    · rintro ⟨ex, ey, _, _, _, _, h, h1, h2⟩
      have e1 : ex = dx := by omega
      have e2 : ey = dy := by omega
      subst e1 e2
      exact h
  have hin1 : (fillCircle m (toRGB (matrix.Bitmap.getD (x * matrix.Rows + y).toNat 0))
      (x * n + n.tdiv 2) (y * n + n.tdiv 2) (n.tdiv 2)).Rect.Contains
      (x * n + n.tdiv 2 + dx) (y * n + n.tdiv 2 + dy) := by
    rw [hfill.1]
    exact hin
  refine ⟨fun hs => ?_, fun hs hd => ?_, fun hs hd => ?_⟩
  · exact (hdraw.2 _ _).1 (hstroke.1 hs) hin1
  · have e := (hdraw.2 (x * n + n.tdiv 2 + dx) (y * n + n.tdiv 2 + dy)).2
      (fun hh => hs (hstroke.2 hh.1))
    exact e.trans ((hfill.2 _ _).1 (hdisc.1 hd) hin)
  · have e := (hdraw.2 (x * n + n.tdiv 2 + dx) (y * n + n.tdiv 2 + dy)).2
      (fun hh => hs (hstroke.2 hh.1))
    exact e.trans ((hfill.2 _ _).2 (fun hh => hd (hdisc.2 hh.1)))

/-- C2: on a valid matrix with `pixelSize` in `[1, 29]`, `n` the normalised size and `r = n/2`,
`generateRealisticImage` returns a bitmap whose pixel at `(x*n + r + dx, y*n + r + dy)`, for a
cell `(x, y)` and offsets `dx, dy` in `[-r, r]`, is the stroke colour when `(|dx|, |dy|)` is
`(i, Y(i))` or `(Y(i), i)` for some `0 <= i <= L`; otherwise the colour of the cell when
`dx*dx + dy*dy <= r*r`; otherwise opaque black.  `L` and `Y(i)` are the exact integer floors of
`r/sqrt 2` and `sqrt (r*r - i*i)`. -/
theorem generateRealisticImage_pixel (matrix : Matrix) (P x y dx dy : Int)
    (hR : 1 ≤ matrix.Rows) (hC : 1 ≤ matrix.Columns)
    (hlen : (matrix.Bitmap.length : Int) = matrix.Rows * matrix.Columns)
    (hP1 : 1 ≤ P) (hP2 : P ≤ 29)
    (hx0 : 0 ≤ x) (hx1 : x < matrix.Columns) (hy0 : 0 ≤ y) (hy1 : y < matrix.Rows)
    (hdx0 : -circleRadius P ≤ dx) (hdx1 : dx ≤ circleRadius P)
    (hdy0 : -circleRadius P ≤ dy) (hdy1 : dy ≤ circleRadius P) :
    ∃ img v, generateRealisticImage matrix P = .ok img ∧ matrix.GetPixel x y = .ok v ∧
      (OnStroke (circleRadius P) dx dy →
        img.At (x * normalizedPixSize P + circleRadius P + dx)
          (y * normalizedPixSize P + circleRadius P + dy) = STROKE_COLOR) ∧
      (¬OnStroke (circleRadius P) dx dy → dx * dx + dy * dy ≤ circleRadius P * circleRadius P →
        img.At (x * normalizedPixSize P + circleRadius P + dx)
          (y * normalizedPixSize P + circleRadius P + dy) = toRGB v) ∧
      (¬OnStroke (circleRadius P) dx dy →
        ¬(dx * dx + dy * dy ≤ circleRadius P * circleRadius P) →
        img.At (x * normalizedPixSize P + circleRadius P + dx)
          (y * normalizedPixSize P + circleRadius P + dy) = ⟨0, 0, 0, 255⟩) ∧
      (0 ≤ circleLimit (circleRadius P) ∧
        2 * (circleLimit (circleRadius P) * circleLimit (circleRadius P)) ≤
          circleRadius P * circleRadius P ∧
        circleRadius P * circleRadius P <
          2 * ((circleLimit (circleRadius P) + 1) * (circleLimit (circleRadius P) + 1))) ∧
      (∀ i : Int, 0 ≤ i → i ≤ circleLimit (circleRadius P) →
        0 ≤ circleY (circleRadius P) i ∧
        circleY (circleRadius P) i * circleY (circleRadius P) i ≤
          circleRadius P * circleRadius P - i * i ∧
        circleRadius P * circleRadius P - i * i <
          (circleY (circleRadius P) i + 1) * (circleY (circleRadius P) i + 1)) := by
  obtain ⟨_, _, _, f4, f5, _, f7⟩ := normalized_facts P hP1 hP2
  have hL := circleLimit_floor f5
  have hn : 0 < normalizedPixSize P := by omega
  have hn2 : normalizedPixSize P = 2 * (normalizedPixSize P).tdiv 2 + 1 := by rw [f7]; exact f4
  have hcells := renderCells_pixel hn
    (discCell_local matrix hn2 (by rw [f7]; exact f5)) matrix.Columns matrix.Rows
    ((image.NewRGBA (image.Rect 0 0 (matrix.Columns * normalizedPixSize P)
      (matrix.Rows * normalizedPixSize P))).DrawUniformSrc ⟨0, 0, 0, 255⟩)
  have hrect := Rect_of_nonneg
    (mul_nonneg (by omega : (0 : Int) ≤ matrix.Columns) (le_of_lt hn))
    (mul_nonneg (by omega : (0 : Int) ≤ matrix.Rows) (le_of_lt hn))
  have hcell : InCell (normalizedPixSize P) x y
      (x * normalizedPixSize P + circleRadius P + dx)
      (y * normalizedPixSize P + circleRadius P + dy) := by
    unfold InCell
    omega
  have hxn : 0 ≤ x * normalizedPixSize P := mul_nonneg hx0 (le_of_lt hn)
  have hyn : 0 ≤ y * normalizedPixSize P := mul_nonneg hy0 (le_of_lt hn)
  have hxc : (x + 1) * normalizedPixSize P ≤ matrix.Columns * normalizedPixSize P :=
    mul_le_mul_of_nonneg_right (by omega) (le_of_lt hn)
  have hyc : (y + 1) * normalizedPixSize P ≤ matrix.Rows * normalizedPixSize P :=
    mul_le_mul_of_nonneg_right (by omega) (le_of_lt hn)
  have ex : (x + 1) * normalizedPixSize P = x * normalizedPixSize P + normalizedPixSize P := by
    ring
  have ey : (y + 1) * normalizedPixSize P = y * normalizedPixSize P + normalizedPixSize P := by
    ring
  have hin : ((image.NewRGBA (image.Rect 0 0 (matrix.Columns * normalizedPixSize P)
      (matrix.Rows * normalizedPixSize P))).DrawUniformSrc ⟨0, 0, 0, 255⟩).Rect.Contains
      (x * normalizedPixSize P + circleRadius P + dx)
      (y * normalizedPixSize P + circleRadius P + dy) := by
    show (image.Rect 0 0 (matrix.Columns * normalizedPixSize P)
      (matrix.Rows * normalizedPixSize P)).Contains _ _
    rw [hrect]
    unfold image.Rectangle.Contains
    simp only
    omega
  have hbg : ((image.NewRGBA (image.Rect 0 0 (matrix.Columns * normalizedPixSize P)
      (matrix.Rows * normalizedPixSize P))).DrawUniformSrc ⟨0, 0, 0, 255⟩).Pix
      (x * normalizedPixSize P + circleRadius P + dx)
      (y * normalizedPixSize P + circleRadius P + dy) = ⟨0, 0, 0, 255⟩ := if_pos hin
  have hpix := discCell_pixel matrix f7 f5 x y dx dy _ hdx0 hdx1 hdy0 hdy1 hin
  have hAt : ∀ c : color.RGBA,
      (discCell matrix (normalizedPixSize P) x y
        ((image.NewRGBA (image.Rect 0 0 (matrix.Columns * normalizedPixSize P)
          (matrix.Rows * normalizedPixSize P))).DrawUniformSrc ⟨0, 0, 0, 255⟩)).Pix
        (x * normalizedPixSize P + circleRadius P + dx)
        (y * normalizedPixSize P + circleRadius P + dy) = c →
      (renderCells (discCell matrix (normalizedPixSize P)) matrix.Columns matrix.Rows
        ((image.NewRGBA (image.Rect 0 0 (matrix.Columns * normalizedPixSize P)
          (matrix.Rows * normalizedPixSize P))).DrawUniformSrc ⟨0, 0, 0, 255⟩)).At
        (x * normalizedPixSize P + circleRadius P + dx)
        (y * normalizedPixSize P + circleRadius P + dy) = c := by
    intro c hc
    unfold image.RGBA.At
    rw [hcells.1, if_pos hin, hcells.2 x y _ _ hx0 hx1 hy0 hy1 hcell]
    exact hc
  refine ⟨_, matrix.Bitmap.getD (x * matrix.Rows + y).toNat 0,
    generateRealisticImage_eq P (by omega), GetPixel_ok (by omega) hx0 hx1 hy0 hy1,
    fun hs => hAt _ (hpix.1 hs), fun hs hd => hAt _ (hpix.2.1 hs hd),
    fun hs hd => hAt _ ((hpix.2.2 hs hd).trans hbg), ⟨hL.1, hL.2.2.1, hL.2.2.2⟩, ?_⟩
  intro i hi0 hi1
  have hii : i * i ≤ circleRadius P * circleRadius P :=
    mul_self_le_mul_self hi0 (by omega)
  exact circleY_floor hii

theorem center_not_on_stroke : ¬OnStroke (circleRadius 2) 0 0 := by
  rintro ⟨i, h0, h1, h⟩
  have hL : circleLimit (circleRadius 2) = 0 := by decide
  have hi : i = 0 := by omega
  subst hi
  have hY : circleY (circleRadius 2) 0 = 1 := by decide
  rw [hY] at h
  simp at h

/-- Witness of C2 (scenario B): the one-cell red matrix with `pixelSize = 2` gives a 3-by-3
bitmap with black corners, the stroke colour at `(1,0)`, `(1,2)`, `(0,1)`, `(2,1)` and red only at
the centre `(1,1)`. -/
theorem generateRealisticImage_pixel_witness :
    (∃ img v, generateRealisticImage redCell 2 = .ok img ∧ redCell.GetPixel 0 0 = .ok v ∧
      img.At 1 1 = toRGB v) ∧
    boundsOf (generateRealisticImage redCell 2) = some ⟨⟨0, 0⟩, ⟨3, 3⟩⟩ ∧
    pixelOf (generateRealisticImage redCell 2) 0 0 = some ⟨0, 0, 0, 255⟩ ∧
    pixelOf (generateRealisticImage redCell 2) 2 0 = some ⟨0, 0, 0, 255⟩ ∧
    pixelOf (generateRealisticImage redCell 2) 0 2 = some ⟨0, 0, 0, 255⟩ ∧
    pixelOf (generateRealisticImage redCell 2) 2 2 = some ⟨0, 0, 0, 255⟩ ∧
    pixelOf (generateRealisticImage redCell 2) 1 0 = some ⟨50, 50, 50, 185⟩ ∧
    pixelOf (generateRealisticImage redCell 2) 1 2 = some ⟨50, 50, 50, 185⟩ ∧
    pixelOf (generateRealisticImage redCell 2) 0 1 = some ⟨50, 50, 50, 185⟩ ∧
    pixelOf (generateRealisticImage redCell 2) 2 1 = some ⟨50, 50, 50, 185⟩ ∧
    pixelOf (generateRealisticImage redCell 2) 1 1 = some ⟨255, 0, 0, 255⟩ := by
  refine ⟨?_, by decide, by decide, by decide, by decide, by decide, by decide,
    by decide, by decide, by decide, by decide⟩
  obtain ⟨img, v, h1, h2, _, h4, _⟩ := generateRealisticImage_pixel redCell 2 0 0 0 0
    (by decide) (by decide) (by decide) (by decide) (by decide) (by decide) (by decide)
    (by decide) (by decide) (by decide) (by decide) (by decide) (by decide)
  exact ⟨img, v, h1, h2, h4 center_not_on_stroke (by decide)⟩

/-! ## The request layer -/

/-- C9: the decision of `getPixSizeParam`.  An absent parameter gives no error and leaves
`pixSize` as it is; a parameter that parses to `s` gives no error and sets `pixSize` to `s`
exactly when `1 <= s <= 29`; any other parameter gives an error and leaves `pixSize` as it is. -/
theorem getPixSizeParam_decision (r : http.Request) (p : Int) :
    (r.pixSize = "" → getPixSizeParam r p = (none, p)) ∧
    (r.pixSize ≠ "" → ∀ s, strconv.Atoi r.pixSize = some s →
      (1 ≤ s ∧ s ≤ 29 → getPixSizeParam r p = (none, s)) ∧
      (¬(1 ≤ s ∧ s ≤ 29) →
        (getPixSizeParam r p).1.isSome = true ∧ (getPixSizeParam r p).2 = p)) ∧
    (r.pixSize ≠ "" → strconv.Atoi r.pixSize = none →
      (getPixSizeParam r p).1.isSome = true ∧ (getPixSizeParam r p).2 = p) := by
  refine ⟨fun h => ?_, fun h s hs => ⟨fun hv => ?_, fun hv => ?_⟩, fun h hs => ?_⟩
  · unfold getPixSizeParam
    simp only [h, ne_eq, not_true_eq_false, if_false]
  · unfold getPixSizeParam
    simp only [ne_eq, h, not_false_eq_true, if_true, hs]
    rw [if_neg (by omega)]
  · unfold getPixSizeParam
    simp only [ne_eq, h, not_false_eq_true, if_true, hs]
    rw [if_pos (by omega)]
    simp
  · unfold getPixSizeParam
    simp only [ne_eq, h, not_false_eq_true, if_true, hs]
    simp

/-- Witness of C9: starting from the default 4, the parameters `1` and `29` are accepted, `0`,
`-1`, `30`, `100` and a non-integer are rejected, and an absent parameter keeps the default. -/
theorem getPixSizeParam_decision_witness :
    getPixSizeParam ⟨"29", .ok redCell⟩ DEFAULT_PIXSIZE = (none, 29) ∧
    getPixSizeParam ⟨"1", .ok redCell⟩ DEFAULT_PIXSIZE = (none, 1) ∧
    getPixSizeParam ⟨"", .ok redCell⟩ DEFAULT_PIXSIZE = (none, 4) ∧
    ((getPixSizeParam ⟨"0", .ok redCell⟩ DEFAULT_PIXSIZE).1.isSome = true ∧
      (getPixSizeParam ⟨"0", .ok redCell⟩ DEFAULT_PIXSIZE).2 = DEFAULT_PIXSIZE) ∧
    ((getPixSizeParam ⟨"-1", .ok redCell⟩ DEFAULT_PIXSIZE).1.isSome = true ∧
      (getPixSizeParam ⟨"-1", .ok redCell⟩ DEFAULT_PIXSIZE).2 = DEFAULT_PIXSIZE) ∧
    ((getPixSizeParam ⟨"30", .ok redCell⟩ DEFAULT_PIXSIZE).1.isSome = true ∧
      (getPixSizeParam ⟨"30", .ok redCell⟩ DEFAULT_PIXSIZE).2 = DEFAULT_PIXSIZE) ∧
    ((getPixSizeParam ⟨"100", .ok redCell⟩ DEFAULT_PIXSIZE).1.isSome = true ∧
      (getPixSizeParam ⟨"100", .ok redCell⟩ DEFAULT_PIXSIZE).2 = DEFAULT_PIXSIZE) ∧
    ((getPixSizeParam ⟨"4x", .ok redCell⟩ DEFAULT_PIXSIZE).1.isSome = true ∧
      (getPixSizeParam ⟨"4x", .ok redCell⟩ DEFAULT_PIXSIZE).2 = DEFAULT_PIXSIZE) :=
  ⟨((getPixSizeParam_decision ⟨"29", .ok redCell⟩ DEFAULT_PIXSIZE).2.1 (by decide) 29
      (by decide)).1 (by decide),
    ((getPixSizeParam_decision ⟨"1", .ok redCell⟩ DEFAULT_PIXSIZE).2.1 (by decide) 1
      (by decide)).1 (by decide),
    (getPixSizeParam_decision ⟨"", .ok redCell⟩ DEFAULT_PIXSIZE).1 (by decide),
    ((getPixSizeParam_decision ⟨"0", .ok redCell⟩ DEFAULT_PIXSIZE).2.1 (by decide) 0
      (by decide)).2 (by decide),
    ((getPixSizeParam_decision ⟨"-1", .ok redCell⟩ DEFAULT_PIXSIZE).2.1 (by decide) (-1)
      (by decide)).2 (by decide),
    ((getPixSizeParam_decision ⟨"30", .ok redCell⟩ DEFAULT_PIXSIZE).2.1 (by decide) 30
      (by decide)).2 (by decide),
    ((getPixSizeParam_decision ⟨"100", .ok redCell⟩ DEFAULT_PIXSIZE).2.1 (by decide) 100
      (by decide)).2 (by decide),
    (getPixSizeParam_decision ⟨"4x", .ok redCell⟩ DEFAULT_PIXSIZE).2.2 (by decide)
      (by decide)⟩

set_option maxRecDepth 4000 in
/-- C10, the code at the failing input: with `pixSize=0` (rejected by `getPixSizeParam`) and a
body that decodes to the one-cell matrix, both handlers answer 400 and still go on to render
with the default size 4 and to write the image to the response. -/
theorem handlers_render_after_invalid_pixSize :
    (getPixSizeParam ⟨"0", .ok redCell⟩ DEFAULT_PIXSIZE).1.isSome = true ∧
    outcomeOf (renderImage freshWriter ⟨"0", .ok redCell⟩) =
      some (some 400, [image.Rect 0 0 4 4]) ∧
    outcomeOf (renderRealisticImage freshWriter ⟨"0", .ok redCell⟩) =
      some (some 400, [image.Rect 0 0 5 5]) ∧
    boundsOf (generateImage redCell DEFAULT_PIXSIZE) = some (image.Rect 0 0 4 4) ∧
    boundsOf (generateRealisticImage redCell DEFAULT_PIXSIZE) = some (image.Rect 0 0 5 5) ∧
    outcomeOf (renderImage freshWriter ⟨"4x", .ok redCell⟩) =
      some (some 400, [image.Rect 0 0 4 4]) := by
  refine ⟨by decide, by decide, by decide, by decide, by decide, by decide⟩

theorem forLoopE_ok_or_error {σ : Type} (body : Int → σ → Except Panic σ) (e : Panic) :
    ∀ (k : Nat) (lo : Int) (s : σ),
      (∀ i, lo ≤ i → i < lo + k → ∀ t, (∃ t1, body i t = .ok t1) ∨ body i t = .error e) →
      (∃ s1, forLoopE body lo k s = .ok s1) ∨ forLoopE body lo k s = .error e := by
  intro k
  induction k with
  | zero => intro lo s _; exact Or.inl ⟨s, rfl⟩
  | succ k ih =>
    intro lo s hall
    rcases hall lo (le_refl _) (by push_cast; omega) s with ⟨t1, h0⟩ | h0
    · simp only [forLoopE, h0]
      exact ih (lo + 1) t1 (fun i h1 h2 t => hall i (by omega) (by push_cast; omega) t)
    · simp only [forLoopE, h0]
      exact Or.inr trivial

theorem GetPixel_index_panic {m : Matrix} {x y : Int}
    (hx0 : 0 ≤ x) (hx1 : x < m.Columns) (hy0 : 0 ≤ y) (hy1 : y < m.Rows)
    (h : (m.Bitmap.length : Int) ≤ x * m.Rows + y) (hs : x * m.Rows + y < 2 ^ 63) :
    m.GetPixel x y = .error .indexOutOfRange := by
  have hi : int64 (x * m.Rows + y) = x * m.Rows + y := int64_eq (by omega) hs
  unfold Matrix.GetPixel
  rw [if_neg (by omega), if_neg (by omega)]
  simp only [hi]
  rw [if_pos (by omega)]

theorem GetPixel_in_range {m : Matrix} {x y : Int}
    (hx0 : 0 ≤ x) (hx1 : x < m.Columns) (hy0 : 0 ≤ y) (hy1 : y < m.Rows) :
    (∃ v, m.GetPixel x y = .ok v) ∨ m.GetPixel x y = .error .indexOutOfRange := by
  unfold Matrix.GetPixel
  rw [if_neg (by omega), if_neg (by omega)]
  simp only
  by_cases h : int64 (x * m.Rows + y) < 0 ∨
      int64 (x * m.Rows + y) ≥ (m.Bitmap.length : Int)
  · rw [if_pos h]
    exact Or.inr rfl
  · rw [if_neg h]
    exact Or.inl ⟨_, rfl⟩

theorem first_missing_cell {m : Matrix} (hR : 1 ≤ m.Rows)
    (hshort : (m.Bitmap.length : Int) < m.Rows * m.Columns) :
    0 ≤ (m.Bitmap.length : Int) / m.Rows ∧ (m.Bitmap.length : Int) / m.Rows < m.Columns ∧
    0 ≤ (m.Bitmap.length : Int) % m.Rows ∧ (m.Bitmap.length : Int) % m.Rows < m.Rows ∧
    (m.Bitmap.length : Int) / m.Rows * m.Rows + (m.Bitmap.length : Int) % m.Rows =
      (m.Bitmap.length : Int) := by
  have h1 := Int.ediv_add_emod (m.Bitmap.length : Int) m.Rows
  have e : m.Rows * ((m.Bitmap.length : Int) / m.Rows) =
      (m.Bitmap.length : Int) / m.Rows * m.Rows := by ring
  refine ⟨Int.ediv_nonneg (by omega) (by omega),
    Int.ediv_lt_of_lt_mul (by omega) (by rw [mul_comm]; exact hshort),
    Int.emod_nonneg _ (by omega), Int.emod_lt_of_pos _ (by omega), by omega⟩

theorem cells_error (matrix : Matrix) (f : Int → Int → Nat → image.RGBA → image.RGBA)
    (hR : 1 ≤ matrix.Rows) (hshort : (matrix.Bitmap.length : Int) < matrix.Rows * matrix.Columns)
    (m0 : image.RGBA) :
    forLoopE (fun x m => forLoopE (fun y m =>
      match matrix.GetPixel x y with
      | .error e => .error e
      | .ok u => .ok (f x y u m)) 0 matrix.Rows.toNat m) 0 matrix.Columns.toNat m0 =
      .error .indexOutOfRange := by
  obtain ⟨c1, c2, c3, c4, c5⟩ := first_missing_cell hR hshort
  have hbody : ∀ x, 0 ≤ x → x < matrix.Columns → ∀ y, 0 ≤ y →
      y < 0 + ((matrix.Rows.toNat : Nat) : Int) → ∀ t : image.RGBA,
      (∃ t1, (match matrix.GetPixel x y with
        | .error e => .error e
        | .ok u => .ok (f x y u t) : Except Panic image.RGBA) = .ok t1) ∨
      (match matrix.GetPixel x y with
        | .error e => .error e
        | .ok u => .ok (f x y u t) : Except Panic image.RGBA) = .error .indexOutOfRange := by
    intro x hx0 hx1 y hy0 hy1 t
    rcases GetPixel_in_range hx0 hx1 hy0 (by omega : y < matrix.Rows) with ⟨v, hv⟩ | hv
    · rw [hv]
      exact Or.inl ⟨_, rfl⟩
    · rw [hv]
      exact Or.inr rfl
  apply forLoopE_error
  · intro x hx0 hx1 t
    exact forLoopE_ok_or_error _ _ _ _ _ (hbody x hx0 (by omega))
  · refine ⟨(matrix.Bitmap.length : Int) / matrix.Rows, c1, by omega, fun t => ?_⟩
    apply forLoopE_error
    · exact hbody _ c1 c2
    · refine ⟨(matrix.Bitmap.length : Int) % matrix.Rows, c3, by omega, fun t1 => ?_⟩
      have hl : (matrix.Bitmap.length : Int) < 2 ^ 63 := by exact_mod_cast matrix.lenInt
      rw [GetPixel_index_panic c1 c2 c3 c4 (by omega) (by omega)]

/-- C8, as the code has it: the render path makes no length check.  `decodeMatrix` hands the
decoded matrix on as it is, and for `rows, columns >= 1` and `pixelSize` in `[1, 29]`: with a
bitmap that is too short neither renderer returns a bitmap, while `GetPixel` succeeds on every
cell whose index `x*rows + y` is below `len(bitmap)` and aborts with an index panic at the cell
`(len / rows, len % rows)`; and when the pixel buffer `4*w*h` of the image is below `2^31` bytes
(no product wraps and `image.NewRGBA` accepts the rectangle), a bitmap that is too long is
rendered, by both renderers, and a bitmap that is too short is found out in the middle of the
rendering: both renderers abort with the index panic of `GetPixel`. -/
theorem render_path_without_length_check (r : http.Request) (matrix : Matrix) (P : Int)
    (hbody : r.Body = .ok matrix) (hR : 1 ≤ matrix.Rows) (_hC : 1 ≤ matrix.Columns)
    (_hP1 : 1 ≤ P) (_hP2 : P ≤ 29) :
    decodeMatrix r = .ok matrix ∧
    ((matrix.Bitmap.length : Int) < matrix.Rows * matrix.Columns →
      (∀ img, generateImage matrix P ≠ .ok img) ∧
      (∀ img, generateRealisticImage matrix P ≠ .ok img) ∧
      (∀ x y : Int, 0 ≤ x → x < matrix.Columns → 0 ≤ y → y < matrix.Rows →
        x * matrix.Rows + y < (matrix.Bitmap.length : Int) →
        ∃ v, matrix.GetPixel x y = .ok v) ∧
      matrix.GetPixel ((matrix.Bitmap.length : Int) / matrix.Rows)
        ((matrix.Bitmap.length : Int) % matrix.Rows) = .error .indexOutOfRange) ∧
    (4 * (matrix.Columns * normalizedPixSize P) * (matrix.Rows * normalizedPixSize P) < 2 ^ 31 →
      (matrix.Rows * matrix.Columns < (matrix.Bitmap.length : Int) →
        (∃ img, generateImage matrix P = .ok img) ∧
        (∃ img, generateRealisticImage matrix P = .ok img)) ∧
      ((matrix.Bitmap.length : Int) < matrix.Rows * matrix.Columns →
        generateImage matrix P = .error .indexOutOfRange ∧
        generateRealisticImage matrix P = .error .indexOutOfRange)) := by
  have e1 : (matrix.Bitmap.length : Int) < matrix.Rows * matrix.Columns →
      generateImage matrix P = .error .indexOutOfRange := fun hshort =>
    cells_error matrix (fun x y u m => setOnePixel m (toRGB u) (x * P) (y * P) P)
      hR hshort _
  have e2 : (matrix.Bitmap.length : Int) < matrix.Rows * matrix.Columns →
      generateRealisticImage matrix P = .error .indexOutOfRange := fun hshort =>
    cells_error matrix (fun x y u m =>
      drawCircle (fillCircle m (toRGB u) (x * normalizedPixSize P + (normalizedPixSize P).tdiv 2)
        (y * normalizedPixSize P + (normalizedPixSize P).tdiv 2) ((normalizedPixSize P).tdiv 2))
        STROKE_COLOR (x * normalizedPixSize P + (normalizedPixSize P).tdiv 2)
        (y * normalizedPixSize P + (normalizedPixSize P).tdiv 2) ((normalizedPixSize P).tdiv 2))
      hR hshort _
  refine ⟨hbody, fun hshort => ⟨?_, ?_, ?_, ?_⟩, fun _ => ⟨fun hlong =>
    ⟨⟨_, generateImage_eq P (by omega)⟩, ⟨_, generateRealisticImage_eq P (by omega)⟩⟩,
    fun hshort => ⟨e1 hshort, e2 hshort⟩⟩⟩
  · intro img h
    rw [e1 hshort] at h
    cases h
  · intro img h
    rw [e2 hshort] at h
    cases h
  · intro x y hx0 hx1 hy0 hy1 hidx
    exact ⟨_, GetPixel_ok_of_index hx0 hx1 hy0 hy1 hidx⟩
  · obtain ⟨c1, c2, c3, c4, c5⟩ := first_missing_cell hR hshort
    have hl : (matrix.Bitmap.length : Int) < 2 ^ 63 := by exact_mod_cast matrix.lenInt
    exact GetPixel_index_panic c1 c2 c3 c4 (by omega) (by omega)

set_option maxRecDepth 4000 in
/-- Witness of C8 as amended: the over-long bitmap of `tooLong` is rendered by both renderers and
the short bitmap of `tooShort` aborts both with the index panic, after its cell `(0, 0)` has been
read. -/
theorem render_path_without_length_check_witness :
    ((∃ img, generateImage tooLong 4 = .ok img) ∧
      (∃ img, generateRealisticImage tooLong 4 = .ok img)) ∧
    ((∀ img, generateImage tooShort 4 ≠ .ok img) ∧
      (∀ img, generateRealisticImage tooShort 4 ≠ .ok img) ∧
      (∀ x y : Int, 0 ≤ x → x < tooShort.Columns → 0 ≤ y → y < tooShort.Rows →
        x * tooShort.Rows + y < (tooShort.Bitmap.length : Int) →
        ∃ v, tooShort.GetPixel x y = .ok v) ∧
      tooShort.GetPixel ((tooShort.Bitmap.length : Int) / tooShort.Rows)
        ((tooShort.Bitmap.length : Int) % tooShort.Rows) = .error .indexOutOfRange) ∧
    (generateImage tooShort 4 = .error .indexOutOfRange ∧
      generateRealisticImage tooShort 4 = .error .indexOutOfRange) :=
  ⟨((render_path_without_length_check ⟨"", .ok tooLong⟩ tooLong 4 rfl (by decide) (by decide)
      (by decide) (by decide)).2.2 (by decide)).1 (by decide),
    (render_path_without_length_check ⟨"", .ok tooShort⟩ tooShort 4 rfl (by decide) (by decide)
      (by decide) (by decide)).2.1 (by decide),
    ((render_path_without_length_check ⟨"", .ok tooShort⟩ tooShort 4 rfl (by decide) (by decide)
      (by decide) (by decide)).2.2 (by decide)).2 (by decide)⟩

set_option maxRecDepth 4000 in
/-- Counterexample to C8 as stated: a one-cell matrix with two bitmap elements is decoded and
rendered by both handlers, which answer 200 with an image; and on a matrix of two cells with one
bitmap element the cell `(0, 0)` is read before the rendering aborts at the cell `(0, 1)`. -/
theorem render_path_accepts_wrong_length :
    (tooLong.Bitmap.length : Int) ≠ tooLong.Rows * tooLong.Columns ∧
    decodeMatrix ⟨"", .ok tooLong⟩ = .ok tooLong ∧
    outcomeOf (renderImage freshWriter ⟨"", .ok tooLong⟩) =
      some (some 200, [image.Rect 0 0 4 4]) ∧
    outcomeOf (renderRealisticImage freshWriter ⟨"", .ok tooLong⟩) =
      some (some 200, [image.Rect 0 0 5 5]) ∧
    (tooShort.Bitmap.length : Int) ≠ tooShort.Rows * tooShort.Columns ∧
    decodeMatrix ⟨"", .ok tooShort⟩ = .ok tooShort ∧
    tooShort.GetPixel 0 0 = .ok 0xFF0000 ∧
    tooShort.GetPixel 0 1 = .error .indexOutOfRange ∧
    panicOf (renderImage freshWriter ⟨"", .ok tooShort⟩) = some .indexOutOfRange := by
  refine ⟨by decide, by decide, by decide, by decide, by decide, by decide, by decide,
    by decide, by decide⟩

/-! ## Later properties of the decoder and of the index map -/

/-- C12: `toRGB(v) = toRGB(v & 0xFFFFFF)` for every value `v`, and the alpha channel is 255:
the bits from bit 24 up never reach the decoded colour. -/
theorem toRGB_ignores_high_bits (v : Nat) :
    toRGB v = toRGB (v &&& 0xFFFFFF) ∧ (toRGB v).A = 255 ∧
    ∀ w : Nat, w % 2 ^ 24 = v % 2 ^ 24 → toRGB w = toRGB v := by
  have h : ∀ n : Nat, n &&& 0xFFFFFF = n % 16777216 :=
    fun n => Nat.and_pow_two_sub_one_eq_mod n 24
  have key : ∀ a b : Nat, a % 16777216 = b % 16777216 → toRGB a = toRGB b := by
    intro a b hab
    unfold toRGB
    rw [Nat.shiftRight_eq_div_pow, Nat.shiftRight_eq_div_pow, Nat.shiftRight_eq_div_pow,
      Nat.shiftRight_eq_div_pow]
    have e1 : a / 2 ^ 16 % 256 = b / 2 ^ 16 % 256 := by omega
    have e2 : a / 2 ^ 8 % 256 = b / 2 ^ 8 % 256 := by omega
    have e3 : a % 256 = b % 256 := by omega
    rw [e1, e2, e3]
  refine ⟨key _ _ ?_, rfl, fun w hw => key _ _ hw⟩
  rw [h]
  omega

theorem pack_eq (r g b : Nat) (hg : g ≤ 255) (hb : b ≤ 255) :
    (r <<< 16) ||| (g <<< 8) ||| b = r * 65536 + g * 256 + b := by
  have e1 : r <<< 16 = 2 ^ 16 * r := by rw [Nat.shiftLeft_eq, Nat.mul_comm]
  have e2 : g <<< 8 = g * 256 := by rw [Nat.shiftLeft_eq]
  have h1 : 2 ^ 16 * r ||| g * 256 = 2 ^ 16 * r + g * 256 :=
    (Nat.mul_add_lt_is_or (by omega : g * 256 < 2 ^ 16) r).symm
  have e3 : 2 ^ 16 * r + g * 256 = 2 ^ 8 * (r * 256 + g) := by omega
  have h2 : 2 ^ 8 * (r * 256 + g) ||| b = 2 ^ 8 * (r * 256 + g) + b :=
    (Nat.mul_add_lt_is_or (by omega : b < 2 ^ 8) (r * 256 + g)).symm
  rw [e1, e2, h1, e3, h2]
  omega

/-- C13: for channels `r, g, b` in `[0, 255]`, `toRGB((r << 16) | (g << 8) | b)` is the colour
`(r, g, b, 255)`, so two channel triples packed to the same value are equal. -/
theorem toRGB_pack (r g b : Nat) (hr : r ≤ 255) (hg : g ≤ 255) (hb : b ≤ 255) :
    toRGB ((r <<< 16) ||| (g <<< 8) ||| b) = ⟨r, g, b, 255⟩ ∧
    ∀ r1 g1 b1 : Nat, r1 ≤ 255 → g1 ≤ 255 → b1 ≤ 255 →
      (r <<< 16) ||| (g <<< 8) ||| b = (r1 <<< 16) ||| (g1 <<< 8) ||| b1 →
      r = r1 ∧ g = g1 ∧ b = b1 := by
  have dec : ∀ r g b : Nat, r ≤ 255 → g ≤ 255 → b ≤ 255 →
      toRGB ((r <<< 16) ||| (g <<< 8) ||| b) = ⟨r, g, b, 255⟩ := by
    intro r g b hr hg hb
    rw [pack_eq r g b hg hb]
    unfold toRGB
    rw [Nat.shiftRight_eq_div_pow, Nat.shiftRight_eq_div_pow]
    have e1 : (r * 65536 + g * 256 + b) / 2 ^ 16 % 256 = r := by omega
    have e2 : (r * 65536 + g * 256 + b) / 2 ^ 8 % 256 = g := by omega
    have e3 : (r * 65536 + g * 256 + b) % 256 = b := by omega
    rw [e1, e2, e3]
  refine ⟨dec r g b hr hg hb, fun r1 g1 b1 hr1 hg1 hb1 hp => ?_⟩
  have h1 := dec r g b hr hg hb
  rw [hp, dec r1 g1 b1 hr1 hg1 hb1] at h1
  injection h1 with a1 a2 a3 _
  exact ⟨a1.symm, a2.symm, a3.symm⟩

/-- Witness of C13: red, green and blue channels `1, 2, 3` are packed to `0x010203` and decoded
back. -/
theorem toRGB_pack_witness :
    toRGB (((1 : Nat) <<< 16) ||| ((2 : Nat) <<< 8) ||| 3) = ⟨1, 2, 3, 255⟩ :=
  (toRGB_pack 1 2 3 (by decide) (by decide) (by decide)).1

/-- C20, as the code has it: for `rows, columns >= 1` with `rows*columns` below `2^63`, the index
`x*rows + y` that `GetPixel` computes in the 64-bit `int` is the exact value for every in-range
cell, and the index map is a bijection from the in-range cells onto `[0, rows*columns)`: it is
injective, it reaches every index, and in a matrix with `rows*columns` elements every element is
read by `GetPixel` at one cell and at no other. -/
theorem index_map_bijective (m : Matrix) (hR : 1 ≤ m.Rows) (_hC : 1 ≤ m.Columns)
    (hfit : m.Rows * m.Columns < 2 ^ 63) :
    (∀ x y : Int, 0 ≤ x → x < m.Columns → 0 ≤ y → y < m.Rows →
      int64 (x * m.Rows + y) = x * m.Rows + y ∧
      0 ≤ x * m.Rows + y ∧ x * m.Rows + y < m.Rows * m.Columns) ∧
    (∀ x y x1 y1 : Int, 0 ≤ x → x < m.Columns → 0 ≤ y → y < m.Rows →
      0 ≤ x1 → x1 < m.Columns → 0 ≤ y1 → y1 < m.Rows →
      int64 (x * m.Rows + y) = int64 (x1 * m.Rows + y1) → x = x1 ∧ y = y1) ∧
    (∀ k : Int, 0 ≤ k → k < m.Rows * m.Columns →
      ∃ x y : Int, 0 ≤ x ∧ x < m.Columns ∧ 0 ≤ y ∧ y < m.Rows ∧
        int64 (x * m.Rows + y) = k) ∧
    ((m.Bitmap.length : Int) = m.Rows * m.Columns →
      ∀ (k : Nat) (hk : k < m.Bitmap.length),
        ∃ x y : Int, 0 ≤ x ∧ x < m.Columns ∧ 0 ≤ y ∧ y < m.Rows ∧
          int64 (x * m.Rows + y) = k ∧
          m.GetPixel x y = .ok (m.Bitmap.get ⟨k, hk⟩) ∧
          ∀ x1 y1 : Int, 0 ≤ x1 → x1 < m.Columns → 0 ≤ y1 → y1 < m.Rows →
            int64 (x1 * m.Rows + y1) = k → x1 = x ∧ y1 = y) := by
  have hex : ∀ x y : Int, 0 ≤ x → x < m.Columns → 0 ≤ y → y < m.Rows →
      int64 (x * m.Rows + y) = x * m.Rows + y := by
    intro x y hx0 hx1 hy0 hy1
    have hb := index_bounds hx0 hx1 hy0 hy1
    exact int64_eq (by omega) (by omega)
  have inj : ∀ x y x1 y1 : Int, 0 ≤ y → y < m.Rows → 0 ≤ y1 → y1 < m.Rows →
      x * m.Rows + y = x1 * m.Rows + y1 → x = x1 ∧ y = y1 := by
    intro x y x1 y1 hy0 hy1 hz0 hz1 he
    have hx : x = x1 :=
      (@InCell_unique m.Rows x x x1 x1 (x * m.Rows + y) (x * m.Rows + y) (by omega)
        ⟨by omega, by omega, by omega, by omega⟩
        ⟨by omega, by omega, by omega, by omega⟩).1
    subst hx
    exact ⟨rfl, by omega⟩
  have surj : ∀ k : Int, 0 ≤ k → k < m.Rows * m.Columns →
      ∃ x y : Int, 0 ≤ x ∧ x < m.Columns ∧ 0 ≤ y ∧ y < m.Rows ∧ x * m.Rows + y = k := by
    intro k hk0 hk1
    have h1 := Int.ediv_add_emod k m.Rows
    have e : m.Rows * (k / m.Rows) = k / m.Rows * m.Rows := by ring
    exact ⟨k / m.Rows, k % m.Rows, Int.ediv_nonneg hk0 (by omega),
      Int.ediv_lt_of_lt_mul (by omega) (by rw [mul_comm]; exact hk1),
      Int.emod_nonneg _ (by omega), Int.emod_lt_of_pos _ (by omega), by omega⟩
  refine ⟨fun x y hx0 hx1 hy0 hy1 =>
      ⟨hex x y hx0 hx1 hy0 hy1, index_bounds hx0 hx1 hy0 hy1⟩,
    fun x y x1 y1 hx0 hx1 hy0 hy1 hw0 hw1 hz0 hz1 he => ?_, fun k hk0 hk1 => ?_,
    fun hlen k hk => ?_⟩
  · rw [hex x y hx0 hx1 hy0 hy1, hex x1 y1 hw0 hw1 hz0 hz1] at he
    exact inj x y x1 y1 hy0 hy1 hz0 hz1 he
  · obtain ⟨x, y, hx0, hx1, hy0, hy1, he⟩ := surj k hk0 hk1
    exact ⟨x, y, hx0, hx1, hy0, hy1, by rw [hex x y hx0 hx1 hy0 hy1]; exact he⟩
  · obtain ⟨x, y, hx0, hx1, hy0, hy1, he⟩ := surj (k : Int) (by omega) (by omega)
    refine ⟨x, y, hx0, hx1, hy0, hy1, by rw [hex x y hx0 hx1 hy0 hy1]; exact he, ?_,
      fun x1 y1 hw0 hw1 hz0 hz1 he1 => ?_⟩
    · rw [GetPixel_ok (by omega) hx0 hx1 hy0 hy1, he, Int.toNat_ofNat,
        List.getD_eq_getElem?_getD, List.getElem?_eq_getElem hk]
      rfl
    · rw [hex x1 y1 hw0 hw1 hz0 hz1] at he1
      exact inj x1 y1 x y hz0 hz1 hy0 hy1 (by omega)

/-- Witness of C20 as amended: in the 2-by-3 index matrix the element of index 3 is read at the
cell `(1, 1)` and at no other cell. -/
theorem index_map_bijective_witness :
    ∃ x y : Int, 0 ≤ x ∧ x < indexMatrix.Columns ∧ 0 ≤ y ∧ y < indexMatrix.Rows ∧
      int64 (x * indexMatrix.Rows + y) = (3 : Nat) ∧
      indexMatrix.GetPixel x y = .ok (indexMatrix.Bitmap.get ⟨3, by decide⟩) ∧
      ∀ x1 y1 : Int, 0 ≤ x1 → x1 < indexMatrix.Columns → 0 ≤ y1 → y1 < indexMatrix.Rows →
        int64 (x1 * indexMatrix.Rows + y1) = (3 : Nat) → x1 = x ∧ y1 = y :=
  (index_map_bijective indexMatrix (by decide) (by decide) (by decide)).2.2.2 (by decide) 3
    (by decide)

/-- Counterexample to C20 as stated: with `rows = 2^62` and `columns = 5` the distinct in-range
cells `(0, 0)` and `(4, 0)` have the indices `0` and `2^64`, which the 64-bit `int` holds as `0`:
`GetPixel` reads the same bitmap element, the only one, at both cells. -/
theorem index_map_wraps :
    1 ≤ wrappedIndex.Rows ∧ 1 ≤ wrappedIndex.Columns ∧
    (0 : Int) < wrappedIndex.Columns ∧ (4 : Int) < wrappedIndex.Columns ∧
    (0 : Int) < wrappedIndex.Rows ∧
    int64 (0 * wrappedIndex.Rows + 0) = 0 ∧
    int64 (4 * wrappedIndex.Rows + 0) = 0 ∧
    wrappedIndex.GetPixel 0 0 = .ok 7 ∧
    wrappedIndex.GetPixel 4 0 = .ok 7 := by
  refine ⟨by decide, by decide, by decide, by decide, by decide, by decide, by decide,
    by decide, by decide⟩

/-! ## The calls of `Set` -/

theorem replay_append (l l1 : List SetCall) (m : image.RGBA) :
    replay (l ++ l1) m = replay l1 (replay l m) := by
  unfold replay
  rw [List.foldl_append]

theorem forLoop_replay {bodyL : Int → List SetCall → List SetCall}
    {bodyI : Int → image.RGBA → image.RGBA}
    (h : ∀ i l m, replay (bodyL i l) m = bodyI i (replay l m)) :
    ∀ (k : Nat) (lo : Int) (l : List SetCall) (m : image.RGBA),
      replay (forLoop bodyL lo k l) m = forLoop bodyI lo k (replay l m) := by
  intro k
  induction k with
  | zero => intro lo l m; rfl
  | succ k ih =>
    intro lo l m
    show replay (forLoop bodyL (lo + 1) k (bodyL lo l)) m =
      forLoop bodyI (lo + 1) k (bodyI lo (replay l m))
    rw [ih, h]

theorem forLoopE_replay {bodyL : Int → List SetCall → Except Panic (List SetCall)}
    {bodyI : Int → image.RGBA → Except Panic image.RGBA} (m : image.RGBA)
    (h : ∀ i l, bodyI i (replay l m) = replayE (bodyL i l) m) :
    ∀ (k : Nat) (lo : Int) (l : List SetCall),
      forLoopE bodyI lo k (replay l m) = replayE (forLoopE bodyL lo k l) m := by
  intro k
  induction k with
  | zero => intro lo l; rfl
  | succ k ih =>
    intro lo l
    have h0 := h lo l
    cases hb : bodyL lo l with
    | error e =>
      rw [hb] at h0
      simp only [forLoopE, hb, h0, replayE]
    | ok l1 =>
      rw [hb] at h0
      simp only [forLoopE, hb, h0, replayE]
      exact ih (lo + 1) l1

theorem setOnePixel_replay (l : List SetCall) (m : image.RGBA) (c : color.RGBA)
    (offsetX offsetY pixSize : Int) :
    replay (setOnePixelCalls l c offsetX offsetY pixSize) m =
      setOnePixel (replay l m) c offsetX offsetY pixSize := by
  unfold setOnePixelCalls setOnePixel
  apply forLoop_replay
  intro x l1 m1
  apply forLoop_replay
  intro y l2 m2
  rw [replay_append]
  rfl

theorem fillCircle_replay (l : List SetCall) (m : image.RGBA) (c : color.RGBA)
    (centerX centerY radius : Int) :
    replay (fillCircleCalls l c centerX centerY radius) m =
      fillCircle (replay l m) c centerX centerY radius := by
  unfold fillCircleCalls fillCircle
  apply forLoop_replay
  intro x l1 m1
  apply forLoop_replay
  intro y l2 m2
  by_cases hc : x * x + y * y ≤ radius * radius
  · simp only [if_pos hc]
    rw [replay_append]
    rfl
  · simp only [if_neg hc]

theorem drawCircle_replay (l : List SetCall) (m : image.RGBA) (c : color.RGBA)
    (centerX centerY radius : Int) :
    replay (drawCircleCalls l c centerX centerY radius) m =
      drawCircle (replay l m) c centerX centerY radius := by
  unfold drawCircleCalls drawCircle
  apply forLoop_replay
  intro x l1 m1
  rw [replay_append]
  rfl

theorem generateImage_replay (matrix : Matrix) (pixSize : Int) :
    generateImage matrix pixSize = replayE (generateImageCalls matrix pixSize)
      (image.NewRGBA (image.Rect 0 0 (matrix.Columns * pixSize) (matrix.Rows * pixSize))) := by
  unfold generateImage generateImageCalls
  refine forLoopE_replay _ ?_ _ _ []
  intro x l
  refine forLoopE_replay _ ?_ _ _ l
  intro y l1
  cases matrix.GetPixel x y with
  | error e => rfl
  | ok u =>
    simp only [replayE]
    rw [setOnePixel_replay]

theorem generateRealisticImage_replay (matrix : Matrix) (pixSize : Int) :
    generateRealisticImage matrix pixSize =
      replayE (generateRealisticImageCalls matrix pixSize)
        ((image.NewRGBA (image.Rect 0 0 (matrix.Columns * normalizedPixSize pixSize)
          (matrix.Rows * normalizedPixSize pixSize))).DrawUniformSrc ⟨0, 0, 0, 255⟩) := by
  unfold generateRealisticImage generateRealisticImageCalls
  refine forLoopE_replay _ ?_ _ _ []
  intro x l
  refine forLoopE_replay _ ?_ _ _ l
  intro y l1
  cases matrix.GetPixel x y with
  | error e => rfl
  | ok u =>
    simp only [replayE]
    rw [drawCircle_replay, fillCircle_replay]

theorem GetPixel_ok_value {m : Matrix} {x y : Int} {u : Nat} (h : m.GetPixel x y = .ok u) :
    u = m.Bitmap.getD (int64 (x * m.Rows + y)).toNat 0 := by
  unfold Matrix.GetPixel at h
  by_cases h1 : y < 0 ∨ y ≥ m.Rows
  · rw [if_pos h1] at h
    cases h
  · rw [if_neg h1] at h
    by_cases h2 : x < 0 ∨ x ≥ m.Columns
    · rw [if_pos h2] at h
      cases h
    · rw [if_neg h2] at h
      simp only at h
      by_cases h3 : int64 (x * m.Rows + y) < 0 ∨
          int64 (x * m.Rows + y) ≥ (m.Bitmap.length : Int)
      · rw [if_pos h3] at h
        cases h
      · rw [if_neg h3] at h
        cases h
        rfl

theorem forLoopE_ok_inv {σ : Type} (body : Int → σ → Except Panic σ) (g : Int → σ → σ)
    (h : ∀ i t t1, body i t = .ok t1 → t1 = g i t) :
    ∀ (k : Nat) (lo : Int) (s s1 : σ), forLoopE body lo k s = .ok s1 →
      s1 = forLoop g lo k s := by
  intro k
  induction k with
  | zero =>
    intro lo s s1 hs
    simp only [forLoopE] at hs
    cases hs
    rfl
  | succ k ih =>
    intro lo s s1 hs
    simp only [forLoopE] at hs
    cases h0 : body lo s with
    | error e => rw [h0] at hs; cases hs
    | ok t1 =>
      rw [h0] at hs
      have e := h lo s t1 h0
      subst e
      exact ih (lo + 1) _ s1 hs

theorem generateImageCalls_ok {matrix : Matrix} {pixSize : Int} {calls : List SetCall}
    (h : generateImageCalls matrix pixSize = .ok calls) :
    calls = forLoop (fun x l => forLoop (fun y l =>
      setOnePixelCalls l (toRGB (matrix.Bitmap.getD (int64 (x * matrix.Rows + y)).toNat 0))
        (x * pixSize) (y * pixSize) pixSize) 0 matrix.Rows.toNat l) 0 matrix.Columns.toNat [] := by
  unfold generateImageCalls at h
  refine forLoopE_ok_inv _ _ ?_ _ _ _ _ h
  intro x t t1 hx
  refine forLoopE_ok_inv _ _ ?_ _ _ _ _ hx
  intro y u u1 hy
  cases hg : matrix.GetPixel x y with
  | error e => rw [hg] at hy; cases hy
  | ok v =>
    rw [hg] at hy
    cases hy
    rw [GetPixel_ok_value hg]

theorem generateRealisticImageCalls_ok {matrix : Matrix} {pixSize : Int}
    {calls : List SetCall} (h : generateRealisticImageCalls matrix pixSize = .ok calls) :
    calls = forLoop (fun x l => forLoop (fun y l =>
      drawCircleCalls
        (fillCircleCalls l (toRGB (matrix.Bitmap.getD (int64 (x * matrix.Rows + y)).toNat 0))
          (x * normalizedPixSize pixSize + (normalizedPixSize pixSize).tdiv 2)
          (y * normalizedPixSize pixSize + (normalizedPixSize pixSize).tdiv 2)
          ((normalizedPixSize pixSize).tdiv 2))
        STROKE_COLOR (x * normalizedPixSize pixSize + (normalizedPixSize pixSize).tdiv 2)
        (y * normalizedPixSize pixSize + (normalizedPixSize pixSize).tdiv 2)
        ((normalizedPixSize pixSize).tdiv 2)) 0 matrix.Rows.toNat l)
      0 matrix.Columns.toNat [] := by
  unfold generateRealisticImageCalls at h
  refine forLoopE_ok_inv _ _ ?_ _ _ _ _ h
  intro x t t1 hx
  refine forLoopE_ok_inv _ _ ?_ _ _ _ _ hx
  intro y u u1 hy
  cases hg : matrix.GetPixel x y with
  | error e => rw [hg] at hy; cases hy
  | ok v =>
    rw [hg] at hy
    cases hy
    rw [GetPixel_ok_value hg]

theorem CountsOn_single (a : SetCall) (px py : Int) :
    CountsOn (fun l => l ++ [a]) px py (a.X = px ∧ a.Y = py) := by
  intro l
  constructor
  · intro h
    simp only [writesAt, List.countP_append, List.countP_cons, List.countP_nil, h, and_self,
      decide_True, if_true, Nat.zero_add]
  · intro h
    simp only [writesAt, List.countP_append, List.countP_cons, List.countP_nil, h,
      decide_False, Nat.zero_add, Nat.add_zero]
    rfl

theorem CountsOn_congr {F : List SetCall → List SetCall} {px py : Int} {S T : Prop}
    (h : CountsOn F px py S) (hST : S ↔ T) : CountsOn F px py T :=
  fun l => ⟨fun hT => (h l).1 (hST.2 hT), fun hT => (h l).2 (fun hS => hT (hST.1 hS))⟩

theorem CountsOn_forLoop {body : Int → List SetCall → List SetCall} {px py : Int}
    {S : Int → Prop} (h : ∀ i, CountsOn (body i) px py (S i))
    (hdisj : ∀ i j, S i → S j → i = j) :
    ∀ (k : Nat) (lo : Int),
      CountsOn (forLoop body lo k) px py (∃ i, lo ≤ i ∧ i < lo + k ∧ S i) := by
  intro k
  induction k with
  | zero =>
    intro lo l
    refine ⟨?_, fun _ => rfl⟩
    rintro ⟨i, h1, h2, _⟩
    exfalso
    simp at h2
    omega
  | succ k ih =>
    intro lo l
    have hstep : forLoop body lo (k + 1) l = forLoop body (lo + 1) k (body lo l) := rfl
    rw [hstep]
    constructor
    · rintro ⟨i, h1, h2, h3⟩
      by_cases hi : i = lo
      · subst hi
        rw [(ih (i + 1) (body i l)).2, ((h i) l).1 h3]
        rintro ⟨j, j1, _, j3⟩
        have := hdisj i j h3 j3
        omega
      · rw [(ih (lo + 1) (body lo l)).1 ⟨i, by omega, by push_cast at h2; omega, h3⟩,
          ((h lo) l).2 (fun h0 => hi (hdisj i lo h3 h0))]
    · intro hn
      rw [(ih (lo + 1) (body lo l)).2, ((h lo) l).2]
      · exact fun h0 => hn ⟨lo, le_refl _, by push_cast; omega, h0⟩
      · rintro ⟨i, h1, h2, h3⟩
        exact hn ⟨i, by omega, by push_cast; omega, h3⟩

theorem setOnePixelCalls_count (c : color.RGBA) (offsetX offsetY pixSize px py : Int) :
    CountsOn (fun l => setOnePixelCalls l c offsetX offsetY pixSize) px py
      (offsetX ≤ px ∧ px < offsetX + pixSize ∧ offsetY ≤ py ∧ py < offsetY + pixSize) := by
  have hin : ∀ x : Int, CountsOn
      (fun l => forLoop (fun y l => l ++ [(⟨offsetX + x, offsetY + y, c⟩ : SetCall)]) 0
        pixSize.toNat l) px py
      (∃ y : Int, 0 ≤ y ∧ y < 0 + (pixSize.toNat : Int) ∧ (offsetX + x = px ∧ offsetY + y = py)) :=
    fun x => @CountsOn_forLoop (fun y l => l ++ [(⟨offsetX + x, offsetY + y, c⟩ : SetCall)])
      px py (fun y => offsetX + x = px ∧ offsetY + y = py)
      (fun y => CountsOn_single ⟨offsetX + x, offsetY + y, c⟩ px py)
      (fun i j hi hj => by omega) pixSize.toNat 0
  have hout := @CountsOn_forLoop
    (fun x l => forLoop (fun y l => l ++ [(⟨offsetX + x, offsetY + y, c⟩ : SetCall)]) 0
      pixSize.toNat l) px py
    (fun x => ∃ y : Int, 0 ≤ y ∧ y < 0 + (pixSize.toNat : Int) ∧
      (offsetX + x = px ∧ offsetY + y = py))
    hin (fun i j hi hj => by
      obtain ⟨_, _, _, h1, _⟩ := hi
      obtain ⟨_, _, _, h2, _⟩ := hj
      omega) pixSize.toNat 0
  refine CountsOn_congr hout ⟨?_, ?_⟩
  · rintro ⟨x, hx0, hx1, y, hy0, hy1, rfl, rfl⟩
    omega
  · rintro ⟨h1, h2, h3, h4⟩
    exact ⟨px - offsetX, by omega, by omega, py - offsetY, by omega, by omega, by omega,
      by omega⟩

theorem grid_iff_cell {P C R px py : Int} (hP : 1 ≤ P) :
    (0 ≤ px ∧ px < C * P ∧ 0 ≤ py ∧ py < R * P) ↔
      ∃ x : Int, 0 ≤ x ∧ x < 0 + (C.toNat : Int) ∧
        ∃ y : Int, 0 ≤ y ∧ y < 0 + (R.toNat : Int) ∧ InCell P x y px py := by
  constructor
  · rintro ⟨h1, h2, h3, h4⟩
    obtain ⟨cx0, cx1⟩ := cell_index hP h1 h2
    obtain ⟨cy0, cy1⟩ := cell_index hP h3 h4
    exact ⟨px / P, cx0, by omega, py / P, cy0, by omega, InCell_div (by omega)⟩
  · rintro ⟨x, hx0, hx1, y, hy0, hy1, a1, a2, a3, a4⟩
    have hx : 0 ≤ x * P := mul_nonneg hx0 (by omega)
    have hy : 0 ≤ y * P := mul_nonneg hy0 (by omega)
    have hxc : (x + 1) * P ≤ C * P := mul_le_mul_of_nonneg_right (by omega) (by omega)
    have hyc : (y + 1) * P ≤ R * P := mul_le_mul_of_nonneg_right (by omega) (by omega)
    have ex : (x + 1) * P = x * P + P := by ring
    have ey : (y + 1) * P = y * P + P := by ring
    omega

theorem generateImageCalls_count {matrix : Matrix} {P : Int} (hP : 1 ≤ P)
    {calls : List SetCall} (h : generateImageCalls matrix P = .ok calls) (px py : Int) :
    ((0 ≤ px ∧ px < matrix.Columns * P ∧ 0 ≤ py ∧ py < matrix.Rows * P) →
      writesAt calls px py = 1) ∧
    (¬(0 ≤ px ∧ px < matrix.Columns * P ∧ 0 ≤ py ∧ py < matrix.Rows * P) →
      writesAt calls px py = 0) := by
  have hcol : ∀ x : Int, CountsOn (fun l => forLoop (fun y l =>
      setOnePixelCalls l (toRGB (matrix.Bitmap.getD (int64 (x * matrix.Rows + y)).toNat 0))
        (x * P) (y * P) P) 0 matrix.Rows.toNat l) px py
      (∃ y : Int, 0 ≤ y ∧ y < 0 + (matrix.Rows.toNat : Int) ∧ InCell P x y px py) :=
    fun x => @CountsOn_forLoop (fun y l =>
        setOnePixelCalls l (toRGB (matrix.Bitmap.getD (int64 (x * matrix.Rows + y)).toNat 0))
          (x * P) (y * P) P) px py (fun y => InCell P x y px py)
      (fun y => setOnePixelCalls_count _ (x * P) (y * P) P px py)
      (fun i j hi hj => (InCell_unique (by omega) hi hj).2) matrix.Rows.toNat 0
  have hall := @CountsOn_forLoop (fun x l => forLoop (fun y l =>
      setOnePixelCalls l (toRGB (matrix.Bitmap.getD (int64 (x * matrix.Rows + y)).toNat 0))
        (x * P) (y * P) P) 0 matrix.Rows.toNat l) px py
    (fun x => ∃ y : Int, 0 ≤ y ∧ y < 0 + (matrix.Rows.toNat : Int) ∧ InCell P x y px py)
    hcol (fun i j hi hj => by
      obtain ⟨_, _, _, h1⟩ := hi
      obtain ⟨_, _, _, h2⟩ := hj
      exact (InCell_unique (by omega) h1 h2).1) matrix.Columns.toNat 0
  have hfin := CountsOn_congr hall (grid_iff_cell hP).symm []
  rw [generateImageCalls_ok h]
  exact ⟨fun hg => hfin.1 hg, fun hg => hfin.2 hg⟩

/-- C14, as the code has it: for `rows, columns >= 1` and `P >= 1` with the pixel buffer
`4*(C*P)*(R*P)` below `2^31` bytes, the rectangle handed to `image.NewRGBA` is
`(0,0)-(C*P, R*P)` (no product wraps); the calls of `Set` that `generateImage` makes (the image
it returns is their replay on the fresh bitmap) address every pixel `(px, py)` of the grid
`0 <= px < C*P`, `0 <= py < R*P` exactly once and no pixel outside it; a pixel of the grid lies
within the bounds of the bitmap and is `(x*P + i, y*P + j)` for exactly one cell `(x, y)` and one
offset `(i, j)` in `[0, P) x [0, P)`. -/
theorem generateImage_blocks_partition (matrix : Matrix) (P px py : Int)
    (hR : 1 ≤ matrix.Rows) (hC : 1 ≤ matrix.Columns) (hP : 1 ≤ P)
    (hfit : 4 * (matrix.Columns * P) * (matrix.Rows * P) < 2 ^ 31) :
    machineBounds matrix P = ⟨⟨0, 0⟩, ⟨matrix.Columns * P, matrix.Rows * P⟩⟩ ∧
    generateImage matrix P = replayE (generateImageCalls matrix P)
      (image.NewRGBA (machineBounds matrix P)) ∧
    (∀ calls, generateImageCalls matrix P = .ok calls →
      ((0 ≤ px ∧ px < matrix.Columns * P ∧ 0 ≤ py ∧ py < matrix.Rows * P) →
        writesAt calls px py = 1) ∧
      (¬(0 ≤ px ∧ px < matrix.Columns * P ∧ 0 ≤ py ∧ py < matrix.Rows * P) →
        writesAt calls px py = 0)) ∧
    ((0 ≤ px ∧ px < matrix.Columns * P ∧ 0 ≤ py ∧ py < matrix.Rows * P) →
      (machineBounds matrix P).Contains px py ∧
      ∃! q : (Int × Int) × (Int × Int),
        0 ≤ q.1.1 ∧ q.1.1 < matrix.Columns ∧ 0 ≤ q.1.2 ∧ q.1.2 < matrix.Rows ∧
        0 ≤ q.2.1 ∧ q.2.1 < P ∧ 0 ≤ q.2.2 ∧ q.2.2 < P ∧
        q.1.1 * P + q.2.1 = px ∧ q.1.2 * P + q.2.2 = py) := by
  obtain ⟨f1, _, f3, _⟩ := fit_bounds hR hC hP hfit
  have hm : machineBounds matrix P = ⟨⟨0, 0⟩, ⟨matrix.Columns * P, matrix.Rows * P⟩⟩ := by
    rw [machineBounds_eq hR hC hP hfit, Rect_of_nonneg (by omega) (by omega)]
  refine ⟨hm, ?_, fun calls h => generateImageCalls_count hP h px py, fun hg => ?_⟩
  · rw [machineBounds_eq hR hC hP hfit]
    exact generateImage_replay matrix P
  obtain ⟨h1, h2, h3, h4⟩ := hg
  obtain ⟨cx0, cx1⟩ := cell_index hP h1 h2
  obtain ⟨cy0, cy1⟩ := cell_index hP h3 h4
  obtain ⟨a1, a2, a3, a4⟩ := @InCell_div P px py (by omega)
  constructor
  · rw [hm]
    exact ⟨h1, h2, h3, h4⟩
  · refine ⟨((px / P, py / P), (px - px / P * P, py - py / P * P)),
      ⟨cx0, cx1, cy0, cy1, by simp only; omega, by simp only; omega, by simp only; omega,
        by simp only; omega, by simp only; omega, by simp only; omega⟩, ?_⟩
    rintro ⟨⟨x, y⟩, ⟨i, j⟩⟩ ⟨b1, b2, b3, b4, b5, b6, b7, b8, b9, b10⟩
    simp only at b1 b2 b3 b4 b5 b6 b7 b8 b9 b10
    obtain ⟨ex, ey⟩ := @InCell_unique P x y (px / P) (py / P) px py (by omega)
      ⟨by omega, by omega, by omega, by omega⟩ ⟨a1, a2, a3, a4⟩
    subst ex ey
    have ei : i = px - px / P * P := by omega
    have ej : j = py - py / P * P := by omega
    rw [ei, ej]

/-- Witness of C14 as amended: for the one-cell matrix with `P = 2` the four calls of `Set` are
at `(0,0)`, `(0,1)`, `(1,0)`, `(1,1)`; the pixel `(1, 1)` is addressed once, it lies within the
bounds of the bitmap, and `(2, 0)` is never addressed. -/
theorem generateImage_blocks_partition_witness :
    generateImageCalls redCell 2 = .ok [⟨0, 0, ⟨255, 0, 0, 255⟩⟩, ⟨0, 1, ⟨255, 0, 0, 255⟩⟩,
      ⟨1, 0, ⟨255, 0, 0, 255⟩⟩, ⟨1, 1, ⟨255, 0, 0, 255⟩⟩] ∧
    writesAt [⟨0, 0, ⟨255, 0, 0, 255⟩⟩, ⟨0, 1, ⟨255, 0, 0, 255⟩⟩,
      ⟨1, 0, ⟨255, 0, 0, 255⟩⟩, ⟨1, 1, ⟨255, 0, 0, 255⟩⟩] 1 1 = 1 ∧
    (machineBounds redCell 2).Contains 1 1 ∧
    writesAt [⟨0, 0, ⟨255, 0, 0, 255⟩⟩, ⟨0, 1, ⟨255, 0, 0, 255⟩⟩,
      ⟨1, 0, ⟨255, 0, 0, 255⟩⟩, ⟨1, 1, ⟨255, 0, 0, 255⟩⟩] 2 0 = 0 :=
  ⟨by decide,
    ((generateImage_blocks_partition redCell 2 1 1 (by decide) (by decide) (by decide)
      (by decide)).2.2.1 _ (by decide)).1 (by decide),
    ((generateImage_blocks_partition redCell 2 1 1 (by decide) (by decide) (by decide)
      (by decide)).2.2.2 (by decide)).1,
    ((generateImage_blocks_partition redCell 2 2 0 (by decide) (by decide) (by decide)
      (by decide)).2.2.1 _ (by decide)).2 (by decide)⟩

set_option maxRecDepth 10000 in
/-- Counterexample to C14 as stated: with `rows = 2^62`, `columns = 1`, a bitmap of one element
and the default `pixSize = 4`, the product `h*pixSize` is `2^64`, which the 64-bit `int` holds
as `0`: the rectangle handed to `image.NewRGBA` is `(0,0)-(4,0)`.  The cell `(0, 0)` is read and
its block is written, and every one of its sixteen calls of `Set`, the one at the grid pixel
`(0, 0)` among them, falls outside the bitmap and is dropped. -/
theorem generateImage_block_outside_bitmap :
    (0 ≤ (0 : Int) ∧ (0 : Int) < wrappedHeight.Columns * 4 ∧
      0 ≤ (0 : Int) ∧ (0 : Int) < wrappedHeight.Rows * 4) ∧
    wrappedHeight.GetPixel 0 0 = .ok 7 ∧
    machineBounds wrappedHeight 4 = ⟨⟨0, 0⟩, ⟨4, 0⟩⟩ ∧
    (⟨0, 0, toRGB 7⟩ : SetCall) ∈ setOnePixelCalls [] (toRGB 7) (0 * 4) (0 * 4) 4 ∧
    ¬(machineBounds wrappedHeight 4).Contains 0 0 ∧
    (setOnePixelCalls [] (toRGB 7) (0 * 4) (0 * 4) 4).length = 16 ∧
    (∀ w ∈ setOnePixelCalls [] (toRGB 7) (0 * 4) (0 * 4) 4,
      ¬(machineBounds wrappedHeight 4).Contains w.X w.Y) ∧
    (setOnePixel (image.NewRGBA (machineBounds wrappedHeight 4)) (toRGB 7) (0 * 4) (0 * 4) 4).At
      0 0 = ⟨0, 0, 0, 0⟩ := by
  refine ⟨by decide, by decide, by decide, by decide, by decide, by decide, by decide,
    by decide⟩

theorem Appends_list (as : List SetCall) : Appends (fun l => l ++ as) (fun w => w ∈ as) :=
  fun _ _ => List.mem_append

theorem Appends_skip : Appends (fun l => l) (fun _ => False) :=
  fun _ _ => ⟨fun h => Or.inl h, fun h => h.elim id False.elim⟩

theorem Appends_congr {F : List SetCall → List SetCall} {S T : SetCall → Prop}
    (h : Appends F S) (hST : ∀ w, S w ↔ T w) : Appends F T :=
  fun l w => (h l w).trans (or_congr Iff.rfl (hST w))

theorem Appends_comp {F G : List SetCall → List SetCall} {S T : SetCall → Prop}
    (hF : Appends F S) (hG : Appends G T) :
    Appends (fun l => G (F l)) (fun w => S w ∨ T w) := by
  intro l w
  rw [hG (F l) w, hF l w]
  tauto

theorem Appends_ite {F : List SetCall → List SetCall} {S : SetCall → Prop}
    (P : Prop) [Decidable P] (h : Appends F S) :
    Appends (fun l => if P then F l else l) (fun w => P ∧ S w) := by
  by_cases hP : P
  · simp only [if_pos hP]
    exact Appends_congr h (fun w => ⟨fun hS => ⟨hP, hS⟩, fun hS => hS.2⟩)
  · simp only [if_neg hP]
    exact Appends_congr Appends_skip (fun w => ⟨fun hf => hf.elim, fun hS => hP hS.1⟩)

theorem Appends_forLoop {body : Int → List SetCall → List SetCall}
    {S : Int → SetCall → Prop} (h : ∀ i, Appends (body i) (S i)) :
    ∀ (k : Nat) (lo : Int),
      Appends (forLoop body lo k) (fun w => ∃ i, lo ≤ i ∧ i < lo + k ∧ S i w) := by
  intro k
  induction k with
  | zero =>
    intro lo
    refine Appends_congr Appends_skip (fun w => ⟨fun hf => hf.elim, ?_⟩)
    rintro ⟨i, h1, h2, _⟩
    simp at h2
    omega
  | succ k ih =>
    intro lo
    have hc := Appends_comp (h lo) (ih (lo + 1))
    refine Appends_congr hc (fun w => ⟨?_, ?_⟩)
    · rintro (h0 | ⟨i, h1, h2, h3⟩)
      · exact ⟨lo, le_refl _, by push_cast; omega, h0⟩
      · exact ⟨i, by omega, by push_cast; omega, h3⟩
    · rintro ⟨i, h1, h2, h3⟩
      by_cases hi : i = lo
      · subst hi
        exact Or.inl h3
      · exact Or.inr ⟨i, by omega, by push_cast at h2; omega, h3⟩

theorem fillCircleCalls_mem (c : color.RGBA) (centerX centerY radius : Int) :
    Appends (fun l => fillCircleCalls l c centerX centerY radius)
      (fun w => ∃ dx dy : Int, -radius ≤ dx ∧ dx ≤ radius ∧ -radius ≤ dy ∧ dy ≤ radius ∧
        dx * dx + dy * dy ≤ radius * radius ∧ w = ⟨centerX + dx, centerY + dy, c⟩) := by
  have h := @Appends_forLoop
    (fun x l => forLoop (fun y l =>
      if x * x + y * y ≤ radius * radius then
        l ++ [(⟨centerX + x, centerY + y, c⟩ : SetCall)] else l)
      (-radius) (radius + 1 - -radius).toNat l)
    (fun x w => ∃ y : Int, -radius ≤ y ∧ y < -radius + ((radius + 1 - -radius).toNat : Int) ∧
      (x * x + y * y ≤ radius * radius ∧ w ∈ [(⟨centerX + x, centerY + y, c⟩ : SetCall)]))
    (fun x => @Appends_forLoop (fun y l =>
        if x * x + y * y ≤ radius * radius then
          l ++ [(⟨centerX + x, centerY + y, c⟩ : SetCall)] else l)
      (fun y w => x * x + y * y ≤ radius * radius ∧
        w ∈ [(⟨centerX + x, centerY + y, c⟩ : SetCall)])
      (fun y => Appends_ite (x * x + y * y ≤ radius * radius)
        (Appends_list [(⟨centerX + x, centerY + y, c⟩ : SetCall)]))
      (radius + 1 - -radius).toNat (-radius))
    (radius + 1 - -radius).toNat (-radius)
  refine Appends_congr h (fun w => ⟨?_, ?_⟩)
  · rintro ⟨x, hx0, hx1, y, hy0, hy1, hd, hw⟩
    exact ⟨x, y, hx0, by omega, hy0, by omega, hd, List.mem_singleton.mp hw⟩
  · rintro ⟨dx, dy, h1, h2, h3, h4, hd, hw⟩
    exact ⟨dx, h1, by omega, dy, h3, by omega, hd, List.mem_singleton.mpr hw⟩

theorem drawCircleCalls_mem (c : color.RGBA) (centerX centerY radius : Int) :
    Appends (fun l => drawCircleCalls l c centerX centerY radius)
      (fun w => ∃ i : Int, 0 ≤ i ∧ i ≤ circleLimit radius ∧
        w ∈ [(⟨centerX + i, centerY + circleY radius i, c⟩ : SetCall),
          ⟨centerX + i, centerY - circleY radius i, c⟩,
          ⟨centerX - i, centerY + circleY radius i, c⟩,
          ⟨centerX - i, centerY - circleY radius i, c⟩,
          ⟨centerX + circleY radius i, centerY + i, c⟩,
          ⟨centerX + circleY radius i, centerY - i, c⟩,
          ⟨centerX - circleY radius i, centerY + i, c⟩,
          ⟨centerX - circleY radius i, centerY - i, c⟩]) := by
  have h := @Appends_forLoop
    (fun x l => l ++ [(⟨centerX + x, centerY + circleY radius x, c⟩ : SetCall),
          ⟨centerX + x, centerY - circleY radius x, c⟩,
          ⟨centerX - x, centerY + circleY radius x, c⟩,
          ⟨centerX - x, centerY - circleY radius x, c⟩,
          ⟨centerX + circleY radius x, centerY + x, c⟩,
          ⟨centerX + circleY radius x, centerY - x, c⟩,
          ⟨centerX - circleY radius x, centerY + x, c⟩,
          ⟨centerX - circleY radius x, centerY - x, c⟩])
    (fun x w => w ∈ [(⟨centerX + x, centerY + circleY radius x, c⟩ : SetCall),
          ⟨centerX + x, centerY - circleY radius x, c⟩,
          ⟨centerX - x, centerY + circleY radius x, c⟩,
          ⟨centerX - x, centerY - circleY radius x, c⟩,
          ⟨centerX + circleY radius x, centerY + x, c⟩,
          ⟨centerX + circleY radius x, centerY - x, c⟩,
          ⟨centerX - circleY radius x, centerY + x, c⟩,
          ⟨centerX - circleY radius x, centerY - x, c⟩])
    (fun x => Appends_list _) (circleLimit radius + 1).toNat 0
  refine Appends_congr h (fun w => ⟨?_, ?_⟩)
  · rintro ⟨x, hx0, hx1, hS⟩
    exact ⟨x, hx0, by omega, hS⟩
  · rintro ⟨i, h0, h1, hS⟩
    exact ⟨i, h0, by omega, hS⟩

/-! ## The outline of a disc -/

set_option maxRecDepth 10000 in
/-- C15: for a radius `r` in `[0, 14]`, with `L` and `Y` the limit and the heights `drawCircle`
computes, taken as exact floors: `i <= Y(i)` for `i` in `[0, L]`; `Y(i) - Y(i+1)` is `0` or `1`
for `i` in `[0, L)`; and `0 <= Y(L) - L <= 1`, so that the last point `(L, Y(L))` of the octant
is equal or adjacent to its mirror `(Y(L), L)`. -/
theorem octant_gap_free (r : Int) (hr0 : 0 ≤ r) (hr1 : r ≤ 14) :
    (∀ i : Int, 0 ≤ i → i ≤ circleLimit r → i ≤ circleY r i) ∧
    (∀ i : Int, 0 ≤ i → i < circleLimit r →
      circleY r i - circleY r (i + 1) = 0 ∨ circleY r i - circleY r (i + 1) = 1) ∧
    0 ≤ circleY r (circleLimit r) - circleLimit r ∧
    circleY r (circleLimit r) - circleLimit r ≤ 1 := by
  interval_cases r <;> decide

/-- Witness of C15: for the radius 5 the octant is `(0,5), (1,4), (2,4), (3,4)`, with `L = 3`
and `Y(L) - L = 1`. -/
theorem octant_gap_free_witness :
    circleLimit 5 = 3 ∧ circleY 5 0 = 5 ∧ circleY 5 1 = 4 ∧ circleY 5 2 = 4 ∧
    circleY 5 3 = 4 ∧
    (0 ≤ circleY 5 (circleLimit 5) - circleLimit 5 ∧
      circleY 5 (circleLimit 5) - circleLimit 5 ≤ 1) :=
  ⟨by decide, by decide, by decide, by decide, by decide,
    (octant_gap_free 5 (by decide) (by decide)).2.2⟩

theorem fill_has_signed (c : color.RGBA) (centerX centerY radius a b dx dy : Int)
    (ha0 : 0 ≤ a) (ha1 : a ≤ radius) (hb0 : 0 ≤ b) (hb1 : b ≤ radius)
    (hab : a * a + b * b ≤ radius * radius)
    (hdx : dx = a ∨ dx = -a) (hdy : dy = b ∨ dy = -b) :
    ∃ w1 ∈ fillCircleCalls [] c centerX centerY radius,
      w1.X = centerX + dx ∧ w1.Y = centerY + dy := by
  have ex : dx * dx = a * a := by
    rcases hdx with h | h
    · rw [h]
    · rw [h, neg_mul_neg]
  have ey : dy * dy = b * b := by
    rcases hdy with h | h
    · rw [h]
    · rw [h, neg_mul_neg]
  refine ⟨⟨centerX + dx, centerY + dy, c⟩, ?_, rfl, rfl⟩
  rw [fillCircleCalls_mem c centerX centerY radius [] _]
  exact Or.inr ⟨dx, dy, by omega, by omega, by omega, by omega, by rw [ex, ey]; exact hab, rfl⟩

/-- C17: for a radius `r` in `[0, 14]` and `i` in `[0, L]`, the stroke offsets satisfy
`i*i + Y(i)*Y(i) <= r*r < i*i + (Y(i)+1)*(Y(i)+1)`; every call of `Set` that `drawCircle` makes
addresses a pixel that `fillCircle` addresses for the same centre and radius, and `drawCircle`
after `fillCircle` is the replay of these calls, so that the stroke only overwrites pixels of
the disc. -/
theorem stroke_on_disc_boundary (r : Int) (hr0 : 0 ≤ r) (_hr1 : r ≤ 14) :
    (∀ i : Int, 0 ≤ i → i ≤ circleLimit r →
      i * i + circleY r i * circleY r i ≤ r * r ∧
      r * r < i * i + (circleY r i + 1) * (circleY r i + 1)) ∧
    (∀ (c c1 : color.RGBA) (centerX centerY : Int) (w : SetCall),
      w ∈ drawCircleCalls [] c1 centerX centerY r →
      ∃ w1 ∈ fillCircleCalls [] c centerX centerY r, w1.X = w.X ∧ w1.Y = w.Y) ∧
    (∀ (m : image.RGBA) (c c1 : color.RGBA) (centerX centerY : Int),
      drawCircle (fillCircle m c centerX centerY r) c1 centerX centerY r =
        replay (drawCircleCalls (fillCircleCalls [] c centerX centerY r) c1 centerX centerY r)
          m) := by
  have hL := circleLimit_floor hr0
  have key : ∀ i : Int, 0 ≤ i → i ≤ circleLimit r →
      0 ≤ circleY r i ∧ circleY r i ≤ r ∧ i ≤ r ∧
      i * i + circleY r i * circleY r i ≤ r * r ∧
      r * r < i * i + (circleY r i + 1) * (circleY r i + 1) := by
    intro i hi0 hi1
    have hii : i * i ≤ r * r := mul_self_le_mul_self hi0 (by omega)
    obtain ⟨f1, f2, f3⟩ := circleY_floor hii
    exact ⟨f1, (circleY_le hr0).2, by omega, by omega, by omega⟩
  refine ⟨fun i hi0 hi1 => ⟨(key i hi0 hi1).2.2.2.1, (key i hi0 hi1).2.2.2.2⟩, ?_, ?_⟩
  · intro c c1 centerX centerY w hw
    rw [drawCircleCalls_mem c1 centerX centerY r [] w] at hw
    rcases hw with hw | ⟨i, hi0, hi1, hw⟩
    · cases hw
    · obtain ⟨k1, k2, k3, k4, _⟩ := key i hi0 hi1
      have k5 : circleY r i * circleY r i + i * i ≤ r * r := by omega
      simp only [List.mem_cons, List.mem_singleton, List.not_mem_nil, or_false] at hw
      rcases hw with h | h | h | h | h | h | h | h <;> rw [h]
      · exact fill_has_signed c centerX centerY r i (circleY r i) i (circleY r i)
          hi0 k3 k1 k2 k4 (Or.inl rfl) (Or.inl rfl)
      · have e := fill_has_signed c centerX centerY r i (circleY r i) i (-circleY r i)
          hi0 k3 k1 k2 k4 (Or.inl rfl) (Or.inr rfl)
        rw [← sub_eq_add_neg] at e
        exact e
      · have e := fill_has_signed c centerX centerY r i (circleY r i) (-i) (circleY r i)
          hi0 k3 k1 k2 k4 (Or.inr rfl) (Or.inl rfl)
        rw [← sub_eq_add_neg] at e
        exact e
      · have e := fill_has_signed c centerX centerY r i (circleY r i) (-i) (-circleY r i)
          hi0 k3 k1 k2 k4 (Or.inr rfl) (Or.inr rfl)
        rw [← sub_eq_add_neg, ← sub_eq_add_neg] at e
        exact e
      · exact fill_has_signed c centerX centerY r (circleY r i) i (circleY r i) i
          k1 k2 hi0 k3 k5 (Or.inl rfl) (Or.inl rfl)
      · have e := fill_has_signed c centerX centerY r (circleY r i) i (circleY r i) (-i)
          k1 k2 hi0 k3 k5 (Or.inl rfl) (Or.inr rfl)
        rw [← sub_eq_add_neg] at e
        exact e
      · have e := fill_has_signed c centerX centerY r (circleY r i) i (-circleY r i) i
          k1 k2 hi0 k3 k5 (Or.inr rfl) (Or.inl rfl)
        rw [← sub_eq_add_neg] at e
        exact e
      · have e := fill_has_signed c centerX centerY r (circleY r i) i (-circleY r i) (-i)
          k1 k2 hi0 k3 k5 (Or.inr rfl) (Or.inr rfl)
        rw [← sub_eq_add_neg, ← sub_eq_add_neg] at e
        exact e
  · intro m c c1 centerX centerY
    rw [drawCircle_replay, fillCircle_replay]
    rfl

set_option maxRecDepth 10000 in
/-- Witness of C17: for the radius 5 and `i = 3` the offset `(3, 4)` lies on the circle, and the
stroke call at `(10 + 3, 20 - 4)` has a fill call at the same pixel. -/
theorem stroke_on_disc_boundary_witness :
    ((3 : Int) * 3 + circleY 5 3 * circleY 5 3 ≤ 5 * 5 ∧
      (5 : Int) * 5 < 3 * 3 + (circleY 5 3 + 1) * (circleY 5 3 + 1)) ∧
    (⟨13, 16, STROKE_COLOR⟩ : SetCall) ∈ drawCircleCalls [] STROKE_COLOR 10 20 5 ∧
    ∃ w1 ∈ fillCircleCalls [] ⟨255, 0, 0, 255⟩ 10 20 5, w1.X = 13 ∧ w1.Y = 16 :=
  ⟨(stroke_on_disc_boundary 5 (by decide) (by decide)).1 3 (by decide) (by decide),
    by decide,
    (stroke_on_disc_boundary 5 (by decide) (by decide)).2.1 ⟨255, 0, 0, 255⟩ STROKE_COLOR 10 20
      ⟨13, 16, STROKE_COLOR⟩ (by decide)⟩

/-! ## Completion and the image of one cell -/

/-- C11: on a matrix with `rows, columns >= 1` and `rows*columns` elements, with `pixelSize` in
`[1, 29]`, the loop variables `x` in `[0, columns)` and `y` in `[0, rows)` of both renderers only
give calls `GetPixel(x, y)` that are in range, with `x*rows + y` within the bitmap, and that
succeed; `generateImage` and `generateRealisticImage` both return a bitmap. -/
theorem rendering_completes (matrix : Matrix) (P : Int)
    (hR : 1 ≤ matrix.Rows) (hC : 1 ≤ matrix.Columns)
    (hlen : (matrix.Bitmap.length : Int) = matrix.Rows * matrix.Columns)
    (_hP1 : 1 ≤ P) (_hP2 : P ≤ 29) :
    (∀ x y : Int, 0 ≤ x → x < 0 + (matrix.Columns.toNat : Int) →
      0 ≤ y → y < 0 + (matrix.Rows.toNat : Int) →
      (0 ≤ x ∧ x < matrix.Columns ∧ 0 ≤ y ∧ y < matrix.Rows) ∧
      (0 ≤ x * matrix.Rows + y ∧ x * matrix.Rows + y < (matrix.Bitmap.length : Int)) ∧
      ∃ v, matrix.GetPixel x y = .ok v) ∧
    (∃ img, generateImage matrix P = .ok img) ∧
    (∃ img, generateRealisticImage matrix P = .ok img) ∧
    (∃ calls, generateImageCalls matrix P = .ok calls) ∧
    (∃ calls, generateRealisticImageCalls matrix P = .ok calls) := by
  have himg := generateImage_eq P (by omega : matrix.Rows * matrix.Columns ≤
    (matrix.Bitmap.length : Int))
  have hreal := generateRealisticImage_eq P (by omega : matrix.Rows * matrix.Columns ≤
    (matrix.Bitmap.length : Int))
  refine ⟨fun x y hx0 hx1 hy0 hy1 => ?_, ⟨_, himg⟩, ⟨_, hreal⟩, ?_, ?_⟩
  · have hb := @index_bounds matrix.Rows matrix.Columns x y hx0 (by omega) hy0 (by omega)
    exact ⟨⟨hx0, by omega, hy0, by omega⟩, ⟨hb.1, by omega⟩,
      ⟨_, GetPixel_ok (by omega) hx0 (by omega) hy0 (by omega)⟩⟩
  · rw [generateImage_replay] at himg
    cases hc : generateImageCalls matrix P with
    | error e => rw [hc] at himg; cases himg
    | ok calls => exact ⟨calls, rfl⟩
  · rw [generateRealisticImage_replay] at hreal
    cases hc : generateRealisticImageCalls matrix P with
    | error e => rw [hc] at hreal; cases hreal
    | ok calls => exact ⟨calls, rfl⟩

/-- Witness of C11: both renderers return a bitmap for the 2-by-3 index matrix with
`pixelSize = 4`, and the call `GetPixel(2, 1)` reads the last element. -/
theorem rendering_completes_witness :
    ((∃ img, generateImage indexMatrix 4 = .ok img) ∧
      (∃ img, generateRealisticImage indexMatrix 4 = .ok img)) ∧
    ((0 ≤ (2 : Int) * indexMatrix.Rows + 1 ∧
        (2 : Int) * indexMatrix.Rows + 1 < (indexMatrix.Bitmap.length : Int)) ∧
      ∃ v, indexMatrix.GetPixel 2 1 = .ok v) :=
  ⟨⟨(rendering_completes indexMatrix 4 (by decide) (by decide) (by decide) (by decide)
      (by decide)).2.1,
    (rendering_completes indexMatrix 4 (by decide) (by decide) (by decide) (by decide)
      (by decide)).2.2.1⟩,
    ((rendering_completes indexMatrix 4 (by decide) (by decide) (by decide) (by decide)
      (by decide)).1 2 1 (by decide) (by decide) (by decide) (by decide)).2⟩

theorem realistic_cell_pixel {matrix : Matrix} {P : Int}
    (hR : 1 ≤ matrix.Rows) (hC : 1 ≤ matrix.Columns)
    (hlen : (matrix.Bitmap.length : Int) = matrix.Rows * matrix.Columns)
    (hP1 : 1 ≤ P) (hP2 : P ≤ 29) {img : image.RGBA}
    (himg : generateRealisticImage matrix P = .ok img) (x y dx dy : Int)
    (hx0 : 0 ≤ x) (hx1 : x < matrix.Columns) (hy0 : 0 ≤ y) (hy1 : y < matrix.Rows)
    (hdx0 : -circleRadius P ≤ dx) (hdx1 : dx ≤ circleRadius P)
    (hdy0 : -circleRadius P ≤ dy) (hdy1 : dy ≤ circleRadius P) :
    (OnStroke (circleRadius P) dx dy →
      img.At (x * normalizedPixSize P + circleRadius P + dx)
        (y * normalizedPixSize P + circleRadius P + dy) = STROKE_COLOR) ∧
    (¬OnStroke (circleRadius P) dx dy → dx * dx + dy * dy ≤ circleRadius P * circleRadius P →
      img.At (x * normalizedPixSize P + circleRadius P + dx)
        (y * normalizedPixSize P + circleRadius P + dy) =
        toRGB (matrix.Bitmap.getD (x * matrix.Rows + y).toNat 0)) ∧
    (¬OnStroke (circleRadius P) dx dy →
      ¬(dx * dx + dy * dy ≤ circleRadius P * circleRadius P) →
      img.At (x * normalizedPixSize P + circleRadius P + dx)
        (y * normalizedPixSize P + circleRadius P + dy) = ⟨0, 0, 0, 255⟩) := by
  obtain ⟨_, _, _, f4, f5, _, f7⟩ := normalized_facts P hP1 hP2
  have hL := circleLimit_floor f5
  have hn : 0 < normalizedPixSize P := by omega
  have hn2 : normalizedPixSize P = 2 * (normalizedPixSize P).tdiv 2 + 1 := by rw [f7]; exact f4
  have hcells := renderCells_pixel hn
    (discCell_local matrix hn2 (by rw [f7]; exact f5)) matrix.Columns matrix.Rows
    ((image.NewRGBA (image.Rect 0 0 (matrix.Columns * normalizedPixSize P)
      (matrix.Rows * normalizedPixSize P))).DrawUniformSrc ⟨0, 0, 0, 255⟩)
  have hrect := Rect_of_nonneg
    (mul_nonneg (by omega : (0 : Int) ≤ matrix.Columns) (le_of_lt hn))
    (mul_nonneg (by omega : (0 : Int) ≤ matrix.Rows) (le_of_lt hn))
  have hcell : InCell (normalizedPixSize P) x y
      (x * normalizedPixSize P + circleRadius P + dx)
      (y * normalizedPixSize P + circleRadius P + dy) := by
    unfold InCell
    omega
  have hxn : 0 ≤ x * normalizedPixSize P := mul_nonneg hx0 (le_of_lt hn)
  have hyn : 0 ≤ y * normalizedPixSize P := mul_nonneg hy0 (le_of_lt hn)
  have hxc : (x + 1) * normalizedPixSize P ≤ matrix.Columns * normalizedPixSize P :=
    mul_le_mul_of_nonneg_right (by omega) (le_of_lt hn)
  have hyc : (y + 1) * normalizedPixSize P ≤ matrix.Rows * normalizedPixSize P :=
    mul_le_mul_of_nonneg_right (by omega) (le_of_lt hn)
  have ex : (x + 1) * normalizedPixSize P = x * normalizedPixSize P + normalizedPixSize P := by
    ring
  have ey : (y + 1) * normalizedPixSize P = y * normalizedPixSize P + normalizedPixSize P := by
    ring
  have hin : ((image.NewRGBA (image.Rect 0 0 (matrix.Columns * normalizedPixSize P)
      (matrix.Rows * normalizedPixSize P))).DrawUniformSrc ⟨0, 0, 0, 255⟩).Rect.Contains
      (x * normalizedPixSize P + circleRadius P + dx)
      (y * normalizedPixSize P + circleRadius P + dy) := by
    show (image.Rect 0 0 (matrix.Columns * normalizedPixSize P)
      (matrix.Rows * normalizedPixSize P)).Contains _ _
    rw [hrect]
    unfold image.Rectangle.Contains
    simp only
    omega
  have hbg : ((image.NewRGBA (image.Rect 0 0 (matrix.Columns * normalizedPixSize P)
      (matrix.Rows * normalizedPixSize P))).DrawUniformSrc ⟨0, 0, 0, 255⟩).Pix
      (x * normalizedPixSize P + circleRadius P + dx)
      (y * normalizedPixSize P + circleRadius P + dy) = ⟨0, 0, 0, 255⟩ := if_pos hin
  have hpix := discCell_pixel matrix f7 f5 x y dx dy _ hdx0 hdx1 hdy0 hdy1 hin
  have hAt : ∀ c : color.RGBA,
      (discCell matrix (normalizedPixSize P) x y
        ((image.NewRGBA (image.Rect 0 0 (matrix.Columns * normalizedPixSize P)
          (matrix.Rows * normalizedPixSize P))).DrawUniformSrc ⟨0, 0, 0, 255⟩)).Pix
        (x * normalizedPixSize P + circleRadius P + dx)
        (y * normalizedPixSize P + circleRadius P + dy) = c →
      (renderCells (discCell matrix (normalizedPixSize P)) matrix.Columns matrix.Rows
        ((image.NewRGBA (image.Rect 0 0 (matrix.Columns * normalizedPixSize P)
          (matrix.Rows * normalizedPixSize P))).DrawUniformSrc ⟨0, 0, 0, 255⟩)).At
        (x * normalizedPixSize P + circleRadius P + dx)
        (y * normalizedPixSize P + circleRadius P + dy) = c := by
    intro c hc
    unfold image.RGBA.At
    rw [hcells.1, if_pos hin, hcells.2 x y _ _ hx0 hx1 hy0 hy1 hcell]
    exact hc
  rw [generateRealisticImage_eq P (by omega)] at himg
  cases himg
  exact ⟨fun hs => hAt _ (hpix.1 hs), fun hs hd => hAt _ (hpix.2.1 hs hd),
    fun hs hd => hAt _ ((hpix.2.2 hs hd).trans hbg)⟩

theorem OnStroke_neg_left (r dx dy : Int) : OnStroke r (-dx) dy ↔ OnStroke r dx dy := by
  unfold OnStroke
  rw [abs_neg]

theorem OnStroke_neg_right (r dx dy : Int) : OnStroke r dx (-dy) ↔ OnStroke r dx dy := by
  unfold OnStroke
  rw [abs_neg]

theorem OnStroke_swap (r dx dy : Int) : OnStroke r dy dx ↔ OnStroke r dx dy := by
  unfold OnStroke
  constructor
  · rintro ⟨i, h0, h1, h⟩
    exact ⟨i, h0, h1, h.elim (fun a => Or.inr ⟨a.2, a.1⟩) (fun a => Or.inl ⟨a.2, a.1⟩)⟩
  · rintro ⟨i, h0, h1, h⟩
    exact ⟨i, h0, h1, h.elim (fun a => Or.inr ⟨a.2, a.1⟩) (fun a => Or.inl ⟨a.2, a.1⟩)⟩

theorem same_colour {r : Int} {v : color.RGBA} {dx dy ex ey : Int} {a b : color.RGBA}
    (ha : (OnStroke r dx dy → a = STROKE_COLOR) ∧
      (¬OnStroke r dx dy → dx * dx + dy * dy ≤ r * r → a = v) ∧
      (¬OnStroke r dx dy → ¬(dx * dx + dy * dy ≤ r * r) → a = ⟨0, 0, 0, 255⟩))
    (hb : (OnStroke r ex ey → b = STROKE_COLOR) ∧
      (¬OnStroke r ex ey → ex * ex + ey * ey ≤ r * r → b = v) ∧
      (¬OnStroke r ex ey → ¬(ex * ex + ey * ey ≤ r * r) → b = ⟨0, 0, 0, 255⟩))
    (hs : OnStroke r ex ey ↔ OnStroke r dx dy)
    (hd : ex * ex + ey * ey = dx * dx + dy * dy) : a = b := by
  by_cases h1 : OnStroke r dx dy
  · rw [ha.1 h1, hb.1 (hs.2 h1)]
  · have h2 : ¬OnStroke r ex ey := fun h => h1 (hs.1 h)
    by_cases h3 : dx * dx + dy * dy ≤ r * r
    · rw [ha.2.1 h1 h3, hb.2.1 h2 (by omega)]
    · rw [ha.2.2 h1 h3, hb.2.2 h2 (by omega)]

/-- C16: on a valid matrix with `pixelSize` in `[1, 29]`, the image of a cell `(x, y)` is
symmetric about the disc centre `(cx, cy) = (x*n + r, y*n + r)`: for `dx, dy` in `[-r, r]` the
pixels at `(cx+dx, cy+dy)`, `(cx-dx, cy+dy)`, `(cx+dx, cy-dy)` and `(cx+dy, cy+dx)` are equal. -/
theorem cell_image_symmetric (matrix : Matrix) (P x y dx dy : Int)
    (hR : 1 ≤ matrix.Rows) (hC : 1 ≤ matrix.Columns)
    (hlen : (matrix.Bitmap.length : Int) = matrix.Rows * matrix.Columns)
    (hP1 : 1 ≤ P) (hP2 : P ≤ 29)
    (hx0 : 0 ≤ x) (hx1 : x < matrix.Columns) (hy0 : 0 ≤ y) (hy1 : y < matrix.Rows)
    (hdx0 : -circleRadius P ≤ dx) (hdx1 : dx ≤ circleRadius P)
    (hdy0 : -circleRadius P ≤ dy) (hdy1 : dy ≤ circleRadius P) :
    ∃ img, generateRealisticImage matrix P = .ok img ∧
      img.At (x * normalizedPixSize P + circleRadius P + dx)
          (y * normalizedPixSize P + circleRadius P + dy) =
        img.At (x * normalizedPixSize P + circleRadius P - dx)
          (y * normalizedPixSize P + circleRadius P + dy) ∧
      img.At (x * normalizedPixSize P + circleRadius P + dx)
          (y * normalizedPixSize P + circleRadius P + dy) =
        img.At (x * normalizedPixSize P + circleRadius P + dx)
          (y * normalizedPixSize P + circleRadius P - dy) ∧
      img.At (x * normalizedPixSize P + circleRadius P + dx)
          (y * normalizedPixSize P + circleRadius P + dy) =
        img.At (x * normalizedPixSize P + circleRadius P + dy)
          (y * normalizedPixSize P + circleRadius P + dx) := by
  have himg := generateRealisticImage_eq P (by omega : matrix.Rows * matrix.Columns ≤
    (matrix.Bitmap.length : Int))
  have h0 := realistic_cell_pixel hR hC hlen hP1 hP2 himg x y dx dy hx0 hx1 hy0 hy1
    hdx0 hdx1 hdy0 hdy1
  have h1 := realistic_cell_pixel hR hC hlen hP1 hP2 himg x y (-dx) dy hx0 hx1 hy0 hy1
    (by omega) (by omega) hdy0 hdy1
  have h2 := realistic_cell_pixel hR hC hlen hP1 hP2 himg x y dx (-dy) hx0 hx1 hy0 hy1
    hdx0 hdx1 (by omega) (by omega)
  have h3 := realistic_cell_pixel hR hC hlen hP1 hP2 himg x y dy dx hx0 hx1 hy0 hy1
    hdy0 hdy1 hdx0 hdx1
  refine ⟨_, himg, ?_, ?_, ?_⟩
  · rw [sub_eq_add_neg]
    exact same_colour h0 h1 (OnStroke_neg_left _ dx dy) (by rw [neg_mul_neg])
  · rw [sub_eq_add_neg (y * normalizedPixSize P + circleRadius P) dy]
    exact same_colour h0 h2 (OnStroke_neg_right _ dx dy) (by rw [neg_mul_neg])
  · exact same_colour h0 h3 (OnStroke_swap _ dx dy) (by omega)

/-- Witness of C16: in the rendering of the one-cell matrix with `pixelSize = 4` (`n = 5`,
`r = 2`) the pixel at offset `(1, 2)` from the centre `(2, 2)` equals its three mirror images. -/
theorem cell_image_symmetric_witness :
    ∃ img, generateRealisticImage redCell 4 = .ok img ∧
      img.At (0 * normalizedPixSize 4 + circleRadius 4 + 1)
          (0 * normalizedPixSize 4 + circleRadius 4 + 2) =
        img.At (0 * normalizedPixSize 4 + circleRadius 4 - 1)
          (0 * normalizedPixSize 4 + circleRadius 4 + 2) ∧
      img.At (0 * normalizedPixSize 4 + circleRadius 4 + 1)
          (0 * normalizedPixSize 4 + circleRadius 4 + 2) =
        img.At (0 * normalizedPixSize 4 + circleRadius 4 + 1)
          (0 * normalizedPixSize 4 + circleRadius 4 - 2) ∧
      img.At (0 * normalizedPixSize 4 + circleRadius 4 + 1)
          (0 * normalizedPixSize 4 + circleRadius 4 + 2) =
        img.At (0 * normalizedPixSize 4 + circleRadius 4 + 2)
          (0 * normalizedPixSize 4 + circleRadius 4 + 1) :=
  cell_image_symmetric redCell 4 0 0 1 2 (by decide) (by decide) (by decide) (by decide)
    (by decide) (by decide) (by decide) (by decide) (by decide) (by decide) (by decide)
    (by decide) (by decide)

set_option maxRecDepth 10000 in
theorem circleY_zero (r : Int) (hr0 : 0 ≤ r) (hr1 : r ≤ 14) : circleY r 0 = r := by
  interval_cases r <;> decide

theorem centre_on_stroke (r : Int) (hr0 : 0 ≤ r) (hr1 : r ≤ 14) :
    OnStroke r 0 0 ↔ r = 0 := by
  constructor
  · rintro ⟨i, h0, h1, h⟩
    have hY := circleY_zero r hr0 hr1
    rw [abs_zero] at h
    rcases h with ⟨a, b⟩ | ⟨a, b⟩
    · rw [← a, hY] at b
      omega
    · rw [← b, hY] at a
      omega
  · intro h
    subst h
    exact ⟨0, le_refl _, by decide, Or.inl ⟨abs_zero, by decide⟩⟩

/-- C19: on a valid matrix with `pixelSize` in `[1, 29]`, the centre pixel `(x*n + r, y*n + r)`
of a cell is `toRGB(GetPixel(x, y))` exactly when `r >= 1`, that is when `pixelSize >= 2`; for
`pixelSize = 1` every pixel of the bitmap is the stroke colour, so two matrices of the same
dimensions give the same pixels whatever their colours. -/
theorem centre_pixel (matrix : Matrix) (P x y : Int)
    (hR : 1 ≤ matrix.Rows) (hC : 1 ≤ matrix.Columns)
    (hlen : (matrix.Bitmap.length : Int) = matrix.Rows * matrix.Columns)
    (hP1 : 1 ≤ P) (hP2 : P ≤ 29)
    (hx0 : 0 ≤ x) (hx1 : x < matrix.Columns) (hy0 : 0 ≤ y) (hy1 : y < matrix.Rows) :
    ∃ img v, generateRealisticImage matrix P = .ok img ∧ matrix.GetPixel x y = .ok v ∧
      (img.At (x * normalizedPixSize P + circleRadius P)
        (y * normalizedPixSize P + circleRadius P) = toRGB v ↔ 1 ≤ circleRadius P) ∧
      (1 ≤ circleRadius P ↔ 2 ≤ P) ∧
      (P = 1 →
        (∀ px py : Int, 0 ≤ px → px < matrix.Columns → 0 ≤ py → py < matrix.Rows →
          img.At px py = STROKE_COLOR) ∧
        ∀ (matrix1 : Matrix) (img1 : image.RGBA), matrix1.Rows = matrix.Rows →
          matrix1.Columns = matrix.Columns →
          (matrix1.Bitmap.length : Int) = matrix1.Rows * matrix1.Columns →
          generateRealisticImage matrix1 P = .ok img1 →
          ∀ px py : Int, img1.At px py = img.At px py) := by
  obtain ⟨_, _, _, f4, f5, f6, _⟩ := normalized_facts P hP1 hP2
  have himg := generateRealisticImage_eq P (by omega : matrix.Rows * matrix.Columns ≤
    (matrix.Bitmap.length : Int))
  have hc := realistic_cell_pixel hR hC hlen hP1 hP2 himg x y 0 0 hx0 hx1 hy0 hy1
    (by omega) (by omega) (by omega) (by omega)
  rw [add_zero, add_zero] at hc
  have hcs := centre_on_stroke (circleRadius P) f5 f6
  have hrP : 1 ≤ circleRadius P ↔ 2 ≤ P := by
    have e : normalizedPixSize P = if P % 2 = 0 then P + 1 else P :=
      (normalized_facts P hP1 hP2).1
    by_cases hp : P % 2 = 0
    · rw [if_pos hp] at e
      omega
    · rw [if_neg hp] at e
      omega
  have hall : ∀ (mx : Matrix) (im : image.RGBA), 1 ≤ mx.Rows → 1 ≤ mx.Columns →
      (mx.Bitmap.length : Int) = mx.Rows * mx.Columns → P = 1 →
      generateRealisticImage mx P = .ok im →
      ∀ px py : Int, 0 ≤ px → px < mx.Columns → 0 ≤ py → py < mx.Rows →
        im.At px py = STROKE_COLOR := by
    intro mx im hR1 hC1 hl1 hP hgen px py a1 a2 a3 a4
    subst hP
    have hq := (realistic_cell_pixel hR1 hC1 hl1 (by decide) (by decide) hgen px py 0 0
      a1 a2 a3 a4 (by decide) (by decide) (by decide) (by decide)).1
      ((centre_on_stroke (circleRadius 1) (by decide) (by decide)).2 (by decide))
    have e1 : normalizedPixSize 1 = 1 := by decide
    have e2 : circleRadius 1 = 0 := by decide
    rw [e1, e2, mul_one, mul_one, add_zero, add_zero, add_zero, add_zero] at hq
    exact hq
  refine ⟨_, matrix.Bitmap.getD (x * matrix.Rows + y).toNat 0, himg,
    GetPixel_ok (by omega) hx0 hx1 hy0 hy1, ⟨fun h => ?_, fun h => ?_⟩, hrP,
    fun hP => ⟨hall matrix _ hR hC hlen hP himg, fun matrix1 img1 e1 e2 hl1 hgen px py => ?_⟩⟩
  · by_contra hr
    have hr0 : circleRadius P = 0 := by omega
    rw [hc.1 (hcs.2 hr0)] at h
    have hA : (185 : Nat) = 255 := congrArg color.RGBA.A h
    exact absurd hA (by decide)
  · exact hc.2.1 (fun hs => by have := hcs.1 hs; omega)
      (by have := mul_self_nonneg (circleRadius P); omega)
  · have r1 := generateRealisticImage_rect hgen
    have r0 := generateRealisticImage_rect himg
    rw [e1, e2] at r1
    by_cases hin : (image.Rect 0 0 (matrix.Columns * normalizedPixSize P)
        (matrix.Rows * normalizedPixSize P)).Contains px py
    · have hn1 : normalizedPixSize P = 1 := by subst hP; decide
      have hgrid := hin
      rw [hn1, mul_one, mul_one, Rect_of_nonneg (by omega) (by omega)] at hgrid
      obtain ⟨g1, g2, g3, g4⟩ := hgrid
      rw [hall matrix1 img1 (by omega) (by omega) hl1 hP hgen px py g1 (by rw [e2]; exact g2)
          g3 (by rw [e1]; exact g4),
        hall matrix _ hR hC hlen hP himg px py g1 g2 g3 g4]
    · unfold image.RGBA.At
      rw [r1, r0, if_neg hin, if_neg hin]

/-- Witness of C19: the centre of the one-cell red matrix is red with `pixelSize = 2` and is
the stroke colour with `pixelSize = 1`. -/
theorem centre_pixel_witness :
    (∃ img v, generateRealisticImage redCell 2 = .ok img ∧ redCell.GetPixel 0 0 = .ok v ∧
      img.At (0 * normalizedPixSize 2 + circleRadius 2)
        (0 * normalizedPixSize 2 + circleRadius 2) = toRGB v) ∧
    pixelOf (generateRealisticImage redCell 2) 1 1 = some ⟨255, 0, 0, 255⟩ ∧
    pixelOf (generateRealisticImage redCell 1) 0 0 = some ⟨50, 50, 50, 185⟩ := by
  obtain ⟨img, v, h1, h2, h3, _, _⟩ := centre_pixel redCell 2 0 0 (by decide) (by decide)
    (by decide) (by decide) (by decide) (by decide) (by decide) (by decide) (by decide)
  exact ⟨⟨img, v, h1, h2, h3.2 (by decide)⟩, by decide, by decide⟩

theorem disc_calls_in_cell {n : Int} (hn : n = 2 * n.tdiv 2 + 1) (hr : 0 ≤ n.tdiv 2)
    (x y : Int) (c c1 : color.RGBA) :
    ∀ (l : List SetCall) (w : SetCall),
      w ∈ drawCircleCalls (fillCircleCalls l c (x * n + n.tdiv 2) (y * n + n.tdiv 2) (n.tdiv 2))
        c1 (x * n + n.tdiv 2) (y * n + n.tdiv 2) (n.tdiv 2) →
      w ∈ l ∨ InCell n x y w.X w.Y := by
  intro l w hw
  have hL := circleLimit_floor hr
  rw [drawCircleCalls_mem c1 _ _ _ _ w, fillCircleCalls_mem c _ _ _ l w] at hw
  rcases hw with (hw | ⟨dx, dy, h1, h2, h3, h4, _, rfl⟩) | ⟨i, hi0, hi1, hw⟩
  · exact Or.inl hw
  · right
    unfold InCell
    simp only
    omega
  · right
    have hY := @circleY_le (n.tdiv 2) i hr
    simp only [List.mem_cons, List.mem_singleton, List.not_mem_nil, or_false] at hw
    unfold InCell
    rcases hw with h | h | h | h | h | h | h | h <;> rw [h] <;> simp only <;> omega

theorem cell_in_bounds {n C R x y px py : Int} (hn : 1 ≤ n)
    (hx0 : 0 ≤ x) (hx1 : x < C) (hy0 : 0 ≤ y) (hy1 : y < R) (h : InCell n x y px py) :
    (image.Rect 0 0 (C * n) (R * n)).Contains px py := by
  have hg := (@grid_iff_cell n C R px py hn).2 ⟨x, hx0, by omega, y, hy0, by omega, h⟩
  rw [Rect_of_nonneg (by omega) (by omega)]
  exact hg

/-- C18, as the code has it: for `rows, columns >= 1` and `pixelSize` in `[1, 29]`, with `n` the
normalised size, `r = n/2` and the pixel buffer `4*(C*n)*(R*n)` below `2^31` bytes, the rectangle
handed to `image.NewRGBA` is `(0,0)-(C*n, R*n)` (no product wraps); every call of `Set` that
`fillCircle` and `drawCircle` make for a cell `(x, y)` of the matrix addresses a pixel of the
square `[x*n, x*n + n - 1] x [y*n, y*n + n - 1]`, which lies within the bounds of the bitmap and
in the square of no other cell; `generateRealisticImage` is the replay of these calls on the
black bitmap, and every call of a completed rendering lies within the bounds. -/
theorem disc_writes_stay_in_cell (matrix : Matrix) (P : Int)
    (hR : 1 ≤ matrix.Rows) (hC : 1 ≤ matrix.Columns) (hP1 : 1 ≤ P) (hP2 : P ≤ 29)
    (hfit : 4 * (matrix.Columns * normalizedPixSize P) * (matrix.Rows * normalizedPixSize P) <
      2 ^ 31) :
    machineBounds matrix (normalizedPixSize P) =
      ⟨⟨0, 0⟩, ⟨matrix.Columns * normalizedPixSize P, matrix.Rows * normalizedPixSize P⟩⟩ ∧
    (∀ (x y : Int) (c : color.RGBA) (w : SetCall),
      0 ≤ x → x < matrix.Columns → 0 ≤ y → y < matrix.Rows →
      w ∈ drawCircleCalls
        (fillCircleCalls [] c (x * normalizedPixSize P + circleRadius P)
          (y * normalizedPixSize P + circleRadius P) (circleRadius P))
        STROKE_COLOR (x * normalizedPixSize P + circleRadius P)
        (y * normalizedPixSize P + circleRadius P) (circleRadius P) →
      (x * normalizedPixSize P ≤ w.X ∧ w.X ≤ x * normalizedPixSize P + normalizedPixSize P - 1 ∧
        y * normalizedPixSize P ≤ w.Y ∧
        w.Y ≤ y * normalizedPixSize P + normalizedPixSize P - 1) ∧
      (machineBounds matrix (normalizedPixSize P)).Contains w.X w.Y ∧
      ∀ x1 y1 : Int, InCell (normalizedPixSize P) x1 y1 w.X w.Y → x1 = x ∧ y1 = y) ∧
    generateRealisticImage matrix P =
      replayE (generateRealisticImageCalls matrix P)
        ((image.NewRGBA (machineBounds matrix (normalizedPixSize P))).DrawUniformSrc
          ⟨0, 0, 0, 255⟩) ∧
    (∀ calls, generateRealisticImageCalls matrix P = .ok calls → ∀ w ∈ calls,
      (machineBounds matrix (normalizedPixSize P)).Contains w.X w.Y) := by
  obtain ⟨_, _, _, f4, f5, _, f7⟩ := normalized_facts P hP1 hP2
  have hn : 1 ≤ normalizedPixSize P := by omega
  have hn2 : normalizedPixSize P = 2 * (normalizedPixSize P).tdiv 2 + 1 := by rw [f7]; exact f4
  have hr : 0 ≤ (normalizedPixSize P).tdiv 2 := by rw [f7]; exact f5
  obtain ⟨g1, _, g3, _⟩ := fit_bounds hR hC hn hfit
  have hmb := machineBounds_eq hR hC hn hfit
  refine ⟨by rw [hmb, Rect_of_nonneg (by omega) (by omega)],
    fun x y c w hx0 hx1 hy0 hy1 hw => ?_,
    by rw [hmb]; exact generateRealisticImage_replay matrix P,
    fun calls hc w hw => ?_⟩
  · rw [← f7] at hw
    have hcell : InCell (normalizedPixSize P) x y w.X w.Y := by
      rcases disc_calls_in_cell hn2 hr x y c STROKE_COLOR [] w hw with h | h
      · cases h
      · exact h
    refine ⟨?_, by rw [hmb]; exact cell_in_bounds hn hx0 hx1 hy0 hy1 hcell,
      fun x1 y1 h1 => InCell_unique (by omega) h1 hcell⟩
    obtain ⟨a1, a2, a3, a4⟩ := hcell
    omega
  · rw [generateRealisticImageCalls_ok hc] at hw
    have hcol : ∀ x : Int, Appends (fun l => forLoop (fun y l =>
        drawCircleCalls
          (fillCircleCalls l (toRGB (matrix.Bitmap.getD (int64 (x * matrix.Rows + y)).toNat 0))
            (x * normalizedPixSize P + (normalizedPixSize P).tdiv 2)
            (y * normalizedPixSize P + (normalizedPixSize P).tdiv 2)
            ((normalizedPixSize P).tdiv 2))
          STROKE_COLOR (x * normalizedPixSize P + (normalizedPixSize P).tdiv 2)
          (y * normalizedPixSize P + (normalizedPixSize P).tdiv 2)
          ((normalizedPixSize P).tdiv 2)) 0 matrix.Rows.toNat l)
        (fun w => ∃ y : Int, 0 ≤ y ∧ y < 0 + (matrix.Rows.toNat : Int) ∧
          ∀ l : List SetCall, w ∈ drawCircleCalls
            (fillCircleCalls l (toRGB (matrix.Bitmap.getD (int64 (x * matrix.Rows + y)).toNat 0))
              (x * normalizedPixSize P + (normalizedPixSize P).tdiv 2)
              (y * normalizedPixSize P + (normalizedPixSize P).tdiv 2)
              ((normalizedPixSize P).tdiv 2))
            STROKE_COLOR (x * normalizedPixSize P + (normalizedPixSize P).tdiv 2)
            (y * normalizedPixSize P + (normalizedPixSize P).tdiv 2)
            ((normalizedPixSize P).tdiv 2)) := by
      intro x
      refine @Appends_forLoop _ _ (fun y => ?_) matrix.Rows.toNat 0
      intro l w
      have hcomp := Appends_comp (fillCircleCalls_mem
          (toRGB (matrix.Bitmap.getD (int64 (x * matrix.Rows + y)).toNat 0))
          (x * normalizedPixSize P + (normalizedPixSize P).tdiv 2)
          (y * normalizedPixSize P + (normalizedPixSize P).tdiv 2)
          ((normalizedPixSize P).tdiv 2))
        (drawCircleCalls_mem STROKE_COLOR
          (x * normalizedPixSize P + (normalizedPixSize P).tdiv 2)
          (y * normalizedPixSize P + (normalizedPixSize P).tdiv 2)
          ((normalizedPixSize P).tdiv 2))
      constructor
      · intro h
        rcases (hcomp l w).1 h with h1 | h1
        · exact Or.inl h1
        · exact Or.inr (fun l1 => (hcomp l1 w).2 (Or.inr h1))
      · rintro (h1 | h1)
        · exact (hcomp l w).2 (Or.inl h1)
        · exact h1 l
    have hall := @Appends_forLoop _ _ hcol matrix.Columns.toNat 0 [] w
    rcases hall.1 hw with h | ⟨x, hx0, hx1, y, hy0, hy1, hm⟩
    · cases h
    · rcases disc_calls_in_cell hn2 hr x y _ STROKE_COLOR [] w (hm []) with h | h
      · cases h
      · rw [hmb]
        exact cell_in_bounds hn hx0 (by omega) hy0 (by omega) h

set_option maxRecDepth 10000 in
/-- Witness of C18 as amended: for the one-cell matrix with `pixelSize = 2` (`n = 3`, `r = 1`)
the stroke call at `(1, 0)` lies within the bounds of the 3-by-3 bitmap and in the square of the
cell `(0, 0)` only. -/
theorem disc_writes_stay_in_cell_witness :
    (⟨1, 0, STROKE_COLOR⟩ : SetCall) ∈ drawCircleCalls
      (fillCircleCalls [] (toRGB 0xFF0000) (0 * normalizedPixSize 2 + circleRadius 2)
        (0 * normalizedPixSize 2 + circleRadius 2) (circleRadius 2))
      STROKE_COLOR (0 * normalizedPixSize 2 + circleRadius 2)
      (0 * normalizedPixSize 2 + circleRadius 2) (circleRadius 2) ∧
    (machineBounds redCell (normalizedPixSize 2)).Contains 1 0 ∧
    ∀ x1 y1 : Int, InCell (normalizedPixSize 2) x1 y1 1 0 → x1 = 0 ∧ y1 = 0 :=
  ⟨by decide,
    ((disc_writes_stay_in_cell redCell 2 (by decide) (by decide) (by decide) (by decide)
      (by decide)).2.1 0 0 (toRGB 0xFF0000)
      ⟨1, 0, STROKE_COLOR⟩ (by decide) (by decide) (by decide) (by decide) (by decide)).2.1,
    ((disc_writes_stay_in_cell redCell 2 (by decide) (by decide) (by decide) (by decide)
      (by decide)).2.1 0 0 (toRGB 0xFF0000)
      ⟨1, 0, STROKE_COLOR⟩ (by decide) (by decide) (by decide) (by decide) (by decide)).2.2⟩

set_option maxRecDepth 10000 in
/-- Counterexample to C18 as stated: with `rows = 6148914691236517206`, `columns = 1`, a bitmap
of one element and `pixSize = 3` (`n = 3`, `r = 1`), the product `h*pixSize` is `2^64 + 2`, which
the 64-bit `int` holds as `2`: the rectangle handed to `image.NewRGBA` is `(0,0)-(3,2)`.  The
cell `(0, 0)` is read, `drawCircle` calls `Set(1, 2)` for it, a pixel of the square of the cell,
and the call falls outside the bitmap and is dropped. -/
theorem disc_write_outside_bitmap :
    normalizedPixSize 3 = 3 ∧ circleRadius 3 = 1 ∧
    (0 : Int) < wrappedDisc.Columns ∧ (0 : Int) < wrappedDisc.Rows ∧
    wrappedDisc.GetPixel 0 0 = .ok 7 ∧
    machineBounds wrappedDisc (normalizedPixSize 3) = ⟨⟨0, 0⟩, ⟨3, 2⟩⟩ ∧
    (⟨1, 2, STROKE_COLOR⟩ : SetCall) ∈ drawCircleCalls
      (fillCircleCalls [] (toRGB 7) (0 * normalizedPixSize 3 + circleRadius 3)
        (0 * normalizedPixSize 3 + circleRadius 3) (circleRadius 3))
      STROKE_COLOR (0 * normalizedPixSize 3 + circleRadius 3)
      (0 * normalizedPixSize 3 + circleRadius 3) (circleRadius 3) ∧
    (0 * normalizedPixSize 3 ≤ (1 : Int) ∧
      (1 : Int) ≤ 0 * normalizedPixSize 3 + normalizedPixSize 3 - 1 ∧
      0 * normalizedPixSize 3 ≤ (2 : Int) ∧
      (2 : Int) ≤ 0 * normalizedPixSize 3 + normalizedPixSize 3 - 1) ∧
    ¬(machineBounds wrappedDisc (normalizedPixSize 3)).Contains 1 2 ∧
    (drawCircle
      (fillCircle
        ((image.NewRGBA (machineBounds wrappedDisc (normalizedPixSize 3))).DrawUniformSrc
          ⟨0, 0, 0, 255⟩)
        (toRGB 7) (0 * normalizedPixSize 3 + circleRadius 3)
        (0 * normalizedPixSize 3 + circleRadius 3) (circleRadius 3))
      STROKE_COLOR (0 * normalizedPixSize 3 + circleRadius 3)
      (0 * normalizedPixSize 3 + circleRadius 3) (circleRadius 3)).At 1 2 = ⟨0, 0, 0, 0⟩ := by
  refine ⟨by decide, by decide, by decide, by decide, by decide, by decide, by decide,
    by decide, by decide, by decide⟩

end imgrenderer
